import Mathlib

/-!
# Bracketing root finders of ME2020_NumericalAnalysis

A shallow embedding of

* `nonlinear-equation-solvers/cxx/module-nonlinear-solvers.cpp`
  (`nlsolver::bisect`, `nlsolver::regfal`, `check_bounds`, `check_bracket`, `report`,
  `bisector`, `interp`), namespace `Cxx` below, and
* `odes/clang/fzero.c` (`fzero`, `shift`, `check_bracket`, `check_bounds`, `report`),
  namespace `Clang` below.

Numbers: a C/C++ `double` is embedded twice.

* Exact arithmetic: an element of a linearly ordered field `K` (`ℚ` for the concrete runs),
  in the namespaces `Cxx` and `Clang`.  This embedding states what the two files compute when
  no operation rounds; rounding, overflow and the non-finite values of IEEE-754 are outside
  it, and a quotient whose denominator is zero has the value the field gives it.
* IEEE-754 binary64: the type `F64`, in the namespaces `Cxx64` and `Clang64`, which hold the
  same functions, statement by statement.  A finite value is a sign and an integer number of
  units of `2^(-1074)`; `+ - * /` round to nearest, ties to even, each operation on its own
  (no fused multiply-add, no extended precision), with signed zeros, infinities, NaN, and
  comparisons that are false when a NaN is involved.  The statements on doubles hold for
  every value of the type `F64`; where a statement needs its arguments to be doubles (at most
  53 significant binary digits, below `2^1024`) it says so with `F64.valid`.  On doubles the
  loop of the drivers is `F64.doWhile` and the iterated step is `F64.stepN`.

A statement is about the embedding whose namespaces it mentions.

State: the reference / pointer parameters `lb`, `ub`, `xm`/`xn` that the step functions
overwrite are returned as the fields of a `Step`; the `do ... while` loop of the three drivers
is the function `doWhile`, with the loop counter `n` explicit.  `stepN` iterates a step
function without the exit test; `Cxx.bisect_state`, `Cxx.bisect_steps` and their analogues
for `regfal` and `fzero` name the state after `k` passes of a driver's loop and the number of
passes it makes.
-/

/-- The two ways a solver call ends without a value: the `std::runtime_error` thrown
(C++) or the `exit(EXIT_FAILURE)` taken (C) by `check_bracket`, and the `exit(EXIT_FAILURE)`
of the C `report`. -/
inductive SolverError where
  | noRoot
  | noConvergence
  deriving DecidableEq, Repr

/-- What one call of a step function (`bisector`, `interp`, `shift`) leaves behind:
the bounds `lb`, `ub` after the update, the estimate written to `xm` / `xn`, and the
returned residual. -/
structure Step (K : Type) where
  lb : K
  ub : K
  x : K
  res : K
  deriving DecidableEq, Repr

/-- The variables of a driver at the exit of its `do ... while` loop: the bounds, the last
estimate `xm` / `xn`, the last residual `fm` / `fn` and the iteration counter `n`. -/
structure Iter (K : Type) where
  lb : K
  ub : K
  x : K
  fn : K
  n : Nat
  deriving DecidableEq, Repr

section Driver

variable {K : Type} [LinearOrderedField K]

/-- The loop shared by the three drivers,
`do fn = step (lb, ub, xn, f) ; while (++n != MAX_ITER && fn > TOL) ;`
entered with counter `n`.  The drivers enter it with `n = 0`; the counter has to be below
`maxIter` on entry for the loop to end, which is the precondition `h`. -/
def doWhile (maxIter : Nat) (tol : K) (step : (K → K) → K → K → Step K) (f : K → K)
    (lb ub : K) (n : Nat) (h : n < maxIter) : Iter K :=
  let s := step f lb ub
  if c : n + 1 ≠ maxIter ∧ s.res > tol then
    doWhile maxIter tol step f s.lb s.ub (n + 1) (by omega)
  else
    ⟨s.lb, s.ub, s.x, s.res, n + 1⟩
termination_by maxIter - n

/-- The state after `k` consecutive calls of a step function, started from the bounds
`(lb, ub)`; before the first call the estimate and the residual are not yet assigned, the
value `0` stands for them. -/
def stepN (step : (K → K) → K → K → Step K) (f : K → K) (lb ub : K) : Nat → Step K
  | 0 => ⟨lb, ub, 0, 0⟩
  | k + 1 => step f (stepN step f lb ub k).lb (stepN step f lb ub k).ub

end Driver

namespace Cxx

variable {K : Type} [LinearOrderedField K]

/-- The constant `const int MAX_ITER = 100 ;`. -/
def MAX_ITER : Nat := 100

/-- The constant `const double TOL = 1.0e-6 ;`. -/
def TOL : K := 1 / 1000000

/-- The console line written by `report`. -/
inductive Report where
  | solutionFound (n : Nat)
  | methodFailed
  deriving DecidableEq, Repr

/-- What a call of `bisect` / `regfal` leaves behind: the caller's bounds (passed by
reference, so visible after the call also when it throws) and either the exception or the
returned estimate with the console line of `report`. -/
structure Outcome (K : Type) where
  lb : K
  ub : K
  result : Except SolverError (K × Report)

/-- Function `check_bounds (double& lb, double& ub)`: the bounds after the call. -/
def check_bounds (lb ub : K) : K × K :=
  let low := ub
  if lb > ub then (low, lb) else (lb, ub)

/-- Function `check_bracket`: throws `std::runtime_error` when `f(lb) * f(ub) > 0.`. -/
def check_bracket (f : K → K) (lb ub : K) : Except SolverError Unit :=
  if f lb * f ub > 0 then .error .noRoot else .ok ()

/-- Function `report (const int& n)`: the line it prints. -/
def report (n : Nat) : Report :=
  if n ≠ MAX_ITER then .solutionFound n else .methodFailed

/-- Function `bisector (lb, ub, xm, f)`. -/
def bisector (f : K → K) (lb ub : K) : Step K :=
  let xm := (1 / 2) * (lb + ub)
  let fm := f xm
  let res := if fm < 0 then -fm else fm
  if f lb * fm < 0 then ⟨lb, xm, xm, res⟩ else ⟨xm, ub, xm, res⟩

/-- Function `interp (lb, ub, xn, f)`. -/
def interp (f : K → K) (lb ub : K) : Step K :=
  let xn := (lb * f ub - ub * f lb) / (f ub - f lb)
  let fn := f xn
  let res := if fn < 0 then -fn else fn
  if f lb * fn < 0 then ⟨lb, xn, xn, res⟩ else ⟨xn, ub, xn, res⟩

/-- The variables of `nlsolver::bisect` at the exit of its loop, for bounds that went
through `check_bounds` and `check_bracket`. -/
def bisect_loop (f : K → K) (lb ub : K) : Iter K :=
  doWhile MAX_ITER TOL bisector f lb ub 0 (by decide)

/-- The variables of `nlsolver::regfal` at the exit of its loop. -/
def regfal_loop (f : K → K) (lb ub : K) : Iter K :=
  doWhile MAX_ITER TOL interp f lb ub 0 (by decide)

/-- Function `nlsolver::bisect (lb, ub, f)`. -/
def bisect (f : K → K) (lb ub : K) : Outcome K :=
  let b := check_bounds lb ub
  match check_bracket f b.1 b.2 with
  | .error e => ⟨b.1, b.2, .error e⟩
  | .ok _ =>
    let it := bisect_loop f b.1 b.2
    ⟨it.lb, it.ub, .ok (it.x, report it.n)⟩

/-- Function `nlsolver::regfal (lb, ub, f)`. -/
def regfal (f : K → K) (lb ub : K) : Outcome K :=
  let b := check_bounds lb ub
  match check_bracket f b.1 b.2 with
  | .error e => ⟨b.1, b.2, .error e⟩
  | .ok _ =>
    let it := regfal_loop f b.1 b.2
    ⟨it.lb, it.ub, .ok (it.x, report it.n)⟩

end Cxx

namespace Clang

variable {K : Type} [LinearOrderedField K]

/-- Modelled from the spec: the macro `MAX_ITER` of the header `fzero.h`, which is not among
the sources; the spec gives the default of 100 iterations. -/
def MAX_ITER : Nat := 100

/-- Modelled from the spec: the macro `TOL` of the header `fzero.h`, which is not among the
sources; the spec gives the default tolerance 1e-6. -/
def TOL : K := 1 / 1000000

/-- Modelled from the spec: the macro `absval` of the header `fzero.h`, which is not among
the sources; the spec reads it as the absolute value (`|f(xb)| < |f(xf)|`, `|f(xn)|`), and
`test.c` defines the macro of that name as `( (x < 0.)? -x: x )`. -/
def absval (x : K) : K := if x < 0 then -x else x

/-- Function `shift (lb, ub, xn, f, vprms)`; the parameter block `vprms` is part of `f`. -/
def shift (f : K → K) (lb ub : K) : Step K :=
  let xb := (1 / 2) * (lb + ub)
  let xf := (lb * f ub - ub * f lb) / (f ub - f lb)
  let xn := if absval (f xb) < absval (f xf) then xb else xf
  let fn := f xn
  if f lb * fn < 0 then ⟨lb, xn, xn, absval fn⟩ else ⟨xn, ub, xn, absval fn⟩

/-- Function `check_bracket`: leaves through `exit(EXIT_FAILURE)` when
`f(lb) * f(ub) > 0.`. -/
def check_bracket (f : K → K) (lb ub : K) : Except SolverError Unit :=
  if f lb * f ub > 0 then .error .noRoot else .ok ()

/-- Function `check_bounds (double *lb, double *ub)`: the bounds after the call. -/
def check_bounds (lb ub : K) : K × K :=
  let up := lb
  if lb > ub then (ub, up) else (lb, ub)

/-- Function `report (max_iter, n, nm, verbose)`: returns when `n != max_iter` (the value is the
iteration count printed when `verbose`), leaves through `exit(EXIT_FAILURE)` otherwise. -/
def report (max_iter n : Nat) (verbose : Bool) : Except SolverError (Option Nat) :=
  if n ≠ max_iter then .ok (if verbose then some n else none) else .error .noConvergence

/-- The variables of `fzero` at the exit of its loop, for bounds that went through
`check_bracket` and `check_bounds`. -/
def fzero_loop (f : K → K) (lb ub : K) : Iter K :=
  doWhile MAX_ITER TOL shift f lb ub 0 (by decide)

/-- Function `fzero (lb, ub, f, vprms)`.  The macro `VERBOSE` of the missing header only selects
whether `report` prints, it is the parameter `verbose`. -/
def fzero (verbose : Bool) (f : K → K) (lb ub : K) : Except SolverError K :=
  match check_bracket f lb ub with
  | .error e => .error e
  | .ok _ =>
    let b := check_bounds lb ub
    let it := fzero_loop f b.1 b.2
    match report MAX_ITER it.n verbose with
    | .error e => .error e
    | .ok _ => .ok it.x

end Clang

section Runs

variable {K : Type} [LinearOrderedField K]

/-- The bounds, estimate and residual in `nlsolver::bisect (lb, ub, f)` after `k` passes of
its loop body, the bounds having gone through `check_bounds` first (`k = 0`: on entering the
loop). -/
def Cxx.bisect_state (f : K → K) (lb ub : K) (k : Nat) : Step K :=
  stepN Cxx.bisector f (Cxx.check_bounds lb ub).1 (Cxx.check_bounds lb ub).2 k

/-- The number of passes the loop of `nlsolver::bisect (lb, ub, f)` makes, the final value
of its counter `n`. -/
def Cxx.bisect_steps (f : K → K) (lb ub : K) : Nat :=
  (Cxx.bisect_loop f (Cxx.check_bounds lb ub).1 (Cxx.check_bounds lb ub).2).n

/-- The bounds, estimate and residual in `nlsolver::regfal (lb, ub, f)` after `k` passes of
its loop body. -/
def Cxx.regfal_state (f : K → K) (lb ub : K) (k : Nat) : Step K :=
  stepN Cxx.interp f (Cxx.check_bounds lb ub).1 (Cxx.check_bounds lb ub).2 k

/-- The number of passes the loop of `nlsolver::regfal (lb, ub, f)` makes. -/
def Cxx.regfal_steps (f : K → K) (lb ub : K) : Nat :=
  (Cxx.regfal_loop f (Cxx.check_bounds lb ub).1 (Cxx.check_bounds lb ub).2).n

/-- The bounds, estimate and residual in `fzero (lb, ub, f, vprms)` after `k` passes of its
loop body. -/
def Clang.fzero_state (f : K → K) (lb ub : K) (k : Nat) : Step K :=
  stepN Clang.shift f (Clang.check_bounds lb ub).1 (Clang.check_bounds lb ub).2 k

/-- The number of passes the loop of `fzero (lb, ub, f, vprms)` makes. -/
def Clang.fzero_steps (f : K → K) (lb ub : K) : Nat :=
  (Clang.fzero_loop f (Clang.check_bounds lb ub).1 (Clang.check_bounds lb ub).2).n

end Runs

section Examples

/-- The function `f(x) = x - 1` of the linear scenario. -/
def linearFn (x : ℚ) : ℚ := x - 1

/-- The function `f(x) = x² + 1` of the scenario without a real root. -/
def noRootFn (x : ℚ) : ℚ := x * x + 1

/-- The function `f(x) = x² - 2` of the square-root scenario. -/
def sqrtTwoFn (x : ℚ) : ℚ := x * x - 2

/-- The function that is zero everywhere. -/
def zeroFn (_ : ℚ) : ℚ := 0

end Examples

section Brackets

variable {K : Type} [LinearOrderedField K]

/-- What a step function does on an interval `a < b` whose ends have values of `f` of
opposite sign: the estimate lies strictly between the bounds, the residual is `|f x|`, and
the estimate replaces `ub` when `f a * f x < 0` and `lb` otherwise. -/
def BracketStep (step : (K → K) → K → K → Step K) (f : K → K) : Prop :=
  ∀ a b : K, a < b → f a * f b < 0 →
    a < (step f a b).x ∧ (step f a b).x < b ∧ (step f a b).res = |f (step f a b).x| ∧
    (((step f a b).lb = a ∧ (step f a b).ub = (step f a b).x ∧ f a * f (step f a b).x < 0) ∨
     ((step f a b).lb = (step f a b).x ∧ (step f a b).ub = b ∧
        ¬ f a * f (step f a b).x < 0))

end Brackets

section Binary64

/-- The number of binary digits of `n`: sixteen digits at a time while `n` has more than
sixteen, then one at a time; the first argument bounds the number of steps and `bitLen n n`
is the length of `n`. -/
def bitLen : Nat → Nat → Nat
  | 0, _ => 0
  | fuel + 1, n =>
    if n = 0 then 0
    else if n < 65536 then bitLen fuel (n / 2) + 1
    else bitLen fuel (n / 65536) + 16

/-- An IEEE-754 binary64 value, the `double` of the two source files: a NaN, an infinity with
its sign, or a finite number `(-1)^neg * k * 2^(-1074)` with its sign kept apart, so that
`+0` and `-0` differ.  Every finite `double` is a multiple of `2^(-1074)`; the doubles are the
values `fin neg k` with `k < 2^2098` whose `k` has at most 53 significant bits. -/
inductive F64 where
  | nan
  | inf (neg : Bool)
  | fin (neg : Bool) (k : Nat)
  deriving DecidableEq, Repr

namespace F64

/-- The number of low binary digits that rounding drops from a magnitude of `q` units: a
`double` has 53 significant binary digits, so it is the length of `q` less 53, and `0` below
`2^53` units, where the doubles (the subnormal ones among them) are one unit apart. -/
def shiftOf (q : Nat) : Nat := bitLen q q - 53

/-- The integer nearest to `n / dq`, ties to the even one. -/
def rne (n dq : Nat) : Nat :=
  if 2 * (n % dq) < dq then n / dq
  else if dq < 2 * (n % dq) then n / dq + 1
  else if (n / dq) % 2 = 0 then n / dq else n / dq + 1

/-- Rounding to nearest, ties to even, of the magnitude `n / d` units of `2^(-1074)`
(`d > 0`): a value whose integer part `n / d` has `53 + sh` binary digits is rounded to the
nearest multiple of `2^sh` units. -/
def roundMag (n d : Nat) : Nat :=
  rne n (d * 2 ^ shiftOf (n / d)) * 2 ^ shiftOf (n / d)

/-- The `double` nearest to `n / d` units of `2^(-1074)` (`d > 0`), with the sign `neg`: the
rounded magnitude, or an infinity when that is `2^2098` units (`2^1024`) or more. -/
def roundQuot (neg : Bool) (n d : Nat) : F64 :=
  if 2 ^ 2098 ≤ roundMag n d then inf neg else fin neg (roundMag n d)

/-- The literal `0.`. -/
def zero : F64 := fin false 0

/-- The `double` a decimal literal with the value `n / d` (`d > 0`) denotes: the nearest one. -/
def ofRatio (n d : Nat) : F64 := roundQuot false (n * 2 ^ 1074) d

/-- The finite value as an integer number of units of `2^(-1074)`. -/
def units (neg : Bool) (k : Nat) : Int := if neg then -(k : Int) else (k : Int)

/-- Unary minus. -/
def neg : F64 → F64
  | nan => nan
  | inf s => inf (!s)
  | fin s k => fin (!s) k

/-- Addition `a + b`. -/
def add : F64 → F64 → F64
  | nan, _ => nan
  | _, nan => nan
  | inf s, inf t => if s = t then inf s else nan
  | inf s, fin _ _ => inf s
  | fin _ _, inf t => inf t
  | fin s k, fin t l =>
    if s = t then roundQuot s (k + l) 1
    else if k = l then fin false 0
    else if l < k then roundQuot s (k - l) 1
    else roundQuot t (l - k) 1

/-- Subtraction `a - b`. -/
def sub (a b : F64) : F64 := add a (neg b)

/-- Multiplication `a * b`. -/
def mul : F64 → F64 → F64
  | nan, _ => nan
  | _, nan => nan
  | inf s, inf t => inf (xor s t)
  | inf s, fin t l => if l = 0 then nan else inf (xor s t)
  | fin s k, inf t => if k = 0 then nan else inf (xor s t)
  | fin s k, fin t l => roundQuot (xor s t) (k * l) (2 ^ 1074)

/-- Division `a / b`. -/
def div : F64 → F64 → F64
  | nan, _ => nan
  | _, nan => nan
  | inf _, inf _ => nan
  | inf s, fin t _ => inf (xor s t)
  | fin s _, inf t => fin (xor s t) 0
  | fin s k, fin t l =>
    if l = 0 then (if k = 0 then nan else inf (xor s t))
    else roundQuot (xor s t) (k * 2 ^ 1074) l

/-- The comparison `a < b`; false when a NaN is involved. -/
def lt : F64 → F64 → Bool
  | nan, _ => false
  | _, nan => false
  | inf s, inf t => s && !t
  | inf s, fin _ _ => s
  | fin _ _, inf t => !t
  | fin s k, fin t l => decide (units s k < units t l)

/-- The comparison `a > b`. -/
def gt (a b : F64) : Bool := lt b a

/-- The comparison `a <= b`; false when a NaN is involved. -/
def le : F64 → F64 → Bool
  | nan, _ => false
  | _, nan => false
  | inf s, inf t => s || !t
  | inf s, fin _ _ => s
  | fin _ _, inf t => !t
  | fin s k, fin t l => decide (units s k ≤ units t l)

/-- The comparison `a == b`: false when a NaN is involved, true for `+0` and `-0`. -/
def eq : F64 → F64 → Bool
  | nan, _ => false
  | _, nan => false
  | inf s, inf t => decide (s = t)
  | inf _, fin _ _ => false
  | fin _ _, inf _ => false
  | fin s k, fin t l => decide (units s k = units t l)

/-- Whether the value is a NaN. -/
def isNaN : F64 → Bool
  | nan => true
  | _ => false

/-- Whether the value is a finite number. -/
def isFinite : F64 → Bool
  | fin _ _ => true
  | _ => false

/-- Whether the value is a `double`: a finite one has a magnitude below `2^2098` units
(`2^1024`) with at most 53 significant binary digits. -/
def valid : F64 → Bool
  | fin _ k => decide (k < 2 ^ 2098 ∧ k % 2 ^ shiftOf k = 0)
  | _ => true

/-- The double `0x1p1023`, that is `2^1023` or `2^2097` units: the sum of two doubles of
smaller magnitude does not overflow. -/
def twoPow1023 : F64 := fin false (2 ^ 2097)

/-- The expression `(x < 0.) ? -x : x` by which both source files take an absolute value. -/
def absval (x : F64) : F64 := if lt x zero then neg x else x

/-- The loop of the three drivers on doubles,
`do fn = step (lb, ub, xn, f) ; while (++n != MAX_ITER && fn > TOL) ;`
entered with counter `n < maxIter`. -/
def doWhile (maxIter : Nat) (tol : F64) (step : (F64 → F64) → F64 → F64 → Step F64)
    (f : F64 → F64) (lb ub : F64) (n : Nat) (h : n < maxIter) : Iter F64 :=
  let s := step f lb ub
  if c : n + 1 ≠ maxIter ∧ gt s.res tol = true then
    doWhile maxIter tol step f s.lb s.ub (n + 1) (by omega)
  else
    ⟨s.lb, s.ub, s.x, s.res, n + 1⟩
termination_by maxIter - n

/-- The state after `k` consecutive calls of a step function on doubles, started from the
bounds `(lb, ub)`; before the first call the estimate and the residual are not assigned, a NaN
stands for them. -/
def stepN (step : (F64 → F64) → F64 → F64 → Step F64) (f : F64 → F64) (lb ub : F64) :
    Nat → Step F64
  | 0 => ⟨lb, ub, nan, nan⟩
  | k + 1 => step f (stepN step f lb ub k).lb (stepN step f lb ub k).ub

end F64

namespace Cxx64

/-- The constant `const double TOL = 1.0e-6 ;`, the double nearest to `10^(-6)`. -/
def TOL : F64 := F64.ofRatio 1 1000000

/-- Function `check_bounds (double& lb, double& ub)` on doubles: the bounds after the call. -/
def check_bounds (lb ub : F64) : F64 × F64 :=
  let low := ub
  if F64.gt lb ub then (low, lb) else (lb, ub)

/-- Function `check_bracket` on doubles: throws when `f(lb) * f(ub) > 0.`. -/
def check_bracket (f : F64 → F64) (lb ub : F64) : Except SolverError Unit :=
  if F64.gt (F64.mul (f lb) (f ub)) F64.zero then .error .noRoot else .ok ()

/-- Function `bisector (lb, ub, xm, f)` on doubles. -/
def bisector (f : F64 → F64) (lb ub : F64) : Step F64 :=
  let xm := F64.mul (F64.ofRatio 1 2) (F64.add lb ub)
  let fm := f xm
  let res := if F64.lt fm F64.zero then F64.neg fm else fm
  if F64.lt (F64.mul (f lb) fm) F64.zero then ⟨lb, xm, xm, res⟩ else ⟨xm, ub, xm, res⟩

/-- Function `interp (lb, ub, xn, f)` on doubles. -/
def interp (f : F64 → F64) (lb ub : F64) : Step F64 :=
  let xn := F64.div (F64.sub (F64.mul lb (f ub)) (F64.mul ub (f lb)))
    (F64.sub (f ub) (f lb))
  let fn := f xn
  let res := if F64.lt fn F64.zero then F64.neg fn else fn
  if F64.lt (F64.mul (f lb) fn) F64.zero then ⟨lb, xn, xn, res⟩ else ⟨xn, ub, xn, res⟩

/-- The variables of `nlsolver::bisect` at the exit of its loop, on doubles. -/
def bisect_loop (f : F64 → F64) (lb ub : F64) : Iter F64 :=
  F64.doWhile Cxx.MAX_ITER TOL bisector f lb ub 0 (by decide)

/-- The variables of `nlsolver::regfal` at the exit of its loop, on doubles. -/
def regfal_loop (f : F64 → F64) (lb ub : F64) : Iter F64 :=
  F64.doWhile Cxx.MAX_ITER TOL interp f lb ub 0 (by decide)

/-- Function `nlsolver::bisect (lb, ub, f)` on doubles. -/
def bisect (f : F64 → F64) (lb ub : F64) : Cxx.Outcome F64 :=
  let b := check_bounds lb ub
  match check_bracket f b.1 b.2 with
  | .error e => ⟨b.1, b.2, .error e⟩
  | .ok _ =>
    let it := bisect_loop f b.1 b.2
    ⟨it.lb, it.ub, .ok (it.x, Cxx.report it.n)⟩

/-- Function `nlsolver::regfal (lb, ub, f)` on doubles. -/
def regfal (f : F64 → F64) (lb ub : F64) : Cxx.Outcome F64 :=
  let b := check_bounds lb ub
  match check_bracket f b.1 b.2 with
  | .error e => ⟨b.1, b.2, .error e⟩
  | .ok _ =>
    let it := regfal_loop f b.1 b.2
    ⟨it.lb, it.ub, .ok (it.x, Cxx.report it.n)⟩

end Cxx64

namespace Clang64

/-- Modelled from the spec: the macro `TOL` of the header `fzero.h`, which is not among the
sources; the spec gives the default tolerance 1e-6, here the double nearest to it. -/
def TOL : F64 := F64.ofRatio 1 1000000

/-- Function `shift (lb, ub, xn, f, vprms)` on doubles; `absval` is `F64.absval`, the macro
as `test.c` defines it. -/
def shift (f : F64 → F64) (lb ub : F64) : Step F64 :=
  let xb := F64.mul (F64.ofRatio 1 2) (F64.add lb ub)
  let xf := F64.div (F64.sub (F64.mul lb (f ub)) (F64.mul ub (f lb)))
    (F64.sub (f ub) (f lb))
  let xn := if F64.lt (F64.absval (f xb)) (F64.absval (f xf)) then xb else xf
  let fn := f xn
  if F64.lt (F64.mul (f lb) fn) F64.zero then ⟨lb, xn, xn, F64.absval fn⟩
  else ⟨xn, ub, xn, F64.absval fn⟩

/-- Function `check_bracket` on doubles: leaves through `exit(EXIT_FAILURE)` when
`f(lb) * f(ub) > 0.`. -/
def check_bracket (f : F64 → F64) (lb ub : F64) : Except SolverError Unit :=
  if F64.gt (F64.mul (f lb) (f ub)) F64.zero then .error .noRoot else .ok ()

/-- Function `check_bounds (double *lb, double *ub)` on doubles: the bounds after the call. -/
def check_bounds (lb ub : F64) : F64 × F64 :=
  let up := lb
  if F64.gt lb ub then (ub, up) else (lb, ub)

/-- The variables of `fzero` at the exit of its loop, on doubles. -/
def fzero_loop (f : F64 → F64) (lb ub : F64) : Iter F64 :=
  F64.doWhile Clang.MAX_ITER TOL shift f lb ub 0 (by decide)

/-- Function `fzero (lb, ub, f, vprms)` on doubles; `verbose` is the macro `VERBOSE`. -/
def fzero (verbose : Bool) (f : F64 → F64) (lb ub : F64) : Except SolverError F64 :=
  match check_bracket f lb ub with
  | .error e => .error e
  | .ok _ =>
    let b := check_bounds lb ub
    let it := fzero_loop f b.1 b.2
    match Clang.report Clang.MAX_ITER it.n verbose with
    | .error e => .error e
    | .ok _ => .ok it.x

end Clang64

/-- The bounds, estimate and residual in `nlsolver::bisect (lb, ub, f)` on doubles after `k`
passes of its loop body (`k = 0`: on entering the loop). -/
def Cxx64.bisect_state (f : F64 → F64) (lb ub : F64) (k : Nat) : Step F64 :=
  F64.stepN Cxx64.bisector f (Cxx64.check_bounds lb ub).1 (Cxx64.check_bounds lb ub).2 k

/-- The bounds, estimate and residual in `nlsolver::regfal (lb, ub, f)` on doubles after `k`
passes of its loop body. -/
def Cxx64.regfal_state (f : F64 → F64) (lb ub : F64) (k : Nat) : Step F64 :=
  F64.stepN Cxx64.interp f (Cxx64.check_bounds lb ub).1 (Cxx64.check_bounds lb ub).2 k

/-- The bounds, estimate and residual in `fzero (lb, ub, f, vprms)` on doubles after `k`
passes of its loop body. -/
def Clang64.fzero_state (f : F64 → F64) (lb ub : F64) (k : Nat) : Step F64 :=
  F64.stepN Clang64.shift f (Clang64.check_bounds lb ub).1 (Clang64.check_bounds lb ub).2 k

/-- The double `1.0`. -/
def F64.one : F64 := F64.ofRatio 1 1

/-- The double `2.0`. -/
def F64.two : F64 := F64.ofRatio 2 1

/-- The double the literal `123.45599999999999` denotes, the one next below `123.456`. -/
def nearLo : F64 := F64.ofRatio 12345599999999999 100000000000000

/-- The double the literal `123.45600000000003` denotes, two doubles above `123.456`. -/
def nearHi : F64 := F64.ofRatio 12345600000000003 100000000000000

/-- The double the literal `123.4560000000024` denotes, 169 doubles above `123.456`. -/
def farHi : F64 := F64.ofRatio 1234560000000024 10000000000000

/-- The double the literal `123.45599999999997` denotes, the one next below `nearLo`. -/
def nearBelow : F64 := F64.ofRatio 12345599999999997 100000000000000

/-- The C function `x * x / x - 1.0`, which is NaN at `0`. -/
def nanAtZeroFn (x : F64) : F64 := F64.sub (F64.div (F64.mul x x) x) F64.one

/-- The C function `x * x + 1.0`, positive everywhere. -/
def parabolaFn (x : F64) : F64 := F64.add (F64.mul x x) F64.one

/-- The C function `1e-200 * (x * x + 1.0)`, positive everywhere. -/
def tinyParabolaFn (x : F64) : F64 :=
  F64.mul (F64.ofRatio 1 (10 ^ 200)) (F64.add (F64.mul x x) F64.one)

/-- The C function `x * (x - 1.0)`, zero at `0` and at `1`. -/
def twoRootsFn (x : F64) : F64 := F64.mul x (F64.sub x F64.one)

/-- The C function that returns `0.` everywhere. -/
def zeroFn64 (_ : F64) : F64 := F64.zero

/-- The C function `x * x - 2.0`. -/
def sqrtTwoFn64 (x : F64) : F64 := F64.sub (F64.mul x x) F64.two

/-- The C function `0.1 * (x - 123.456)`. -/
def shallowLineFn (x : F64) : F64 :=
  F64.mul (F64.ofRatio 1 10) (F64.sub x (F64.ofRatio 123456 1000))

end Binary64

section DriverLemmas

variable {K : Type} [LinearOrderedField K]

theorem doWhile_continue (maxIter : Nat) (tol : K) (step : (K → K) → K → K → Step K)
    (f : K → K) (lb ub : K) (n : Nat) (h : n < maxIter)
    (c : n + 1 ≠ maxIter ∧ (step f lb ub).res > tol) :
    doWhile maxIter tol step f lb ub n h =
      doWhile maxIter tol step f (step f lb ub).lb (step f lb ub).ub (n + 1)
        (by omega) := by
  rw [doWhile]
  simp only [c, ne_eq, not_false_eq_true, and_self, dite_true]

theorem doWhile_exit (maxIter : Nat) (tol : K) (step : (K → K) → K → K → Step K)
    (f : K → K) (lb ub : K) (n : Nat) (h : n < maxIter)
    (c : ¬ (n + 1 ≠ maxIter ∧ (step f lb ub).res > tol)) :
    doWhile maxIter tol step f lb ub n h =
      ⟨(step f lb ub).lb, (step f lb ub).ub, (step f lb ub).x, (step f lb ub).res, n + 1⟩ := by
  rw [doWhile]
  simp only [c, dite_false]

theorem stepN_one (step : (K → K) → K → K → Step K) (f : K → K) (lb ub : K) :
    stepN step f lb ub 1 = step f lb ub := rfl

theorem stepN_succ_bounds (step : (K → K) → K → K → Step K) (f : K → K) (lb ub : K)
    (k : Nat) :
    (stepN step f lb ub (k + 1)).lb = (stepN step f (step f lb ub).lb (step f lb ub).ub k).lb ∧
    (stepN step f lb ub (k + 1)).ub = (stepN step f (step f lb ub).lb (step f lb ub).ub k).ub := by
  induction k with
  | zero => exact ⟨rfl, rfl⟩
  | succ k ih =>
    have e : stepN step f lb ub (k + 1 + 1) =
        step f (stepN step f lb ub (k + 1)).lb (stepN step f lb ub (k + 1)).ub := rfl
    have e2 : stepN step f (step f lb ub).lb (step f lb ub).ub (k + 1) =
        step f (stepN step f (step f lb ub).lb (step f lb ub).ub k).lb
          (stepN step f (step f lb ub).lb (step f lb ub).ub k).ub := rfl
    rw [e, e2, ih.1, ih.2]
    exact ⟨rfl, rfl⟩

theorem stepN_succ_succ (step : (K → K) → K → K → Step K) (f : K → K) (lb ub : K)
    (k : Nat) :
    stepN step f lb ub (k + 2) =
      stepN step f (step f lb ub).lb (step f lb ub).ub (k + 1) := by
  have e : stepN step f lb ub (k + 2) =
      step f (stepN step f lb ub (k + 1)).lb (stepN step f lb ub (k + 1)).ub := rfl
  have e2 : stepN step f (step f lb ub).lb (step f lb ub).ub (k + 1) =
      step f (stepN step f (step f lb ub).lb (step f lb ub).ub k).lb
        (stepN step f (step f lb ub).lb (step f lb ub).ub k).ub := rfl
  rw [e, e2, (stepN_succ_bounds step f lb ub k).1, (stepN_succ_bounds step f lb ub k).2]

/-- The loop entered with counter `n < maxIter` ends; it has then made `j` calls of the step
function, where `j ≥ 1` is the first count at which the residual is within `tol` or the
counter `n + j` equals `maxIter`, and its variables are those left by the `j`-th call. -/
theorem doWhile_spec (maxIter : Nat) (tol : K) (step : (K → K) → K → K → Step K)
    (f : K → K) :
    ∀ (d : Nat) (lb ub : K) (n : Nat) (h : n < maxIter), maxIter - n = d →
      ∃ j : Nat, 1 ≤ j ∧ n + j ≤ maxIter ∧
        doWhile maxIter tol step f lb ub n h =
          ⟨(stepN step f lb ub j).lb, (stepN step f lb ub j).ub, (stepN step f lb ub j).x,
            (stepN step f lb ub j).res, n + j⟩ ∧
        ((stepN step f lb ub j).res ≤ tol ∨ n + j = maxIter) ∧
        ∀ k : Nat, 1 ≤ k → k < j → tol < (stepN step f lb ub k).res ∧ n + k ≠ maxIter := by
  intro d
  induction d with
  | zero => intro lb ub n h hd; omega
  | succ d ih =>
    intro lb ub n h hd
    by_cases c : n + 1 ≠ maxIter ∧ (step f lb ub).res > tol
    · have h1 : n + 1 < maxIter := by omega
      obtain ⟨j, hj1, hjle, hrun, hstop, hmin⟩ :=
        ih (step f lb ub).lb (step f lb ub).ub (n + 1) h1 (by omega)
      obtain ⟨i, rfl⟩ : ∃ i, j = i + 1 := ⟨j - 1, by omega⟩
      refine ⟨i + 2, by omega, by omega, ?_, ?_, ?_⟩
      · rw [doWhile_continue maxIter tol step f lb ub n h c, hrun,
          stepN_succ_succ step f lb ub i]
        have : n + 1 + (i + 1) = n + (i + 2) := by omega
        rw [this]
      · rw [stepN_succ_succ step f lb ub i]
        rcases hstop with hs | hs
        · exact Or.inl hs
        · exact Or.inr (by omega)
      · intro k hk1 hkj
        obtain ⟨m, rfl⟩ : ∃ m, k = m + 1 := ⟨k - 1, by omega⟩
        cases m with
        | zero => exact ⟨c.2, c.1⟩
        | succ m =>
          have := hmin (m + 1) (by omega) (by omega)
          rw [stepN_succ_succ step f lb ub m]
          exact ⟨this.1, by omega⟩
    · refine ⟨1, le_refl 1, by omega, ?_, ?_, ?_⟩
      · rw [doWhile_exit maxIter tol step f lb ub n h c]
        rfl
      · rw [stepN_one]
        by_cases hn : n + 1 = maxIter
        · exact Or.inr hn
        · left
          by_contra hgt
          exact c ⟨hn, lt_of_not_ge hgt⟩
      · intro k hk1 hkj
        omega

/-- The loop entered with `n = 0` makes exactly `j` calls of the step function, where `j` is
the least count from 1 on at which the residual is within `tol` or the count is `maxIter`. -/
theorem doWhile_first_hit (maxIter : Nat) (tol : K) (step : (K → K) → K → K → Step K)
    (f : K → K) (lb ub : K) (h : 0 < maxIter) :
    ∃ j : Nat, 1 ≤ j ∧ j ≤ maxIter ∧
      ((stepN step f lb ub j).res ≤ tol ∨ j = maxIter) ∧
      (∀ k : Nat, 1 ≤ k → k < j → ¬ ((stepN step f lb ub k).res ≤ tol ∨ k = maxIter)) ∧
      doWhile maxIter tol step f lb ub 0 h =
        ⟨(stepN step f lb ub j).lb, (stepN step f lb ub j).ub, (stepN step f lb ub j).x,
          (stepN step f lb ub j).res, j⟩ := by
  obtain ⟨j, hj1, hjle, hrun, hstop, hmin⟩ :=
    doWhile_spec maxIter tol step f maxIter lb ub 0 h rfl
  simp only [Nat.zero_add] at hjle hrun hstop hmin
  refine ⟨j, hj1, hjle, hstop, ?_, hrun⟩
  intro k hk1 hkj hk
  obtain ⟨hres, hne⟩ := hmin k hk1 hkj
  rcases hk with hk | hk
  · exact absurd hres (not_lt.mpr hk)
  · exact hne hk

end DriverLemmas

section StepLemmas

variable {K : Type} [LinearOrderedField K]

theorem abs_ternary (y : K) : (if y < 0 then -y else y) = |y| := by
  split_ifs with h
  · exact (abs_of_neg h).symm
  · exact (abs_of_nonneg (not_lt.mp h)).symm

theorem clang_absval_eq_abs (y : K) : Clang.absval y = |y| := abs_ternary y

theorem cxx_bisector_x (f : K → K) (lb ub : K) :
    (Cxx.bisector f lb ub).x = (1 / 2) * (lb + ub) := by
  unfold Cxx.bisector
  simp only []
  split_ifs <;> rfl

theorem cxx_bisector_res (f : K → K) (lb ub : K) :
    (Cxx.bisector f lb ub).res = |f (Cxx.bisector f lb ub).x| := by
  rw [cxx_bisector_x]
  unfold Cxx.bisector
  simp only [abs_ternary]
  split_ifs <;> rfl

theorem cxx_interp_x (f : K → K) (lb ub : K) :
    (Cxx.interp f lb ub).x = (lb * f ub - ub * f lb) / (f ub - f lb) := by
  unfold Cxx.interp
  simp only []
  split_ifs <;> rfl

theorem cxx_interp_res (f : K → K) (lb ub : K) :
    (Cxx.interp f lb ub).res = |f (Cxx.interp f lb ub).x| := by
  rw [cxx_interp_x]
  unfold Cxx.interp
  simp only [abs_ternary]
  split_ifs <;> rfl

theorem clang_shift_x (f : K → K) (lb ub : K) :
    (Clang.shift f lb ub).x =
      if |f ((1 / 2) * (lb + ub))| < |f ((lb * f ub - ub * f lb) / (f ub - f lb))|
      then (1 / 2) * (lb + ub) else (lb * f ub - ub * f lb) / (f ub - f lb) := by
  unfold Clang.shift
  simp only [clang_absval_eq_abs]
  split_ifs <;> rfl

theorem clang_shift_res (f : K → K) (lb ub : K) :
    (Clang.shift f lb ub).res = |f (Clang.shift f lb ub).x| := by
  rw [clang_shift_x]
  unfold Clang.shift
  simp only [clang_absval_eq_abs]
  split_ifs <;> rfl

/-- At the exit of the loop entered with `n = 0`, for a step function whose residual is
`|f x|`: the counter is between 1 and `maxIter`, and the last estimate is within `tol` unless
the counter equals `maxIter`. -/
theorem doWhile_exit_state (maxIter : Nat) (tol : K) (step : (K → K) → K → K → Step K)
    (f : K → K) (hres : ∀ a b, (step f a b).res = |f (step f a b).x|)
    (lb ub : K) (h : 0 < maxIter) :
    (doWhile maxIter tol step f lb ub 0 h).fn = |f (doWhile maxIter tol step f lb ub 0 h).x| ∧
    1 ≤ (doWhile maxIter tol step f lb ub 0 h).n ∧
    (doWhile maxIter tol step f lb ub 0 h).n ≤ maxIter ∧
    ((doWhile maxIter tol step f lb ub 0 h).fn ≤ tol ∨
      (doWhile maxIter tol step f lb ub 0 h).n = maxIter) := by
  obtain ⟨j, hj1, hjle, hrun, hstop, -⟩ := doWhile_spec maxIter tol step f maxIter lb ub 0 h rfl
  obtain ⟨i, rfl⟩ : ∃ i, j = i + 1 := ⟨j - 1, by omega⟩
  rw [hrun]
  simp only [Nat.zero_add] at hjle hstop ⊢
  refine ⟨?_, hj1, hjle, hstop⟩
  exact hres _ _

theorem cxx_check_bounds_eq (lb ub : K) :
    Cxx.check_bounds lb ub = if lb ≤ ub then (lb, ub) else (ub, lb) := by
  unfold Cxx.check_bounds
  simp only [gt_iff_lt]
  by_cases h : lb ≤ ub
  · rw [if_neg (not_lt.mpr h), if_pos h]
  · rw [if_pos (not_le.mp h), if_neg h]

theorem clang_check_bounds_eq (lb ub : K) :
    Clang.check_bounds lb ub = if lb ≤ ub then (lb, ub) else (ub, lb) := by
  unfold Clang.check_bounds
  simp only [gt_iff_lt]
  by_cases h : lb ≤ ub
  · rw [if_neg (not_lt.mpr h), if_pos h]
  · rw [if_pos (not_le.mp h), if_neg h]

/-- The product tested by `check_bracket` is the same before and after `check_bounds`. -/
theorem cxx_check_bounds_prod (f : K → K) (lb ub : K) :
    f (Cxx.check_bounds lb ub).1 * f (Cxx.check_bounds lb ub).2 = f lb * f ub := by
  rw [cxx_check_bounds_eq]
  split_ifs
  · rfl
  · exact mul_comm _ _

theorem cxx_check_bracket_ok (f : K → K) (lb ub : K) (h : f lb * f ub ≤ 0) :
    Cxx.check_bracket f lb ub = .ok () := by
  unfold Cxx.check_bracket
  rw [if_neg (not_lt.mpr h)]

theorem cxx_check_bracket_error (f : K → K) (lb ub : K) (h : 0 < f lb * f ub) :
    Cxx.check_bracket f lb ub = .error .noRoot := by
  unfold Cxx.check_bracket
  rw [if_pos h]

theorem clang_check_bracket_ok (f : K → K) (lb ub : K) (h : f lb * f ub ≤ 0) :
    Clang.check_bracket f lb ub = .ok () := by
  unfold Clang.check_bracket
  rw [if_neg (not_lt.mpr h)]

theorem clang_check_bracket_error (f : K → K) (lb ub : K) (h : 0 < f lb * f ub) :
    Clang.check_bracket f lb ub = .error .noRoot := by
  unfold Clang.check_bracket
  rw [if_pos h]

/-- Past `check_bracket`, `bisect` is its loop followed by `report`. -/
theorem cxx_bisect_of_bracket (f : K → K) (lb ub : K) (h : f lb * f ub ≤ 0) :
    Cxx.bisect f lb ub =
      ⟨(Cxx.bisect_loop f (Cxx.check_bounds lb ub).1 (Cxx.check_bounds lb ub).2).lb,
       (Cxx.bisect_loop f (Cxx.check_bounds lb ub).1 (Cxx.check_bounds lb ub).2).ub,
       .ok ((Cxx.bisect_loop f (Cxx.check_bounds lb ub).1 (Cxx.check_bounds lb ub).2).x,
         Cxx.report
           (Cxx.bisect_loop f (Cxx.check_bounds lb ub).1 (Cxx.check_bounds lb ub).2).n)⟩ := by
  unfold Cxx.bisect
  simp only []
  rw [cxx_check_bracket_ok f _ _ (by rw [cxx_check_bounds_prod]; exact h)]

/-- Past `check_bracket`, `regfal` is its loop followed by `report`. -/
theorem cxx_regfal_of_bracket (f : K → K) (lb ub : K) (h : f lb * f ub ≤ 0) :
    Cxx.regfal f lb ub =
      ⟨(Cxx.regfal_loop f (Cxx.check_bounds lb ub).1 (Cxx.check_bounds lb ub).2).lb,
       (Cxx.regfal_loop f (Cxx.check_bounds lb ub).1 (Cxx.check_bounds lb ub).2).ub,
       .ok ((Cxx.regfal_loop f (Cxx.check_bounds lb ub).1 (Cxx.check_bounds lb ub).2).x,
         Cxx.report
           (Cxx.regfal_loop f (Cxx.check_bounds lb ub).1 (Cxx.check_bounds lb ub).2).n)⟩ := by
  unfold Cxx.regfal
  simp only []
  rw [cxx_check_bracket_ok f _ _ (by rw [cxx_check_bounds_prod]; exact h)]

/-- Past `check_bracket`, `fzero` returns the last estimate of its loop unless the counter
is `MAX_ITER`, in which case `report` ends the process. -/
theorem clang_fzero_of_bracket (verbose : Bool) (f : K → K) (lb ub : K)
    (h : f lb * f ub ≤ 0) :
    Clang.fzero verbose f lb ub =
      if (Clang.fzero_loop f (Clang.check_bounds lb ub).1 (Clang.check_bounds lb ub).2).n
          ≠ Clang.MAX_ITER
      then .ok (Clang.fzero_loop f (Clang.check_bounds lb ub).1 (Clang.check_bounds lb ub).2).x
      else .error .noConvergence := by
  unfold Clang.fzero
  rw [clang_check_bracket_ok f _ _ h]
  simp only []
  unfold Clang.report
  split_ifs <;> rfl

/-- The exit state of the loop of `bisect`. -/
theorem cxx_bisect_loop_exit (f : K → K) (lb ub : K) :
    (Cxx.bisect_loop f lb ub).fn = |f (Cxx.bisect_loop f lb ub).x| ∧
    1 ≤ (Cxx.bisect_loop f lb ub).n ∧ (Cxx.bisect_loop f lb ub).n ≤ Cxx.MAX_ITER ∧
    (|f (Cxx.bisect_loop f lb ub).x| ≤ Cxx.TOL ∨ (Cxx.bisect_loop f lb ub).n = Cxx.MAX_ITER) := by
  obtain ⟨hfn, h1, h2, hstop⟩ := doWhile_exit_state Cxx.MAX_ITER Cxx.TOL Cxx.bisector f
    (cxx_bisector_res f) lb ub (by decide)
  refine ⟨hfn, h1, h2, ?_⟩
  rcases hstop with hs | hs
  · exact Or.inl (le_of_eq_of_le hfn.symm hs)
  · exact Or.inr hs

/-- The exit state of the loop of `regfal`. -/
theorem cxx_regfal_loop_exit (f : K → K) (lb ub : K) :
    (Cxx.regfal_loop f lb ub).fn = |f (Cxx.regfal_loop f lb ub).x| ∧
    1 ≤ (Cxx.regfal_loop f lb ub).n ∧ (Cxx.regfal_loop f lb ub).n ≤ Cxx.MAX_ITER ∧
    (|f (Cxx.regfal_loop f lb ub).x| ≤ Cxx.TOL ∨ (Cxx.regfal_loop f lb ub).n = Cxx.MAX_ITER) := by
  obtain ⟨hfn, h1, h2, hstop⟩ := doWhile_exit_state Cxx.MAX_ITER Cxx.TOL Cxx.interp f
    (cxx_interp_res f) lb ub (by decide)
  refine ⟨hfn, h1, h2, ?_⟩
  rcases hstop with hs | hs
  · exact Or.inl (le_of_eq_of_le hfn.symm hs)
  · exact Or.inr hs

/-- The exit state of the loop of `fzero`. -/
theorem clang_fzero_loop_exit (f : K → K) (lb ub : K) :
    (Clang.fzero_loop f lb ub).fn = |f (Clang.fzero_loop f lb ub).x| ∧
    1 ≤ (Clang.fzero_loop f lb ub).n ∧ (Clang.fzero_loop f lb ub).n ≤ Clang.MAX_ITER ∧
    (|f (Clang.fzero_loop f lb ub).x| ≤ Clang.TOL ∨
      (Clang.fzero_loop f lb ub).n = Clang.MAX_ITER) := by
  obtain ⟨hfn, h1, h2, hstop⟩ := doWhile_exit_state Clang.MAX_ITER Clang.TOL Clang.shift f
    (clang_shift_res f) lb ub (by decide)
  refine ⟨hfn, h1, h2, ?_⟩
  rcases hstop with hs | hs
  · exact Or.inl (le_of_eq_of_le hfn.symm hs)
  · exact Or.inr hs

theorem cxx_report_of_max : Cxx.report Cxx.MAX_ITER = .methodFailed := by
  unfold Cxx.report
  rw [if_neg (not_not.mpr rfl)]

theorem cxx_report_of_ne (n : Nat) (h : n ≠ Cxx.MAX_ITER) :
    Cxx.report n = .solutionFound n := by
  unfold Cxx.report
  rw [if_pos h]

/-- A loop whose first step already has a residual within `tol` ends with `n = 1`. -/
theorem doWhile_first_step (maxIter : Nat) (tol : K) (step : (K → K) → K → K → Step K)
    (f : K → K) (lb ub : K) (h : 0 < maxIter) (hres : (step f lb ub).res ≤ tol) :
    doWhile maxIter tol step f lb ub 0 h =
      ⟨(step f lb ub).lb, (step f lb ub).ub, (step f lb ub).x, (step f lb ub).res, 1⟩ :=
  doWhile_exit maxIter tol step f lb ub 0 h (fun c => absurd c.2 (not_lt.mpr hres))

theorem cxx_TOL_pos : (0 : K) < Cxx.TOL := by
  unfold Cxx.TOL
  positivity

theorem clang_TOL_pos : (0 : K) < Clang.TOL := by
  unfold Clang.TOL
  positivity

/-- One `bisector` step for `f(x) = x - 1` on `[0, 2^(j+2)]`: the midpoint `2^(j+1)` lies
right of the root, so it becomes the upper bound. -/
theorem cxx_bisector_linearFn_pow (j : Nat) :
    Cxx.bisector linearFn 0 (2 ^ (j + 2)) =
      ⟨0, 2 ^ (j + 1), 2 ^ (j + 1), 2 ^ (j + 1) - 1⟩ := by
  have hm : (1 / 2 : ℚ) * (0 + 2 ^ (j + 2)) = 2 ^ (j + 1) := by
    rw [pow_succ (2 : ℚ) (j + 1)]; ring
  have hp : (1 : ℚ) < 2 ^ (j + 1) := one_lt_pow₀ (by norm_num) (by omega)
  unfold Cxx.bisector
  simp only [hm, linearFn]
  have h1 : ¬ ((2 : ℚ) ^ (j + 1) - 1 < 0) := by linarith
  have h2 : ((0 : ℚ) - 1) * (2 ^ (j + 1) - 1) < 0 := by nlinarith
  rw [if_neg h1, if_pos h2]

/-- The last `bisector` step for `f(x) = x - 1` on `[0, 2]` hits the root `1`. -/
theorem cxx_bisector_linearFn_two :
    Cxx.bisector linearFn 0 2 = ⟨1, 2, 1, 0⟩ := by
  unfold Cxx.bisector
  norm_num [linearFn]

/-- The loop of `bisect` for `f(x) = x - 1`, entered on `[0, 2^(j+1)]` with `n + j = 99`:
every residual before the last is at least `1`, the step that makes the counter `100` hits
the root. -/
theorem cxx_bisect_loop_linearFn_pow :
    ∀ (j n : Nat) (h : n < Cxx.MAX_ITER), n + j = 99 →
      doWhile Cxx.MAX_ITER Cxx.TOL Cxx.bisector linearFn 0 (2 ^ (j + 1)) n h =
        ⟨1, 2, 1, 0, 100⟩ := by
  intro j
  induction j with
  | zero =>
    intro n h hn
    have hn99 : n = 99 := by omega
    subst hn99
    rw [doWhile_exit Cxx.MAX_ITER Cxx.TOL Cxx.bisector linearFn 0 (2 ^ (0 + 1)) 99 h
      (fun c => c.1 rfl)]
    norm_num [cxx_bisector_linearFn_two]
  | succ j ih =>
    intro n h hn
    have hstep := cxx_bisector_linearFn_pow j
    have htol : (Cxx.TOL : ℚ) < 1 := by unfold Cxx.TOL; norm_num
    have c : n + 1 ≠ Cxx.MAX_ITER ∧
        (Cxx.bisector linearFn 0 (2 ^ (j + 1 + 1))).res > Cxx.TOL := by
      refine ⟨by unfold Cxx.MAX_ITER; omega, ?_⟩
      rw [hstep]
      show Cxx.TOL < (2 : ℚ) ^ (j + 1) - 1
      have h2 : (1 : ℚ) ≤ 2 ^ j := one_le_pow₀ (by norm_num)
      rw [pow_succ]
      linarith
    rw [doWhile_continue Cxx.MAX_ITER Cxx.TOL Cxx.bisector linearFn 0 (2 ^ (j + 1 + 1)) n h c]
    simp only [hstep]
    exact ih (n + 1) _ (by omega)

/-- Without a bracket `regfal` ends in `check_bracket`. -/
theorem cxx_regfal_result_of_no_bracket (f : K → K) (lb ub : K) (h : 0 < f lb * f ub) :
    (Cxx.regfal f lb ub).result = .error .noRoot := by
  have hp : 0 < f (Cxx.check_bounds lb ub).1 * f (Cxx.check_bounds lb ub).2 := by
    rw [cxx_check_bounds_prod]; exact h
  unfold Cxx.regfal
  simp only []
  rw [cxx_check_bracket_error f _ _ hp]

/-- Without a bracket `fzero` ends in `check_bracket`. -/
theorem clang_fzero_of_no_bracket (verbose : Bool) (f : K → K) (lb ub : K)
    (h : 0 < f lb * f ub) :
    Clang.fzero verbose f lb ub = .error .noRoot := by
  unfold Clang.fzero
  rw [clang_check_bracket_error f lb ub h]

end StepLemmas

section BracketLemmas

variable {K : Type} [LinearOrderedField K]

/-- The secant root of two values of opposite sign lies strictly between the abscissae. -/
theorem secant_between (a b fa fb : K) (hab : a < b) (h : fa * fb < 0) :
    a < (a * fb - b * fa) / (fb - fa) ∧ (a * fb - b * fa) / (fb - fa) < b := by
  have hba : 0 < b - a := sub_pos.mpr hab
  rcases mul_neg_iff.mp h with ⟨hfa, hfb⟩ | ⟨hfa, hfb⟩
  · have hden : fb - fa < 0 := by linarith
    constructor
    · rw [lt_div_iff_of_neg hden]
      nlinarith
    · rw [div_lt_iff_of_neg hden]
      nlinarith
  · have hden : 0 < fb - fa := by linarith
    constructor
    · rw [lt_div_iff₀ hden]
      nlinarith
    · rw [div_lt_iff₀ hden]
      nlinarith

theorem cxx_bisector_bounds (f : K → K) (lb ub : K) :
    ((Cxx.bisector f lb ub).lb = lb ∧ (Cxx.bisector f lb ub).ub = (Cxx.bisector f lb ub).x ∧
      f lb * f (Cxx.bisector f lb ub).x < 0) ∨
    ((Cxx.bisector f lb ub).lb = (Cxx.bisector f lb ub).x ∧ (Cxx.bisector f lb ub).ub = ub ∧
      ¬ f lb * f (Cxx.bisector f lb ub).x < 0) := by
  rw [cxx_bisector_x]
  unfold Cxx.bisector
  simp only [abs_ternary]
  by_cases h : f lb * f (1 / 2 * (lb + ub)) < 0
  · rw [if_pos h]; exact Or.inl ⟨rfl, rfl, h⟩
  · rw [if_neg h]; exact Or.inr ⟨rfl, rfl, h⟩

theorem cxx_interp_bounds (f : K → K) (lb ub : K) :
    ((Cxx.interp f lb ub).lb = lb ∧ (Cxx.interp f lb ub).ub = (Cxx.interp f lb ub).x ∧
      f lb * f (Cxx.interp f lb ub).x < 0) ∨
    ((Cxx.interp f lb ub).lb = (Cxx.interp f lb ub).x ∧ (Cxx.interp f lb ub).ub = ub ∧
      ¬ f lb * f (Cxx.interp f lb ub).x < 0) := by
  rw [cxx_interp_x]
  unfold Cxx.interp
  simp only [abs_ternary]
  by_cases h : f lb * f ((lb * f ub - ub * f lb) / (f ub - f lb)) < 0
  · rw [if_pos h]; exact Or.inl ⟨rfl, rfl, h⟩
  · rw [if_neg h]; exact Or.inr ⟨rfl, rfl, h⟩

theorem clang_shift_bounds (f : K → K) (lb ub : K) :
    ((Clang.shift f lb ub).lb = lb ∧ (Clang.shift f lb ub).ub = (Clang.shift f lb ub).x ∧
      f lb * f (Clang.shift f lb ub).x < 0) ∨
    ((Clang.shift f lb ub).lb = (Clang.shift f lb ub).x ∧ (Clang.shift f lb ub).ub = ub ∧
      ¬ f lb * f (Clang.shift f lb ub).x < 0) := by
  rw [clang_shift_x]
  unfold Clang.shift
  simp only [clang_absval_eq_abs]
  by_cases h1 : |f (1 / 2 * (lb + ub))| < |f ((lb * f ub - ub * f lb) / (f ub - f lb))|
  · simp only [if_pos h1]
    by_cases h2 : f lb * f (1 / 2 * (lb + ub)) < 0
    · rw [if_pos h2]; exact Or.inl ⟨rfl, rfl, h2⟩
    · rw [if_neg h2]; exact Or.inr ⟨rfl, rfl, h2⟩
  · simp only [if_neg h1]
    by_cases h2 : f lb * f ((lb * f ub - ub * f lb) / (f ub - f lb)) < 0
    · rw [if_pos h2]; exact Or.inl ⟨rfl, rfl, h2⟩
    · rw [if_neg h2]; exact Or.inr ⟨rfl, rfl, h2⟩

theorem cxx_bisector_bracketStep (f : K → K) : BracketStep Cxx.bisector f := by
  intro a b hab _
  refine ⟨?_, ?_, cxx_bisector_res f a b, cxx_bisector_bounds f a b⟩
  · rw [cxx_bisector_x]; linarith
  · rw [cxx_bisector_x]; linarith

theorem cxx_interp_bracketStep (f : K → K) : BracketStep Cxx.interp f := by
  intro a b hab h
  obtain ⟨h1, h2⟩ := secant_between a b (f a) (f b) hab h
  refine ⟨?_, ?_, cxx_interp_res f a b, cxx_interp_bounds f a b⟩
  · rw [cxx_interp_x]; exact h1
  · rw [cxx_interp_x]; exact h2

theorem clang_shift_bracketStep (f : K → K) : BracketStep Clang.shift f := by
  intro a b hab h
  obtain ⟨h1, h2⟩ := secant_between a b (f a) (f b) hab h
  refine ⟨?_, ?_, clang_shift_res f a b, clang_shift_bounds f a b⟩
  · rw [clang_shift_x]
    split_ifs
    · linarith
    · exact h1
  · rw [clang_shift_x]
    split_ifs
    · linarith
    · exact h2

/-- One step from a strict bracket `a < b`: the new bounds are ordered, lie inside the old
ones, one of them is the estimate, the width shrinks, the product of the values at the new
bounds is not positive, and it is negative when the residual is not zero. -/
theorem bracketStep_next (step : (K → K) → K → K → Step K) (f : K → K)
    (hs : BracketStep step f) (a b : K) (hab : a < b) (h : f a * f b < 0) :
    (step f a b).lb < (step f a b).ub ∧ a ≤ (step f a b).lb ∧ (step f a b).ub ≤ b ∧
    ((step f a b).x = (step f a b).lb ∨ (step f a b).x = (step f a b).ub) ∧
    (step f a b).ub - (step f a b).lb < b - a ∧
    f (step f a b).lb * f (step f a b).ub ≤ 0 ∧
    (0 < (step f a b).res → f (step f a b).lb * f (step f a b).ub < 0) := by
  obtain ⟨hax, hxb, hres, hcase⟩ := hs a b hab h
  rcases hcase with ⟨hl, hu, hlt⟩ | ⟨hl, hu, hnlt⟩
  · rw [hl, hu]
    exact ⟨hax, le_refl a, le_of_lt hxb, Or.inr rfl, by linarith, le_of_lt hlt, fun _ => hlt⟩
  · rw [hl, hu]
    have hge : 0 ≤ f a * f (step f a b).x := not_lt.mp hnlt
    have hle : f (step f a b).x * f b ≤ 0 := by
      rcases mul_neg_iff.mp h with ⟨hfa, hfb⟩ | ⟨hfa, hfb⟩
      · have hx : 0 ≤ f (step f a b).x := by
          by_contra hneg
          exact hnlt (mul_neg_of_pos_of_neg hfa (not_le.mp hneg))
        exact mul_nonpos_of_nonneg_of_nonpos hx (le_of_lt hfb)
      · have hx : f (step f a b).x ≤ 0 := by
          by_contra hpos
          exact hnlt (mul_neg_of_neg_of_pos hfa (not_le.mp hpos))
        exact mul_nonpos_of_nonpos_of_nonneg hx (le_of_lt hfb)
    refine ⟨hxb, le_of_lt hax, le_refl b, Or.inl rfl, by linarith, hle, ?_⟩
    intro hpos
    have hne : f (step f a b).x ≠ 0 := by
      intro h0
      rw [hres, h0, abs_zero] at hpos
      exact lt_irrefl 0 hpos
    have hbne : f b ≠ 0 := by
      intro h0
      rw [h0, mul_zero] at h
      exact lt_irrefl 0 h
    exact lt_of_le_of_ne hle (mul_ne_zero hne hbne)

/-- While every residual so far is above `tol ≥ 0`, the bounds after `k` steps from a strict
bracket `lb < ub` are again a strict bracket inside `[lb, ub]`. -/
theorem stepN_bracket (step : (K → K) → K → K → Step K) (f : K → K)
    (hs : BracketStep step f) (tol : K) (htol : 0 ≤ tol) (lb ub : K) (hab : lb < ub)
    (h : f lb * f ub < 0) :
    ∀ k : Nat, (∀ j : Nat, 1 ≤ j → j ≤ k → tol < (stepN step f lb ub j).res) →
      (stepN step f lb ub k).lb < (stepN step f lb ub k).ub ∧
      f (stepN step f lb ub k).lb * f (stepN step f lb ub k).ub < 0 ∧
      lb ≤ (stepN step f lb ub k).lb ∧ (stepN step f lb ub k).ub ≤ ub := by
  intro k
  induction k with
  | zero => intro _; exact ⟨hab, h, le_refl lb, le_refl ub⟩
  | succ k ih =>
    intro hres
    obtain ⟨h1, h2, h3, h4⟩ := ih (fun j hj1 hjk => hres j hj1 (Nat.le_succ_of_le hjk))
    obtain ⟨n1, n2, n3, -, -, -, n7⟩ := bracketStep_next step f hs _ _ h1 h2
    have hr : tol < (stepN step f lb ub (k + 1)).res := hres (k + 1) (by omega) (le_refl _)
    have e : stepN step f lb ub (k + 1) =
        step f (stepN step f lb ub k).lb (stepN step f lb ub k).ub := rfl
    rw [e]
    rw [e] at hr
    exact ⟨n1, n7 (lt_of_le_of_lt htol hr), le_trans h3 n2, le_trans n3 h4⟩

/-- The loop entered with `n = 0` on a strict bracket `lb < ub`: it makes `n` steps, and at
the start of each of them the bounds are a strict bracket inside `[lb, ub]`. -/
theorem doWhile_bracket (maxIter : Nat) (tol : K) (step : (K → K) → K → K → Step K)
    (f : K → K) (hs : BracketStep step f) (htol : 0 ≤ tol) (lb ub : K) (hab : lb < ub)
    (h : f lb * f ub < 0) (hm : 0 < maxIter) :
    ∃ n : Nat, 1 ≤ n ∧ n ≤ maxIter ∧
      doWhile maxIter tol step f lb ub 0 hm =
        ⟨(stepN step f lb ub n).lb, (stepN step f lb ub n).ub, (stepN step f lb ub n).x,
          (stepN step f lb ub n).res, n⟩ ∧
      (∀ j : Nat, 1 ≤ j → j < n → tol < (stepN step f lb ub j).res) ∧
      ∀ k : Nat, k < n →
        (stepN step f lb ub k).lb < (stepN step f lb ub k).ub ∧
        f (stepN step f lb ub k).lb * f (stepN step f lb ub k).ub < 0 ∧
        lb ≤ (stepN step f lb ub k).lb ∧ (stepN step f lb ub k).ub ≤ ub := by
  obtain ⟨n, h1, h2, -, hmin, hrun⟩ := doWhile_first_hit maxIter tol step f lb ub hm
  have hres : ∀ j : Nat, 1 ≤ j → j < n → tol < (stepN step f lb ub j).res := by
    intro j hj1 hjn
    by_contra hle
    exact hmin j hj1 hjn (Or.inl (not_lt.mp hle))
  refine ⟨n, h1, h2, hrun, hres, ?_⟩
  intro k hk
  exact stepN_bracket step f hs tol htol lb ub hab h k
    (fun j hj1 hjk => hres j hj1 (lt_of_le_of_lt hjk hk))

theorem cxx_check_bounds_min_max (lb ub : K) :
    Cxx.check_bounds lb ub = (min lb ub, max lb ub) := by
  rw [cxx_check_bounds_eq]
  by_cases hle : lb ≤ ub
  · rw [if_pos hle, min_eq_left hle, max_eq_right hle]
  · rw [if_neg hle, min_eq_right (le_of_lt (not_le.mp hle)),
      max_eq_left (le_of_lt (not_le.mp hle))]

theorem clang_check_bounds_min_max (lb ub : K) :
    Clang.check_bounds lb ub = (min lb ub, max lb ub) := by
  rw [clang_check_bounds_eq]
  by_cases hle : lb ≤ ub
  · rw [if_pos hle, min_eq_left hle, max_eq_right hle]
  · rw [if_neg hle, min_eq_right (le_of_lt (not_le.mp hle)),
      max_eq_left (le_of_lt (not_le.mp hle))]

/-- A strict bracket has two different bounds, so `min lb ub < max lb ub`, and the values at
the ordered bounds still have a negative product. -/
theorem strict_bracket_sorted (f : K → K) (lb ub : K) (h : f lb * f ub < 0) :
    min lb ub < max lb ub ∧ f (min lb ub) * f (max lb ub) < 0 := by
  have hne : lb ≠ ub := by
    intro e
    rw [e] at h
    exact absurd h (not_lt.mpr (mul_self_nonneg (f ub)))
  rcases lt_or_gt_of_ne hne with hlt | hgt
  · rw [min_eq_left (le_of_lt hlt), max_eq_right (le_of_lt hlt)]
    exact ⟨hlt, h⟩
  · rw [min_eq_right (le_of_lt hgt), max_eq_left (le_of_lt hgt)]
    exact ⟨hgt, by rw [mul_comm]; exact h⟩

/-- The else branch of the sign rule (`lb := x`) keeps the product of the values at the
bounds non-positive, provided that `f lb = 0` comes with `f x = 0` or `f ub = 0`. -/
theorem sign_rule_else (fa fx fb : K) (hab : fa * fb ≤ 0) (hnlt : ¬ fa * fx < 0)
    (h0 : fa = 0 → fx = 0 ∨ fb = 0) : fx * fb ≤ 0 := by
  rcases lt_trichotomy fa 0 with hfa | hfa | hfa
  · have hx : fx ≤ 0 := by
      by_contra hpos
      exact hnlt (mul_neg_of_neg_of_pos hfa (not_le.mp hpos))
    have hb : 0 ≤ fb := by
      by_contra hneg
      exact absurd hab (not_le.mpr (mul_pos_of_neg_of_neg hfa (not_le.mp hneg)))
    exact mul_nonpos_of_nonpos_of_nonneg hx hb
  · rcases h0 hfa with hx | hb
    · rw [hx, zero_mul]
    · rw [hb, mul_zero]
  · have hx : 0 ≤ fx := by
      by_contra hneg
      exact hnlt (mul_neg_of_pos_of_neg hfa (not_le.mp hneg))
    have hb : fb ≤ 0 := by
      by_contra hpos
      exact absurd hab (not_le.mpr (mul_pos hfa (not_le.mp hpos)))
    exact mul_nonpos_of_nonneg_of_nonpos hx hb

/-- A `bisector` step keeps `f(lb) * f(ub) ≤ 0` from every state in which `f(lb) ≠ 0`. -/
theorem cxx_bisector_keeps_nonpos (f : K → K) (lb ub : K) (h : f lb * f ub ≤ 0)
    (hlb : f lb ≠ 0) :
    f (Cxx.bisector f lb ub).lb * f (Cxx.bisector f lb ub).ub ≤ 0 := by
  rcases cxx_bisector_bounds f lb ub with ⟨hl, hu, hlt⟩ | ⟨hl, hu, hnlt⟩
  · rw [hl, hu]; exact le_of_lt hlt
  · rw [hl, hu]
    exact sign_rule_else _ _ _ h hnlt (fun h0 => absurd h0 hlb)

/-- An `interp` step keeps `f(lb) * f(ub) ≤ 0` from every state with `f(ub) ≠ f(lb)`: when
`f(lb) = 0` the secant estimate is `lb` itself. -/
theorem cxx_interp_keeps_nonpos (f : K → K) (lb ub : K) (h : f lb * f ub ≤ 0)
    (hne : f ub ≠ f lb) :
    f (Cxx.interp f lb ub).lb * f (Cxx.interp f lb ub).ub ≤ 0 := by
  rcases cxx_interp_bounds f lb ub with ⟨hl, hu, hlt⟩ | ⟨hl, hu, hnlt⟩
  · rw [hl, hu]; exact le_of_lt hlt
  · rw [hl, hu]
    refine sign_rule_else _ _ _ h hnlt (fun h0 => Or.inl ?_)
    have hub : f ub ≠ 0 := by rw [h0] at hne; exact hne
    have hx : (Cxx.interp f lb ub).x = lb := by
      rw [cxx_interp_x, h0, mul_zero, sub_zero, sub_zero, mul_div_assoc, div_self hub, mul_one]
    rw [hx, h0]

/-- A `shift` step keeps `f(lb) * f(ub) ≤ 0` from every state with `f(ub) ≠ f(lb)`: when
`f(lb) = 0` the secant estimate is `lb` itself and, having residual zero, it is chosen. -/
theorem clang_shift_keeps_nonpos (f : K → K) (lb ub : K) (h : f lb * f ub ≤ 0)
    (hne : f ub ≠ f lb) :
    f (Clang.shift f lb ub).lb * f (Clang.shift f lb ub).ub ≤ 0 := by
  rcases clang_shift_bounds f lb ub with ⟨hl, hu, hlt⟩ | ⟨hl, hu, hnlt⟩
  · rw [hl, hu]; exact le_of_lt hlt
  · rw [hl, hu]
    refine sign_rule_else _ _ _ h hnlt (fun h0 => Or.inl ?_)
    have hub : f ub ≠ 0 := by rw [h0] at hne; exact hne
    have hxf : (lb * f ub - ub * f lb) / (f ub - f lb) = lb := by
      rw [h0, mul_zero, sub_zero, sub_zero, mul_div_assoc, div_self hub, mul_one]
    have hx : (Clang.shift f lb ub).x = lb := by
      rw [clang_shift_x, hxf, h0, abs_zero, if_neg (not_lt.mpr (abs_nonneg _))]
    rw [hx, h0]

/-- The whole run of the loop on a strict bracket `lb < ub`: besides the facts of
`doWhile_bracket`, after each of the `n` steps the bounds are ordered, inside `[lb, ub]`,
with a non-positive product of the values, and the estimate is one of them. -/
theorem doWhile_bracket_upto (maxIter : Nat) (tol : K) (step : (K → K) → K → K → Step K)
    (f : K → K) (hs : BracketStep step f) (htol : 0 ≤ tol) (lb ub : K) (hab : lb < ub)
    (h : f lb * f ub < 0) (hm : 0 < maxIter) :
    ∃ n : Nat, 1 ≤ n ∧ n ≤ maxIter ∧
      doWhile maxIter tol step f lb ub 0 hm =
        ⟨(stepN step f lb ub n).lb, (stepN step f lb ub n).ub, (stepN step f lb ub n).x,
          (stepN step f lb ub n).res, n⟩ ∧
      (∀ j : Nat, 1 ≤ j → j < n → tol < (stepN step f lb ub j).res) ∧
      (∀ k : Nat, k < n →
        (stepN step f lb ub k).lb < (stepN step f lb ub k).ub ∧
        f (stepN step f lb ub k).lb * f (stepN step f lb ub k).ub < 0) ∧
      (∀ k : Nat, k ≤ n →
        (stepN step f lb ub k).lb < (stepN step f lb ub k).ub ∧
        lb ≤ (stepN step f lb ub k).lb ∧ (stepN step f lb ub k).ub ≤ ub ∧
        f (stepN step f lb ub k).lb * f (stepN step f lb ub k).ub ≤ 0) ∧
      ∀ k : Nat, 1 ≤ k → k ≤ n →
        ((stepN step f lb ub k).x = (stepN step f lb ub k).lb ∨
          (stepN step f lb ub k).x = (stepN step f lb ub k).ub) := by
  obtain ⟨n, h1, h2, hrun, hres, hinv⟩ :=
    doWhile_bracket maxIter tol step f hs htol lb ub hab h hm
  refine ⟨n, h1, h2, hrun, hres, fun k hk => ⟨(hinv k hk).1, (hinv k hk).2.1⟩, ?_, ?_⟩
  · intro k hk
    rcases Nat.lt_or_ge k n with hlt | hge
    · obtain ⟨a1, a2, a3, a4⟩ := hinv k hlt
      exact ⟨a1, a3, a4, le_of_lt a2⟩
    · obtain ⟨i, rfl⟩ : ∃ i, k = i + 1 := ⟨k - 1, by omega⟩
      obtain ⟨a1, a2, a3, a4⟩ := hinv i (by omega)
      obtain ⟨n1, n2, n3, -, -, n6, -⟩ := bracketStep_next step f hs _ _ a1 a2
      exact ⟨n1, le_trans a3 n2, le_trans n3 a4, n6⟩
  · intro k hk1 hk
    obtain ⟨i, rfl⟩ : ∃ i, k = i + 1 := ⟨k - 1, by omega⟩
    obtain ⟨a1, a2, -, -⟩ := hinv i (by omega)
    exact (bracketStep_next step f hs _ _ a1 a2).2.2.2.1

theorem cxx_sorted_bracket (f : K → K) (lb ub : K) (h : f lb * f ub < 0) :
    (Cxx.check_bounds lb ub).1 < (Cxx.check_bounds lb ub).2 ∧
    f (Cxx.check_bounds lb ub).1 * f (Cxx.check_bounds lb ub).2 < 0 := by
  rw [cxx_check_bounds_min_max]
  exact strict_bracket_sorted f lb ub h

theorem clang_sorted_bracket (f : K → K) (lb ub : K) (h : f lb * f ub < 0) :
    (Clang.check_bounds lb ub).1 < (Clang.check_bounds lb ub).2 ∧
    f (Clang.check_bounds lb ub).1 * f (Clang.check_bounds lb ub).2 < 0 := by
  rw [clang_check_bounds_min_max]
  exact strict_bracket_sorted f lb ub h

/-- The run of `bisect` from a valid bracket, in terms of its states and step count. -/
theorem cxx_bisect_run (f : K → K) (lb ub : K) (h : f lb * f ub < 0) :
    1 ≤ Cxx.bisect_steps f lb ub ∧ Cxx.bisect_steps f lb ub ≤ Cxx.MAX_ITER ∧
    Cxx.bisect_loop f (Cxx.check_bounds lb ub).1 (Cxx.check_bounds lb ub).2 =
        ⟨(Cxx.bisect_state f lb ub (Cxx.bisect_steps f lb ub)).lb, (Cxx.bisect_state f lb ub
            (Cxx.bisect_steps f lb ub)).ub, (Cxx.bisect_state f lb ub (Cxx.bisect_steps f lb ub)).x,
          (Cxx.bisect_state f lb ub (Cxx.bisect_steps f lb ub)).res, Cxx.bisect_steps f lb ub⟩ ∧
    (∀ j : Nat, 1 ≤ j → j < Cxx.bisect_steps f lb ub → Cxx.TOL < (Cxx.bisect_state f lb ub j).res) ∧
    (∀ k : Nat, k < Cxx.bisect_steps f lb ub →
      (Cxx.bisect_state f lb ub k).lb < (Cxx.bisect_state f lb ub k).ub ∧
      f (Cxx.bisect_state f lb ub k).lb * f (Cxx.bisect_state f lb ub k).ub < 0) ∧
    (∀ k : Nat, k ≤ Cxx.bisect_steps f lb ub →
      (Cxx.bisect_state f lb ub k).lb < (Cxx.bisect_state f lb ub k).ub ∧
      min lb ub ≤ (Cxx.bisect_state f lb ub k).lb ∧ (Cxx.bisect_state f lb ub k).ub ≤ max lb ub ∧
      f (Cxx.bisect_state f lb ub k).lb * f (Cxx.bisect_state f lb ub k).ub ≤ 0) ∧
    ∀ k : Nat, 1 ≤ k → k ≤ Cxx.bisect_steps f lb ub →
    ((Cxx.bisect_state f lb ub k).x = (Cxx.bisect_state f lb ub k).lb ∨
      (Cxx.bisect_state f lb ub k).x = (Cxx.bisect_state f lb ub k).ub) := by
  obtain ⟨hlt, hprod⟩ := cxx_sorted_bracket f lb ub h
  obtain ⟨n, h1, h2, hrun, hres, hinv, hall, hx⟩ := doWhile_bracket_upto Cxx.MAX_ITER Cxx.TOL
    Cxx.bisector f (cxx_bisector_bracketStep f) (le_of_lt cxx_TOL_pos) _ _ hlt hprod (by decide)
  have hloop : Cxx.bisect_loop f (Cxx.check_bounds lb ub).1 (Cxx.check_bounds lb ub).2 = _ := hrun
  have hn : Cxx.bisect_steps f lb ub = n := by
    unfold Cxx.bisect_steps
    rw [hloop]
  have hm1 : (Cxx.check_bounds lb ub).1 = min lb ub := by rw [cxx_check_bounds_min_max lb ub]
  have hm2 : (Cxx.check_bounds lb ub).2 = max lb ub := by rw [cxx_check_bounds_min_max lb ub]
  rw [hn]
  refine ⟨h1, h2, hloop, hres, hinv, ?_, hx⟩
  intro k hk
  obtain ⟨a1, a2, a3, a4⟩ := hall k hk
  exact ⟨a1, le_of_eq_of_le hm1.symm a2, le_of_le_of_eq a3 hm2, a4⟩

/-- The run of `regfal` from a valid bracket, in terms of its states and step count. -/
theorem cxx_regfal_run (f : K → K) (lb ub : K) (h : f lb * f ub < 0) :
    1 ≤ Cxx.regfal_steps f lb ub ∧ Cxx.regfal_steps f lb ub ≤ Cxx.MAX_ITER ∧
    Cxx.regfal_loop f (Cxx.check_bounds lb ub).1 (Cxx.check_bounds lb ub).2 =
        ⟨(Cxx.regfal_state f lb ub (Cxx.regfal_steps f lb ub)).lb, (Cxx.regfal_state f lb ub
            (Cxx.regfal_steps f lb ub)).ub, (Cxx.regfal_state f lb ub (Cxx.regfal_steps f lb ub)).x,
          (Cxx.regfal_state f lb ub (Cxx.regfal_steps f lb ub)).res, Cxx.regfal_steps f lb ub⟩ ∧
    (∀ j : Nat, 1 ≤ j → j < Cxx.regfal_steps f lb ub → Cxx.TOL < (Cxx.regfal_state f lb ub j).res) ∧
    (∀ k : Nat, k < Cxx.regfal_steps f lb ub →
      (Cxx.regfal_state f lb ub k).lb < (Cxx.regfal_state f lb ub k).ub ∧
      f (Cxx.regfal_state f lb ub k).lb * f (Cxx.regfal_state f lb ub k).ub < 0) ∧
    (∀ k : Nat, k ≤ Cxx.regfal_steps f lb ub →
      (Cxx.regfal_state f lb ub k).lb < (Cxx.regfal_state f lb ub k).ub ∧
      min lb ub ≤ (Cxx.regfal_state f lb ub k).lb ∧ (Cxx.regfal_state f lb ub k).ub ≤ max lb ub ∧
      f (Cxx.regfal_state f lb ub k).lb * f (Cxx.regfal_state f lb ub k).ub ≤ 0) ∧
    ∀ k : Nat, 1 ≤ k → k ≤ Cxx.regfal_steps f lb ub →
    ((Cxx.regfal_state f lb ub k).x = (Cxx.regfal_state f lb ub k).lb ∨
      (Cxx.regfal_state f lb ub k).x = (Cxx.regfal_state f lb ub k).ub) := by
  obtain ⟨hlt, hprod⟩ := cxx_sorted_bracket f lb ub h
  obtain ⟨n, h1, h2, hrun, hres, hinv, hall, hx⟩ := doWhile_bracket_upto Cxx.MAX_ITER Cxx.TOL
    Cxx.interp f (cxx_interp_bracketStep f) (le_of_lt cxx_TOL_pos) _ _ hlt hprod (by decide)
  have hloop : Cxx.regfal_loop f (Cxx.check_bounds lb ub).1 (Cxx.check_bounds lb ub).2 = _ := hrun
  have hn : Cxx.regfal_steps f lb ub = n := by
    unfold Cxx.regfal_steps
    rw [hloop]
  have hm1 : (Cxx.check_bounds lb ub).1 = min lb ub := by rw [cxx_check_bounds_min_max lb ub]
  have hm2 : (Cxx.check_bounds lb ub).2 = max lb ub := by rw [cxx_check_bounds_min_max lb ub]
  rw [hn]
  refine ⟨h1, h2, hloop, hres, hinv, ?_, hx⟩
  intro k hk
  obtain ⟨a1, a2, a3, a4⟩ := hall k hk
  exact ⟨a1, le_of_eq_of_le hm1.symm a2, le_of_le_of_eq a3 hm2, a4⟩

/-- The run of `fzero` from a valid bracket, in terms of its states and step count. -/
theorem clang_fzero_run (f : K → K) (lb ub : K) (h : f lb * f ub < 0) :
    1 ≤ Clang.fzero_steps f lb ub ∧ Clang.fzero_steps f lb ub ≤ Clang.MAX_ITER ∧
    Clang.fzero_loop f (Clang.check_bounds lb ub).1 (Clang.check_bounds lb ub).2 =
        ⟨(Clang.fzero_state f lb ub (Clang.fzero_steps f lb ub)).lb, (Clang.fzero_state f lb ub
            (Clang.fzero_steps f lb ub)).ub, (Clang.fzero_state f lb ub (Clang.fzero_steps f lb
              ub)).x, (Clang.fzero_state f lb ub (Clang.fzero_steps f lb ub)).res, Clang.fzero_steps
          f lb ub⟩ ∧
    (∀ j : Nat, 1 ≤ j → j < Clang.fzero_steps f lb ub →
      Clang.TOL < (Clang.fzero_state f lb ub j).res) ∧ (∀ k : Nat, k < Clang.fzero_steps f lb ub →
      (Clang.fzero_state f lb ub k).lb < (Clang.fzero_state f lb ub k).ub ∧
      f (Clang.fzero_state f lb ub k).lb * f (Clang.fzero_state f lb ub k).ub < 0) ∧
    (∀ k : Nat, k ≤ Clang.fzero_steps f lb ub →
      (Clang.fzero_state f lb ub k).lb < (Clang.fzero_state f lb ub k).ub ∧
      min lb ub ≤ (Clang.fzero_state f lb ub k).lb ∧ (Clang.fzero_state f lb ub k).ub ≤ max lb ub ∧
      f (Clang.fzero_state f lb ub k).lb * f (Clang.fzero_state f lb ub k).ub ≤ 0) ∧
    ∀ k : Nat, 1 ≤ k → k ≤ Clang.fzero_steps f lb ub →
    ((Clang.fzero_state f lb ub k).x = (Clang.fzero_state f lb ub k).lb ∨
      (Clang.fzero_state f lb ub k).x = (Clang.fzero_state f lb ub k).ub) := by
  obtain ⟨hlt, hprod⟩ := clang_sorted_bracket f lb ub h
  obtain ⟨n, h1, h2, hrun, hres, hinv, hall, hx⟩ := doWhile_bracket_upto Clang.MAX_ITER Clang.TOL
    Clang.shift f (clang_shift_bracketStep f) (le_of_lt clang_TOL_pos) _ _ hlt hprod (by decide)
  have hloop : Clang.fzero_loop f (Clang.check_bounds lb ub).1 (Clang.check_bounds lb ub).2 = _ :=
    hrun
  have hn : Clang.fzero_steps f lb ub = n := by
    unfold Clang.fzero_steps
    rw [hloop]
  have hm1 : (Clang.check_bounds lb ub).1 = min lb ub := by rw [clang_check_bounds_min_max lb ub]
  have hm2 : (Clang.check_bounds lb ub).2 = max lb ub := by rw [clang_check_bounds_min_max lb ub]
  rw [hn]
  refine ⟨h1, h2, hloop, hres, hinv, ?_, hx⟩
  intro k hk
  obtain ⟨a1, a2, a3, a4⟩ := hall k hk
  exact ⟨a1, le_of_eq_of_le hm1.symm a2, le_of_le_of_eq a3 hm2, a4⟩

theorem cxx_bisect_state_succ (f : K → K) (lb ub : K) (k : Nat) :
    Cxx.bisect_state f lb ub (k + 1) =
      Cxx.bisector f (Cxx.bisect_state f lb ub k).lb (Cxx.bisect_state f lb ub k).ub := rfl

theorem cxx_regfal_state_succ (f : K → K) (lb ub : K) (k : Nat) :
    Cxx.regfal_state f lb ub (k + 1) =
      Cxx.interp f (Cxx.regfal_state f lb ub k).lb (Cxx.regfal_state f lb ub k).ub := rfl

theorem clang_fzero_state_succ (f : K → K) (lb ub : K) (k : Nat) :
    Clang.fzero_state f lb ub (k + 1) =
      Clang.shift f (Clang.fzero_state f lb ub k).lb (Clang.fzero_state f lb ub k).ub := rfl

/-- A `bisector` step halves the width, whatever the signs. -/
theorem cxx_bisector_width (f : K → K) (lb ub : K) :
    (Cxx.bisector f lb ub).ub - (Cxx.bisector f lb ub).lb = (ub - lb) / 2 := by
  rcases cxx_bisector_bounds f lb ub with ⟨hl, hu, -⟩ | ⟨hl, hu, -⟩
  · rw [hl, hu, cxx_bisector_x]; ring
  · rw [hl, hu, cxx_bisector_x]; ring

theorem cxx_bisect_state_width (f : K → K) (lb ub : K) (k : Nat) :
    (Cxx.bisect_state f lb ub k).ub - (Cxx.bisect_state f lb ub k).lb =
      ((Cxx.check_bounds lb ub).2 - (Cxx.check_bounds lb ub).1) / 2 ^ k := by
  induction k with
  | zero =>
    show (Cxx.check_bounds lb ub).2 - (Cxx.check_bounds lb ub).1 = _
    rw [pow_zero, div_one]
  | succ k ih =>
    rw [cxx_bisect_state_succ, cxx_bisector_width, ih, pow_succ, div_div]

/-- One step of a run taken from a strict bracket: where the estimate lies, which bound it
replaces, and that the width shrinks. -/
theorem bracketStep_move (step : (K → K) → K → K → Step K) (f : K → K)
    (hs : BracketStep step f) (a b : K) (hab : a < b) (h : f a * f b < 0) :
    a < (step f a b).x ∧ (step f a b).x < b ∧
    (((step f a b).lb = a ∧ (step f a b).ub = (step f a b).x) ∨
      ((step f a b).lb = (step f a b).x ∧ (step f a b).ub = b)) ∧
    (step f a b).ub - (step f a b).lb < b - a := by
  obtain ⟨hax, hxb, -, hcase⟩ := hs a b hab h
  refine ⟨hax, hxb, ?_, (bracketStep_next step f hs a b hab h).2.2.2.2.1⟩
  rcases hcase with ⟨hl, hu, -⟩ | ⟨hl, hu, -⟩
  · exact Or.inl ⟨hl, hu⟩
  · exact Or.inr ⟨hl, hu⟩

/-- The secant through two points of a line with slope `a ≠ 0` meets zero at `-b / a`. -/
theorem cxx_interp_affine_x (a b lb ub : K) (ha : a ≠ 0) (hne : lb ≠ ub) :
    (Cxx.interp (fun x => a * x + b) lb ub).x = -b / a := by
  rw [cxx_interp_x]
  have hd : ub - lb ≠ 0 := sub_ne_zero.mpr (Ne.symm hne)
  have hden : a * ub + b - (a * lb + b) ≠ 0 := by
    have e : a * ub + b - (a * lb + b) = a * (ub - lb) := by ring
    rw [e]
    exact mul_ne_zero ha hd
  show (lb * (a * ub + b) - ub * (a * lb + b)) / (a * ub + b - (a * lb + b)) = -b / a
  rw [div_eq_div_iff hden ha]
  ring

theorem cxx_interp_affine_res (a b lb ub : K) (ha : a ≠ 0) (hne : lb ≠ ub) :
    (Cxx.interp (fun x => a * x + b) lb ub).res = 0 := by
  rw [cxx_interp_res, cxx_interp_affine_x a b lb ub ha hne]
  show |a * (-b / a) + b| = 0
  rw [mul_div_cancel₀ _ ha, neg_add_cancel, abs_zero]

/-- The loop of `regfal` on a line: one step. -/
theorem cxx_regfal_loop_affine (a b lb ub : K) (ha : a ≠ 0) (hne : lb ≠ ub) :
    Cxx.regfal_loop (fun x => a * x + b) lb ub =
      ⟨(Cxx.interp (fun x => a * x + b) lb ub).lb, (Cxx.interp (fun x => a * x + b) lb ub).ub,
        -b / a, 0, 1⟩ := by
  have hres := cxx_interp_affine_res a b lb ub ha hne
  have hstep := doWhile_first_step Cxx.MAX_ITER Cxx.TOL Cxx.interp (fun x => a * x + b) lb ub
    (by decide) (by rw [hres]; exact le_of_lt cxx_TOL_pos)
  rw [hres, cxx_interp_affine_x a b lb ub ha hne] at hstep
  exact hstep

/-- The 22 passes of the loop of `bisect` for `f(x) = x² - 2` on `[0, 2]`. -/
theorem cxx_bisect_loop_sqrtTwoFn :
    Cxx.bisect_loop sqrtTwoFn 0 2 =
      ⟨741455 / 524288, 2965821 / 2097152, 2965821 / 2097152, 1181833 / 4398046511104, 22⟩ := by
  unfold Cxx.bisect_loop
  iterate 22 (rw [doWhile]; norm_num [Cxx.bisector, sqrtTwoFn, Cxx.MAX_ITER, Cxx.TOL])

/-- A positive number whose square is within `1/10^6` of `2` is within `1/10^6` of `√2`. -/
theorem near_sqrt_two (x : ℝ) (hx : 1 ≤ x) (h : |x * x - 2| ≤ 1 / 1000000) :
    |x - Real.sqrt 2| ≤ 1 / 1000000 := by
  have hs : Real.sqrt 2 * Real.sqrt 2 = 2 := Real.mul_self_sqrt (by norm_num)
  have h0 : 0 ≤ Real.sqrt 2 := Real.sqrt_nonneg 2
  have h1 : 1 ≤ Real.sqrt 2 := by
    by_contra hlt
    have hlt1 : Real.sqrt 2 < 1 := not_le.mp hlt
    nlinarith
  obtain ⟨hlo, hhi⟩ := abs_le.mp h
  rw [abs_le]
  constructor
  · by_contra hc
    have hc1 : x - Real.sqrt 2 < -(1 / 1000000) := not_le.mp hc
    nlinarith
  · by_contra hc
    have hc1 : 1 / 1000000 < x - Real.sqrt 2 := not_le.mp hc
    nlinarith

/-- One `bisector` step for `f(x) = x` on `[lb, 2]` with `1 ≤ lb < 2`: the values at `lb`
and at the midpoint are both positive, so the midpoint becomes the lower bound. -/
theorem cxx_bisector_id_right (lb : ℚ) (h1 : 1 ≤ lb) :
    Cxx.bisector (fun x : ℚ => x) lb 2 =
      ⟨1 / 2 * (lb + 2), 2, 1 / 2 * (lb + 2), 1 / 2 * (lb + 2)⟩ := by
  have hm : ¬ (1 / 2 * (lb + 2) < 0) := by linarith
  have hp : ¬ (lb * (1 / 2 * (lb + 2)) < 0) := by
    have : 0 ≤ lb * (1 / 2 * (lb + 2)) := mul_nonneg (by linarith) (by linarith)
    exact not_lt.mpr this
  unfold Cxx.bisector
  simp only [if_neg hm, if_neg hp]

/-- The loop of `bisect` for `f(x) = x`, entered on `[lb, 2]` with `1 ≤ lb < 2`: every
residual is at least `1`, so the loop runs until its counter is `MAX_ITER`. -/
theorem cxx_bisect_loop_id_right :
    ∀ (d n : Nat) (lb : ℚ) (h : n < Cxx.MAX_ITER), n + d = 99 → 1 ≤ lb → lb < 2 →
      (doWhile Cxx.MAX_ITER Cxx.TOL Cxx.bisector (fun x : ℚ => x) lb 2 n h).n = 100 := by
  intro d
  induction d with
  | zero =>
    intro n lb h hn _ _
    have hn99 : n = 99 := by omega
    subst hn99
    rw [doWhile_exit Cxx.MAX_ITER Cxx.TOL Cxx.bisector (fun x : ℚ => x) lb 2 99 h
      (fun c => c.1 rfl)]
  | succ d ih =>
    intro n lb h hn h1 h2
    have hstep := cxx_bisector_id_right lb h1
    have c : n + 1 ≠ Cxx.MAX_ITER ∧
        (Cxx.bisector (fun x : ℚ => x) lb 2).res > Cxx.TOL := by
      refine ⟨by unfold Cxx.MAX_ITER; omega, ?_⟩
      rw [hstep]
      show Cxx.TOL < 1 / 2 * (lb + 2)
      unfold Cxx.TOL
      linarith
    rw [doWhile_continue Cxx.MAX_ITER Cxx.TOL Cxx.bisector (fun x : ℚ => x) lb 2 n h c]
    simp only [hstep]
    exact ih (n + 1) _ _ (by omega) (by linarith) (by linarith)

/-- The loop of `bisect` for `f(x) = x` on `[0, 2]` ends with its counter at `MAX_ITER`. -/
theorem cxx_bisect_loop_id :
    (Cxx.bisect_loop (fun x : ℚ => x) 0 2).n = 100 := by
  have hstep : Cxx.bisector (fun x : ℚ => x) 0 2 = ⟨1, 2, 1, 1⟩ := by
    unfold Cxx.bisector
    norm_num
  have c : 0 + 1 ≠ Cxx.MAX_ITER ∧ (Cxx.bisector (fun x : ℚ => x) 0 2).res > Cxx.TOL := by
    refine ⟨by decide, ?_⟩
    rw [hstep]
    show Cxx.TOL < (1 : ℚ)
    unfold Cxx.TOL
    norm_num
  unfold Cxx.bisect_loop
  rw [doWhile_continue Cxx.MAX_ITER Cxx.TOL Cxx.bisector (fun x : ℚ => x) 0 2 0 (by decide) c]
  simp only [hstep]
  exact cxx_bisect_loop_id_right 98 1 1 _ rfl (le_refl 1) (by norm_num)

/-- In exact arithmetic, for every run that starts from a valid bracket, in `bisect`, `regfal`
and `fzero` every step puts its estimate strictly inside the current interval
(`lb < x < ub`) and moves one bound there, so the width `ub - lb` does not increase from one
step to the next; in `bisect` it strictly decreases at every step, being halved, so that
after `k` steps it is `(ub0 - lb0) / 2^k`, with `lb0 ≤ ub0` the bounds left by
`check_bounds`. -/
theorem exact_width_never_increases (f : K → K) (lb ub : K) (h : f lb * f ub < 0) :
    (∀ k : Nat, k < Cxx.bisect_steps f lb ub →
      (Cxx.bisect_state f lb ub k).lb < (Cxx.bisect_state f lb ub (k + 1)).x ∧
      (Cxx.bisect_state f lb ub (k + 1)).x < (Cxx.bisect_state f lb ub k).ub ∧
      (((Cxx.bisect_state f lb ub (k + 1)).lb = (Cxx.bisect_state f lb ub k).lb ∧
          (Cxx.bisect_state f lb ub (k + 1)).ub = (Cxx.bisect_state f lb ub (k + 1)).x) ∨
        ((Cxx.bisect_state f lb ub (k + 1)).lb = (Cxx.bisect_state f lb ub (k + 1)).x ∧
          (Cxx.bisect_state f lb ub (k + 1)).ub = (Cxx.bisect_state f lb ub k).ub)) ∧
      (Cxx.bisect_state f lb ub (k + 1)).ub - (Cxx.bisect_state f lb ub (k + 1)).lb ≤
          (Cxx.bisect_state f lb ub k).ub - (Cxx.bisect_state f lb ub k).lb) ∧
    (∀ k : Nat, k < Cxx.regfal_steps f lb ub →
      (Cxx.regfal_state f lb ub k).lb < (Cxx.regfal_state f lb ub (k + 1)).x ∧
      (Cxx.regfal_state f lb ub (k + 1)).x < (Cxx.regfal_state f lb ub k).ub ∧
      (((Cxx.regfal_state f lb ub (k + 1)).lb = (Cxx.regfal_state f lb ub k).lb ∧
          (Cxx.regfal_state f lb ub (k + 1)).ub = (Cxx.regfal_state f lb ub (k + 1)).x) ∨
        ((Cxx.regfal_state f lb ub (k + 1)).lb = (Cxx.regfal_state f lb ub (k + 1)).x ∧
          (Cxx.regfal_state f lb ub (k + 1)).ub = (Cxx.regfal_state f lb ub k).ub)) ∧
      (Cxx.regfal_state f lb ub (k + 1)).ub - (Cxx.regfal_state f lb ub (k + 1)).lb ≤
          (Cxx.regfal_state f lb ub k).ub - (Cxx.regfal_state f lb ub k).lb) ∧
    (∀ k : Nat, k < Clang.fzero_steps f lb ub →
      (Clang.fzero_state f lb ub k).lb < (Clang.fzero_state f lb ub (k + 1)).x ∧
      (Clang.fzero_state f lb ub (k + 1)).x < (Clang.fzero_state f lb ub k).ub ∧
      (((Clang.fzero_state f lb ub (k + 1)).lb = (Clang.fzero_state f lb ub k).lb ∧
          (Clang.fzero_state f lb ub (k + 1)).ub = (Clang.fzero_state f lb ub (k + 1)).x) ∨
        ((Clang.fzero_state f lb ub (k + 1)).lb = (Clang.fzero_state f lb ub (k + 1)).x ∧
          (Clang.fzero_state f lb ub (k + 1)).ub = (Clang.fzero_state f lb ub k).ub)) ∧
      (Clang.fzero_state f lb ub (k + 1)).ub - (Clang.fzero_state f lb ub (k + 1)).lb ≤
          (Clang.fzero_state f lb ub k).ub - (Clang.fzero_state f lb ub k).lb) ∧
    (∀ k : Nat, k < Cxx.bisect_steps f lb ub →
      (Cxx.bisect_state f lb ub (k + 1)).ub - (Cxx.bisect_state f lb ub (k + 1)).lb <
          (Cxx.bisect_state f lb ub k).ub - (Cxx.bisect_state f lb ub k).lb) ∧
    (∀ k : Nat, k ≤ Cxx.bisect_steps f lb ub →
      (Cxx.bisect_state f lb ub k).ub - (Cxx.bisect_state f lb ub k).lb =
          ((Cxx.check_bounds lb ub).2 - (Cxx.check_bounds lb ub).1) / 2 ^ k) := by
  refine ⟨?_, ?_, ?_, ?_, ?_⟩
  · intro k hk
    obtain ⟨-, -, -, -, hinv, -, -⟩ := cxx_bisect_run f lb ub h
    obtain ⟨m1, m2, m3, m4⟩ := bracketStep_move Cxx.bisector f (cxx_bisector_bracketStep f) _ _
      (hinv k hk).1 (hinv k hk).2
    exact ⟨m1, m2, m3, le_of_lt m4⟩
  · intro k hk
    obtain ⟨-, -, -, -, hinv, -, -⟩ := cxx_regfal_run f lb ub h
    obtain ⟨m1, m2, m3, m4⟩ := bracketStep_move Cxx.interp f (cxx_interp_bracketStep f) _ _
      (hinv k hk).1 (hinv k hk).2
    exact ⟨m1, m2, m3, le_of_lt m4⟩
  · intro k hk
    obtain ⟨-, -, -, -, hinv, -, -⟩ := clang_fzero_run f lb ub h
    obtain ⟨m1, m2, m3, m4⟩ := bracketStep_move Clang.shift f (clang_shift_bracketStep f) _ _
      (hinv k hk).1 (hinv k hk).2
    exact ⟨m1, m2, m3, le_of_lt m4⟩
  · intro k hk
    obtain ⟨-, -, -, -, hinv, -, -⟩ := cxx_bisect_run f lb ub h
    exact (bracketStep_move Cxx.bisector f (cxx_bisector_bracketStep f) _ _
      (hinv k hk).1 (hinv k hk).2).2.2.2
  · intro k _
    exact cxx_bisect_state_width f lb ub k

/-- In exact arithmetic, for every affine function `f(x) = a * x + b` with `a ≠ 0` and every
interval with `f(lb) * f(ub) < 0`, the first `interp` step yields exactly the root `-b / a`
with residual `0`, so `regfal` ends with iteration count 1, prints "solution found in 1
iterations" and returns the exact root. -/
theorem exact_regfal_on_affine (a b lb ub : K) (ha : a ≠ 0)
    (h : (a * lb + b) * (a * ub + b) < 0) :
    (Cxx.interp (fun x => a * x + b) lb ub).x = -b / a ∧
    (Cxx.interp (fun x => a * x + b) lb ub).res = 0 ∧
    (Cxx.regfal_state (fun x => a * x + b) lb ub 1).x = -b / a ∧
    (Cxx.regfal_state (fun x => a * x + b) lb ub 1).res = 0 ∧
    Cxx.regfal_steps (fun x => a * x + b) lb ub = 1 ∧
    (Cxx.regfal (fun x => a * x + b) lb ub).result = .ok (-b / a, .solutionFound 1) := by
  have hf : (fun x => a * x + b) lb * (fun x => a * x + b) ub < 0 := h
  have hne : lb ≠ ub := by
    intro e
    rw [e] at h
    exact absurd h (not_lt.mpr (mul_self_nonneg _))
  have hs := (cxx_sorted_bracket (fun x => a * x + b) lb ub hf).1
  have hloop := cxx_regfal_loop_affine a b _ _ ha (ne_of_lt hs)
  refine ⟨cxx_interp_affine_x a b lb ub ha hne, cxx_interp_affine_res a b lb ub ha hne,
    cxx_interp_affine_x a b _ _ ha (ne_of_lt hs), cxx_interp_affine_res a b _ _ ha (ne_of_lt hs),
    ?_, ?_⟩
  · unfold Cxx.regfal_steps
    rw [hloop]
  · rw [cxx_regfal_of_bracket _ lb ub (le_of_lt hf), hloop]
    rfl

/-- In exact arithmetic, for every run of `bisect`, `regfal` and `fzero` from a valid bracket
(`f(lb) * f(ub) < 0`), the estimate at the exit of the loop lies in the closed initial
interval `[min lb ub, max lb ub]` and is equal to one of the two final bounds. -/
theorem exact_estimate_in_initial_interval (verbose : Bool) (f : K → K) (lb ub : K)
    (h : f lb * f ub < 0) :
    (∃ (x : K) (r : Cxx.Report), (Cxx.bisect f lb ub).result = .ok (x, r) ∧ min lb ub ≤ x ∧
      x ≤ max lb ub ∧ (x = (Cxx.bisect f lb ub).lb ∨ x = (Cxx.bisect f lb ub).ub)) ∧
    (∃ (x : K) (r : Cxx.Report), (Cxx.regfal f lb ub).result = .ok (x, r) ∧ min lb ub ≤ x ∧
      x ≤ max lb ub ∧ (x = (Cxx.regfal f lb ub).lb ∨ x = (Cxx.regfal f lb ub).ub)) ∧
    (min lb ub ≤ (Clang.fzero_loop f (Clang.check_bounds lb ub).1 (Clang.check_bounds lb ub).2).x ∧
      (Clang.fzero_loop f (Clang.check_bounds lb ub).1 (Clang.check_bounds lb ub).2).x ≤ max lb ub ∧
      ((Clang.fzero_loop f (Clang.check_bounds lb ub).1 (Clang.check_bounds lb ub).2).x =
            (Clang.fzero_loop f (Clang.check_bounds lb ub).1 (Clang.check_bounds lb ub).2).lb ∨
        (Clang.fzero_loop f (Clang.check_bounds lb ub).1 (Clang.check_bounds lb ub).2).x =
            (Clang.fzero_loop f (Clang.check_bounds lb ub).1 (Clang.check_bounds lb ub).2).ub) ∧
      (Clang.fzero verbose f lb ub =
            .ok (Clang.fzero_loop f (Clang.check_bounds lb ub).1 (Clang.check_bounds lb ub).2).x ∨
        Clang.fzero verbose f lb ub = .error .noConvergence)) := by
  refine ⟨?_, ?_, ?_⟩
  · obtain ⟨h1, -, hloop, -, -, hall, hx⟩ := cxx_bisect_run f lb ub h
    obtain ⟨a1, a2, a3, -⟩ := hall _ (le_refl _)
    have hxn := hx _ h1 (le_refl _)
    rw [cxx_bisect_of_bracket f lb ub (le_of_lt h), hloop]
    refine ⟨_, _, rfl, ?_, ?_, hxn⟩
    · rcases hxn with e | e
      · rw [e]; exact a2
      · rw [e]; exact le_trans a2 (le_of_lt a1)
    · rcases hxn with e | e
      · rw [e]; exact le_trans (le_of_lt a1) a3
      · rw [e]; exact a3
  · obtain ⟨h1, -, hloop, -, -, hall, hx⟩ := cxx_regfal_run f lb ub h
    obtain ⟨a1, a2, a3, -⟩ := hall _ (le_refl _)
    have hxn := hx _ h1 (le_refl _)
    rw [cxx_regfal_of_bracket f lb ub (le_of_lt h), hloop]
    refine ⟨_, _, rfl, ?_, ?_, hxn⟩
    · rcases hxn with e | e
      · rw [e]; exact a2
      · rw [e]; exact le_trans a2 (le_of_lt a1)
    · rcases hxn with e | e
      · rw [e]; exact le_trans (le_of_lt a1) a3
      · rw [e]; exact a3
  · obtain ⟨h1, -, hloop, -, -, hall, hx⟩ := clang_fzero_run f lb ub h
    obtain ⟨a1, a2, a3, -⟩ := hall _ (le_refl _)
    have hxn := hx _ h1 (le_refl _)
    rw [clang_fzero_of_bracket verbose f lb ub (le_of_lt h), hloop]
    refine ⟨?_, ?_, hxn, ?_⟩
    · rcases hxn with e | e
      · rw [e]; exact a2
      · rw [e]; exact le_trans a2 (le_of_lt a1)
    · rcases hxn with e | e
      · rw [e]; exact le_trans (le_of_lt a1) a3
      · rw [e]; exact a3
    · split_ifs
      · exact Or.inl rfl
      · exact Or.inr rfl

end BracketLemmas

section Binary64Lemmas

set_option maxRecDepth 100000
set_option exponentiation.threshold 5000

theorem f64_doWhile_continue (maxIter : Nat) (tol : F64)
    (step : (F64 → F64) → F64 → F64 → Step F64) (f : F64 → F64) (lb ub : F64) (n : Nat)
    (h : n < maxIter) (c : n + 1 ≠ maxIter ∧ F64.gt (step f lb ub).res tol = true) :
    F64.doWhile maxIter tol step f lb ub n h =
      F64.doWhile maxIter tol step f (step f lb ub).lb (step f lb ub).ub (n + 1)
        (by omega) := by
  rw [F64.doWhile]
  simp only [c, ne_eq, not_false_eq_true, and_self, dite_true]

theorem f64_doWhile_exit (maxIter : Nat) (tol : F64)
    (step : (F64 → F64) → F64 → F64 → Step F64) (f : F64 → F64) (lb ub : F64) (n : Nat)
    (h : n < maxIter) (c : ¬ (n + 1 ≠ maxIter ∧ F64.gt (step f lb ub).res tol = true)) :
    F64.doWhile maxIter tol step f lb ub n h =
      ⟨(step f lb ub).lb, (step f lb ub).ub, (step f lb ub).x, (step f lb ub).res, n + 1⟩ := by
  rw [F64.doWhile]
  simp only [c, dite_false]

theorem f64_stepN_one (step : (F64 → F64) → F64 → F64 → Step F64) (f : F64 → F64)
    (lb ub : F64) : F64.stepN step f lb ub 1 = step f lb ub := rfl

theorem f64_stepN_succ_bounds (step : (F64 → F64) → F64 → F64 → Step F64) (f : F64 → F64)
    (lb ub : F64) (k : Nat) :
    (F64.stepN step f lb ub (k + 1)).lb =
      (F64.stepN step f (step f lb ub).lb (step f lb ub).ub k).lb ∧
    (F64.stepN step f lb ub (k + 1)).ub =
      (F64.stepN step f (step f lb ub).lb (step f lb ub).ub k).ub := by
  induction k with
  | zero => exact ⟨rfl, rfl⟩
  | succ k ih =>
    have e : F64.stepN step f lb ub (k + 1 + 1) =
        step f (F64.stepN step f lb ub (k + 1)).lb (F64.stepN step f lb ub (k + 1)).ub := rfl
    have e2 : F64.stepN step f (step f lb ub).lb (step f lb ub).ub (k + 1) =
        step f (F64.stepN step f (step f lb ub).lb (step f lb ub).ub k).lb
          (F64.stepN step f (step f lb ub).lb (step f lb ub).ub k).ub := rfl
    rw [e, e2, ih.1, ih.2]
    exact ⟨rfl, rfl⟩

theorem f64_stepN_succ_succ (step : (F64 → F64) → F64 → F64 → Step F64) (f : F64 → F64)
    (lb ub : F64) (k : Nat) :
    F64.stepN step f lb ub (k + 2) =
      F64.stepN step f (step f lb ub).lb (step f lb ub).ub (k + 1) := by
  have e : F64.stepN step f lb ub (k + 2) =
      step f (F64.stepN step f lb ub (k + 1)).lb (F64.stepN step f lb ub (k + 1)).ub := rfl
  have e2 : F64.stepN step f (step f lb ub).lb (step f lb ub).ub (k + 1) =
      step f (F64.stepN step f (step f lb ub).lb (step f lb ub).ub k).lb
        (F64.stepN step f (step f lb ub).lb (step f lb ub).ub k).ub := rfl
  rw [e, e2, (f64_stepN_succ_bounds step f lb ub k).1, (f64_stepN_succ_bounds step f lb ub k).2]

/-- The loop on doubles entered with counter `n < maxIter` ends; it has then made `j ≥ 1`
calls of the step function, `j` being the first count at which the test `res > tol` is false
or the counter `n + j` equals `maxIter`, and its variables are those left by the `j`-th
call. -/
theorem f64_doWhile_spec (maxIter : Nat) (tol : F64)
    (step : (F64 → F64) → F64 → F64 → Step F64) (f : F64 → F64) :
    ∀ (d : Nat) (lb ub : F64) (n : Nat) (h : n < maxIter), maxIter - n = d →
      ∃ j : Nat, 1 ≤ j ∧ n + j ≤ maxIter ∧
        F64.doWhile maxIter tol step f lb ub n h =
          ⟨(F64.stepN step f lb ub j).lb, (F64.stepN step f lb ub j).ub,
            (F64.stepN step f lb ub j).x, (F64.stepN step f lb ub j).res, n + j⟩ ∧
        (F64.gt (F64.stepN step f lb ub j).res tol = false ∨ n + j = maxIter) ∧
        ∀ k : Nat, 1 ≤ k → k < j →
          F64.gt (F64.stepN step f lb ub k).res tol = true ∧ n + k ≠ maxIter := by
  intro d
  induction d with
  | zero => intro lb ub n h hd; omega
  | succ d ih =>
    intro lb ub n h hd
    by_cases c : n + 1 ≠ maxIter ∧ F64.gt (step f lb ub).res tol = true
    · have h1 : n + 1 < maxIter := by omega
      obtain ⟨j, hj1, hjle, hrun, hstop, hmin⟩ :=
        ih (step f lb ub).lb (step f lb ub).ub (n + 1) h1 (by omega)
      obtain ⟨i, rfl⟩ : ∃ i, j = i + 1 := ⟨j - 1, by omega⟩
      refine ⟨i + 2, by omega, by omega, ?_, ?_, ?_⟩
      · rw [f64_doWhile_continue maxIter tol step f lb ub n h c, hrun,
          f64_stepN_succ_succ step f lb ub i]
        have : n + 1 + (i + 1) = n + (i + 2) := by omega
        rw [this]
      · rw [f64_stepN_succ_succ step f lb ub i]
        rcases hstop with hs | hs
        · exact Or.inl hs
        · exact Or.inr (by omega)
      · intro k hk1 hkj
        obtain ⟨m, rfl⟩ : ∃ m, k = m + 1 := ⟨k - 1, by omega⟩
        cases m with
        | zero => exact ⟨c.2, c.1⟩
        | succ m =>
          have := hmin (m + 1) (by omega) (by omega)
          rw [f64_stepN_succ_succ step f lb ub m]
          exact ⟨this.1, by omega⟩
    · refine ⟨1, le_refl 1, by omega, ?_, ?_, ?_⟩
      · rw [f64_doWhile_exit maxIter tol step f lb ub n h c]
        rfl
      · rw [f64_stepN_one]
        by_cases hn : n + 1 = maxIter
        · exact Or.inr hn
        · left
          by_contra hgt
          exact c ⟨hn, by simpa using hgt⟩
      · intro k hk1 hkj
        omega

/-- The loop on doubles entered with `n = 0` makes exactly `j` calls of the step function,
where `j` is the least count from 1 on at which the test `res > tol` is false or the count is
`maxIter`. -/
theorem f64_doWhile_first_hit (maxIter : Nat) (tol : F64)
    (step : (F64 → F64) → F64 → F64 → Step F64) (f : F64 → F64) (lb ub : F64)
    (h : 0 < maxIter) :
    ∃ j : Nat, 1 ≤ j ∧ j ≤ maxIter ∧
      (F64.gt (F64.stepN step f lb ub j).res tol = false ∨ j = maxIter) ∧
      (∀ k : Nat, 1 ≤ k → k < j →
        ¬ (F64.gt (F64.stepN step f lb ub k).res tol = false ∨ k = maxIter)) ∧
      F64.doWhile maxIter tol step f lb ub 0 h =
        ⟨(F64.stepN step f lb ub j).lb, (F64.stepN step f lb ub j).ub,
          (F64.stepN step f lb ub j).x, (F64.stepN step f lb ub j).res, j⟩ := by
  obtain ⟨j, hj1, hjle, hrun, hstop, hmin⟩ :=
    f64_doWhile_spec maxIter tol step f maxIter lb ub 0 h rfl
  simp only [Nat.zero_add] at hjle hrun hstop hmin
  refine ⟨j, hj1, hjle, hstop, ?_, hrun⟩
  intro k hk1 hkj hk
  obtain ⟨hres, hne⟩ := hmin k hk1 hkj
  rcases hk with hk | hk
  · rw [hres] at hk
    exact Bool.noConfusion hk
  · exact hne hk

/-- A loop on doubles whose first residual already fails the test `res > tol` ends with
`n = 1`. -/
theorem f64_doWhile_first_step (maxIter : Nat) (tol : F64)
    (step : (F64 → F64) → F64 → F64 → Step F64) (f : F64 → F64) (lb ub : F64)
    (h : 0 < maxIter) (hres : F64.gt (step f lb ub).res tol = false) :
    F64.doWhile maxIter tol step f lb ub 0 h =
      ⟨(step f lb ub).lb, (step f lb ub).ub, (step f lb ub).x, (step f lb ub).res, 1⟩ :=
  f64_doWhile_exit maxIter tol step f lb ub 0 h
    (fun c => by rw [hres] at c; exact Bool.noConfusion c.2)

theorem f64_mul_comm (a b : F64) : F64.mul a b = F64.mul b a := by
  cases a with
  | nan => cases b <;> rfl
  | inf s =>
    cases b with
    | nan => rfl
    | inf t => simp only [F64.mul, Bool.xor_comm]
    | fin t l => simp only [F64.mul, Bool.xor_comm]
  | fin s k =>
    cases b with
    | nan => rfl
    | inf t => simp only [F64.mul, Bool.xor_comm]
    | fin t l => simp only [F64.mul, Bool.xor_comm, Nat.mul_comm]

theorem f64_lt_asymm (a b : F64) (h : F64.lt a b = true) : F64.lt b a = false := by
  cases a with
  | nan => simp [F64.lt] at h
  | inf s =>
    cases b with
    | nan => simp [F64.lt] at h
    | inf t => cases s <;> cases t <;> simp_all [F64.lt]
    | fin t l => cases s <;> simp_all [F64.lt]
  | fin s k =>
    cases b with
    | nan => simp [F64.lt] at h
    | inf t => cases t <;> simp_all [F64.lt]
    | fin t l =>
      simp only [F64.lt, decide_eq_true_eq, decide_eq_false_iff_not, not_lt] at h ⊢
      exact le_of_lt h

/-- The test `a > b` is false exactly when a NaN is involved or `a <= b`. -/
theorem f64_gt_eq_false_iff (a b : F64) :
    F64.gt a b = false ↔ (F64.isNaN a = true ∨ F64.isNaN b = true ∨ F64.le a b = true) := by
  cases a with
  | nan => cases b <;> simp [F64.gt, F64.lt, F64.isNaN]
  | inf s =>
    cases b with
    | nan => simp [F64.gt, F64.lt, F64.isNaN]
    | inf t => cases s <;> cases t <;> simp [F64.gt, F64.lt, F64.le, F64.isNaN]
    | fin t l => cases s <;> simp [F64.gt, F64.lt, F64.le, F64.isNaN]
  | fin s k =>
    cases b with
    | nan => simp [F64.gt, F64.lt, F64.isNaN]
    | inf t => cases t <;> simp [F64.gt, F64.lt, F64.le, F64.isNaN]
    | fin t l => simp [F64.gt, F64.lt, F64.le, F64.isNaN]

theorem f64_roundQuot_zero (s : Bool) : F64.roundQuot s 0 1 = F64.fin s 0 := by
  cases s <;> decide

/-- The difference of two doubles that compare equal is a zero, or a NaN (for two
infinities). -/
theorem f64_sub_of_eq (a b : F64) (h : F64.eq a b = true) :
    F64.sub a b = F64.fin false 0 ∨ F64.sub a b = F64.fin true 0 ∨ F64.sub a b = F64.nan := by
  cases a with
  | nan => simp [F64.eq] at h
  | inf s =>
    cases b with
    | nan => simp [F64.eq] at h
    | inf t =>
      have hst : s = t := by simpa [F64.eq] using h
      subst hst
      right; right
      cases s <;> rfl
    | fin t l => simp [F64.eq] at h
  | fin s k =>
    cases b with
    | nan => simp [F64.eq] at h
    | inf t => simp [F64.eq] at h
    | fin t l =>
      have hu : F64.units s k = F64.units t l := by simpa [F64.eq] using h
      cases s <;> cases t
      · have hkl : k = l := by simpa [F64.units] using hu
        subst hkl
        left
        simp [F64.sub, F64.neg, F64.add]
      · have hk : k = 0 ∧ l = 0 := by
          simp only [F64.units, Bool.false_eq_true, if_false, if_true] at hu
          omega
        obtain ⟨rfl, rfl⟩ := hk
        left
        simp [F64.sub, F64.neg, F64.add, f64_roundQuot_zero]
      · have hk : k = 0 ∧ l = 0 := by
          simp only [F64.units, Bool.false_eq_true, if_false, if_true] at hu
          omega
        obtain ⟨rfl, rfl⟩ := hk
        right; left
        simp [F64.sub, F64.neg, F64.add, f64_roundQuot_zero]
      · have hkl : k = l := by
          simp only [F64.units, if_true] at hu
          omega
        subst hkl
        left
        simp [F64.sub, F64.neg, F64.add]

/-- A quotient whose denominator is a zero or a NaN is not a finite number. -/
theorem f64_div_not_finite (n d : F64)
    (h : d = F64.fin false 0 ∨ d = F64.fin true 0 ∨ d = F64.nan) :
    F64.isFinite (F64.div n d) = false := by
  rcases h with rfl | rfl | rfl
  · cases n with
    | nan => rfl
    | inf s => rfl
    | fin s k =>
      by_cases hk : k = 0
      · simp [F64.div, hk, F64.isFinite]
      · simp [F64.div, hk, F64.isFinite]
  · cases n with
    | nan => rfl
    | inf s => rfl
    | fin s k =>
      by_cases hk : k = 0
      · simp [F64.div, hk, F64.isFinite]
      · simp [F64.div, hk, F64.isFinite]
  · cases n <;> rfl

theorem cxx64_bisector_x (f : F64 → F64) (lb ub : F64) :
    (Cxx64.bisector f lb ub).x = F64.mul (F64.ofRatio 1 2) (F64.add lb ub) := by
  unfold Cxx64.bisector
  simp only []
  split_ifs <;> rfl

theorem cxx64_bisector_res (f : F64 → F64) (lb ub : F64) :
    (Cxx64.bisector f lb ub).res = F64.absval (f (Cxx64.bisector f lb ub).x) := by
  rw [cxx64_bisector_x]
  unfold Cxx64.bisector F64.absval
  simp only []
  by_cases h : F64.lt (F64.mul (f lb) (f (F64.mul (F64.ofRatio 1 2) (F64.add lb ub))))
      F64.zero = true
  · rw [if_pos h]
  · rw [if_neg h]

theorem cxx64_bisector_bounds (f : F64 → F64) (lb ub : F64) :
    ((Cxx64.bisector f lb ub).lb = lb ∧
      (Cxx64.bisector f lb ub).ub = (Cxx64.bisector f lb ub).x) ∨
    ((Cxx64.bisector f lb ub).lb = (Cxx64.bisector f lb ub).x ∧
      (Cxx64.bisector f lb ub).ub = ub) := by
  rw [cxx64_bisector_x]
  unfold Cxx64.bisector
  simp only []
  by_cases h : F64.lt (F64.mul (f lb) (f (F64.mul (F64.ofRatio 1 2) (F64.add lb ub))))
      F64.zero = true
  · rw [if_pos h]; exact Or.inl ⟨rfl, rfl⟩
  · rw [if_neg h]; exact Or.inr ⟨rfl, rfl⟩

theorem cxx64_interp_x (f : F64 → F64) (lb ub : F64) :
    (Cxx64.interp f lb ub).x =
      F64.div (F64.sub (F64.mul lb (f ub)) (F64.mul ub (f lb))) (F64.sub (f ub) (f lb)) := by
  unfold Cxx64.interp
  simp only []
  split_ifs <;> rfl

theorem cxx64_interp_res (f : F64 → F64) (lb ub : F64) :
    (Cxx64.interp f lb ub).res = F64.absval (f (Cxx64.interp f lb ub).x) := by
  rw [cxx64_interp_x]
  unfold Cxx64.interp F64.absval
  simp only []
  by_cases h : F64.lt (F64.mul (f lb) (f (F64.div (F64.sub (F64.mul lb (f ub))
      (F64.mul ub (f lb))) (F64.sub (f ub) (f lb))))) F64.zero = true
  · rw [if_pos h]
  · rw [if_neg h]

theorem cxx64_interp_bounds (f : F64 → F64) (lb ub : F64) :
    ((Cxx64.interp f lb ub).lb = lb ∧ (Cxx64.interp f lb ub).ub = (Cxx64.interp f lb ub).x) ∨
    ((Cxx64.interp f lb ub).lb = (Cxx64.interp f lb ub).x ∧
      (Cxx64.interp f lb ub).ub = ub) := by
  rw [cxx64_interp_x]
  unfold Cxx64.interp
  simp only []
  by_cases h : F64.lt (F64.mul (f lb) (f (F64.div (F64.sub (F64.mul lb (f ub))
      (F64.mul ub (f lb))) (F64.sub (f ub) (f lb))))) F64.zero = true
  · rw [if_pos h]; exact Or.inl ⟨rfl, rfl⟩
  · rw [if_neg h]; exact Or.inr ⟨rfl, rfl⟩

theorem clang64_shift_x (f : F64 → F64) (lb ub : F64) :
    (Clang64.shift f lb ub).x =
      if F64.lt (F64.absval (f (F64.mul (F64.ofRatio 1 2) (F64.add lb ub))))
          (F64.absval (f (F64.div (F64.sub (F64.mul lb (f ub)) (F64.mul ub (f lb)))
            (F64.sub (f ub) (f lb))))) = true
      then F64.mul (F64.ofRatio 1 2) (F64.add lb ub)
      else F64.div (F64.sub (F64.mul lb (f ub)) (F64.mul ub (f lb)))
        (F64.sub (f ub) (f lb)) := by
  unfold Clang64.shift
  simp only []
  split_ifs <;> rfl

theorem clang64_shift_res (f : F64 → F64) (lb ub : F64) :
    (Clang64.shift f lb ub).res = F64.absval (f (Clang64.shift f lb ub).x) := by
  rw [clang64_shift_x]
  unfold Clang64.shift
  simp only []
  split_ifs <;> rfl

theorem clang64_shift_bounds (f : F64 → F64) (lb ub : F64) :
    ((Clang64.shift f lb ub).lb = lb ∧
      (Clang64.shift f lb ub).ub = (Clang64.shift f lb ub).x) ∨
    ((Clang64.shift f lb ub).lb = (Clang64.shift f lb ub).x ∧
      (Clang64.shift f lb ub).ub = ub) := by
  rw [clang64_shift_x]
  unfold Clang64.shift
  simp only []
  split_ifs
  · exact Or.inl ⟨rfl, rfl⟩
  · exact Or.inr ⟨rfl, rfl⟩
  · exact Or.inl ⟨rfl, rfl⟩
  · exact Or.inr ⟨rfl, rfl⟩

theorem cxx64_check_bounds_cases (lb ub : F64) :
    Cxx64.check_bounds lb ub = (lb, ub) ∨ Cxx64.check_bounds lb ub = (ub, lb) := by
  unfold Cxx64.check_bounds
  simp only []
  split_ifs
  · exact Or.inr rfl
  · exact Or.inl rfl

theorem clang64_check_bounds_cases (lb ub : F64) :
    Clang64.check_bounds lb ub = (lb, ub) ∨ Clang64.check_bounds lb ub = (ub, lb) := by
  unfold Clang64.check_bounds
  simp only []
  split_ifs
  · exact Or.inr rfl
  · exact Or.inl rfl

/-- The product tested by `check_bracket` is the same double before and after
`check_bounds`: the multiplication of doubles is commutative. -/
theorem cxx64_check_bounds_prod (f : F64 → F64) (lb ub : F64) :
    F64.mul (f (Cxx64.check_bounds lb ub).1) (f (Cxx64.check_bounds lb ub).2) =
      F64.mul (f lb) (f ub) := by
  rcases cxx64_check_bounds_cases lb ub with h | h
  · rw [h]
  · rw [h]; exact f64_mul_comm _ _

theorem cxx64_check_bracket_ok (f : F64 → F64) (lb ub : F64)
    (h : F64.gt (F64.mul (f lb) (f ub)) F64.zero = false) :
    Cxx64.check_bracket f lb ub = .ok () := by
  unfold Cxx64.check_bracket
  rw [h]
  rfl

theorem cxx64_check_bracket_error (f : F64 → F64) (lb ub : F64)
    (h : F64.gt (F64.mul (f lb) (f ub)) F64.zero = true) :
    Cxx64.check_bracket f lb ub = .error .noRoot := by
  unfold Cxx64.check_bracket
  rw [h]
  rfl

theorem clang64_check_bracket_ok (f : F64 → F64) (lb ub : F64)
    (h : F64.gt (F64.mul (f lb) (f ub)) F64.zero = false) :
    Clang64.check_bracket f lb ub = .ok () := by
  unfold Clang64.check_bracket
  rw [h]
  rfl

theorem clang64_check_bracket_error (f : F64 → F64) (lb ub : F64)
    (h : F64.gt (F64.mul (f lb) (f ub)) F64.zero = true) :
    Clang64.check_bracket f lb ub = .error .noRoot := by
  unfold Clang64.check_bracket
  rw [h]
  rfl

/-- On doubles, past `check_bracket`, `bisect` is its loop followed by `report`. -/
theorem cxx64_bisect_of_bracket (f : F64 → F64) (lb ub : F64)
    (h : F64.gt (F64.mul (f lb) (f ub)) F64.zero = false) :
    Cxx64.bisect f lb ub =
      ⟨(Cxx64.bisect_loop f (Cxx64.check_bounds lb ub).1 (Cxx64.check_bounds lb ub).2).lb,
       (Cxx64.bisect_loop f (Cxx64.check_bounds lb ub).1 (Cxx64.check_bounds lb ub).2).ub,
       .ok ((Cxx64.bisect_loop f (Cxx64.check_bounds lb ub).1 (Cxx64.check_bounds lb ub).2).x,
         Cxx.report
           (Cxx64.bisect_loop f (Cxx64.check_bounds lb ub).1
             (Cxx64.check_bounds lb ub).2).n)⟩ := by
  unfold Cxx64.bisect
  simp only []
  rw [cxx64_check_bracket_ok f _ _ (by rw [cxx64_check_bounds_prod]; exact h)]

/-- On doubles, past `check_bracket`, `regfal` is its loop followed by `report`. -/
theorem cxx64_regfal_of_bracket (f : F64 → F64) (lb ub : F64)
    (h : F64.gt (F64.mul (f lb) (f ub)) F64.zero = false) :
    Cxx64.regfal f lb ub =
      ⟨(Cxx64.regfal_loop f (Cxx64.check_bounds lb ub).1 (Cxx64.check_bounds lb ub).2).lb,
       (Cxx64.regfal_loop f (Cxx64.check_bounds lb ub).1 (Cxx64.check_bounds lb ub).2).ub,
       .ok ((Cxx64.regfal_loop f (Cxx64.check_bounds lb ub).1 (Cxx64.check_bounds lb ub).2).x,
         Cxx.report
           (Cxx64.regfal_loop f (Cxx64.check_bounds lb ub).1
             (Cxx64.check_bounds lb ub).2).n)⟩ := by
  unfold Cxx64.regfal
  simp only []
  rw [cxx64_check_bracket_ok f _ _ (by rw [cxx64_check_bounds_prod]; exact h)]

/-- On doubles, past `check_bracket`, `fzero` returns the last estimate of its loop unless
the counter is `MAX_ITER`, in which case `report` ends the process. -/
theorem clang64_fzero_of_bracket (verbose : Bool) (f : F64 → F64) (lb ub : F64)
    (h : F64.gt (F64.mul (f lb) (f ub)) F64.zero = false) :
    Clang64.fzero verbose f lb ub =
      if (Clang64.fzero_loop f (Clang64.check_bounds lb ub).1 (Clang64.check_bounds lb ub).2).n
          ≠ Clang.MAX_ITER
      then .ok (Clang64.fzero_loop f (Clang64.check_bounds lb ub).1
        (Clang64.check_bounds lb ub).2).x
      else .error .noConvergence := by
  unfold Clang64.fzero
  rw [clang64_check_bracket_ok f _ _ h]
  simp only []
  unfold Clang.report
  split_ifs <;> rfl

/-- On doubles, a computed product `> 0` makes `bisect` throw in `check_bracket`. -/
theorem cxx64_bisect_of_no_bracket (f : F64 → F64) (lb ub : F64)
    (h : F64.gt (F64.mul (f lb) (f ub)) F64.zero = true) :
    Cxx64.bisect f lb ub =
      ⟨(Cxx64.check_bounds lb ub).1, (Cxx64.check_bounds lb ub).2, .error .noRoot⟩ := by
  unfold Cxx64.bisect
  simp only []
  rw [cxx64_check_bracket_error f _ _ (by rw [cxx64_check_bounds_prod]; exact h)]

/-- On doubles, a computed product `> 0` makes `regfal` throw in `check_bracket`. -/
theorem cxx64_regfal_of_no_bracket (f : F64 → F64) (lb ub : F64)
    (h : F64.gt (F64.mul (f lb) (f ub)) F64.zero = true) :
    Cxx64.regfal f lb ub =
      ⟨(Cxx64.check_bounds lb ub).1, (Cxx64.check_bounds lb ub).2, .error .noRoot⟩ := by
  unfold Cxx64.regfal
  simp only []
  rw [cxx64_check_bracket_error f _ _ (by rw [cxx64_check_bounds_prod]; exact h)]

/-- On doubles, a computed product `> 0` makes `fzero` leave in `check_bracket`. -/
theorem clang64_fzero_of_no_bracket (verbose : Bool) (f : F64 → F64) (lb ub : F64)
    (h : F64.gt (F64.mul (f lb) (f ub)) F64.zero = true) :
    Clang64.fzero verbose f lb ub = .error .noRoot := by
  unfold Clang64.fzero
  rw [clang64_check_bracket_error f lb ub h]

/-- At the exit of a loop on doubles entered with `n = 0`, for a step function whose
residual is `absval (f x)` and whose estimate is the bound it replaces: the counter is between
1 and `maxIter`, the test `fn > tol` is false unless the counter equals `maxIter`, and the
last estimate is one of the final bounds. -/
theorem f64_doWhile_exit_state (maxIter : Nat) (tol : F64)
    (step : (F64 → F64) → F64 → F64 → Step F64) (f : F64 → F64)
    (hres : ∀ a b, (step f a b).res = F64.absval (f (step f a b).x))
    (hb : ∀ a b, ((step f a b).lb = a ∧ (step f a b).ub = (step f a b).x) ∨
      ((step f a b).lb = (step f a b).x ∧ (step f a b).ub = b))
    (lb ub : F64) (h : 0 < maxIter) :
    (F64.doWhile maxIter tol step f lb ub 0 h).fn =
      F64.absval (f (F64.doWhile maxIter tol step f lb ub 0 h).x) ∧
    1 ≤ (F64.doWhile maxIter tol step f lb ub 0 h).n ∧
    (F64.doWhile maxIter tol step f lb ub 0 h).n ≤ maxIter ∧
    (F64.gt (F64.doWhile maxIter tol step f lb ub 0 h).fn tol = false ∨
      (F64.doWhile maxIter tol step f lb ub 0 h).n = maxIter) ∧
    ((F64.doWhile maxIter tol step f lb ub 0 h).x =
        (F64.doWhile maxIter tol step f lb ub 0 h).lb ∨
      (F64.doWhile maxIter tol step f lb ub 0 h).x =
        (F64.doWhile maxIter tol step f lb ub 0 h).ub) := by
  obtain ⟨j, hj1, hjle, hstop, -, hrun⟩ := f64_doWhile_first_hit maxIter tol step f lb ub h
  obtain ⟨i, rfl⟩ : ∃ i, j = i + 1 := ⟨j - 1, by omega⟩
  rw [hrun]
  refine ⟨hres _ _, hj1, hjle, hstop, ?_⟩
  rcases hb (F64.stepN step f lb ub i).lb (F64.stepN step f lb ub i).ub with ⟨-, hu⟩ | ⟨hl, -⟩
  · exact Or.inr hu.symm
  · exact Or.inl hl.symm

theorem f64_isNaN_TOL : F64.isNaN Cxx64.TOL = false ∧ F64.isNaN Clang64.TOL = false := by
  decide

/-- With a tolerance that is a number, a failed test `r > TOL` means `r <= TOL` or `r` NaN. -/
theorem f64_test_failed_cxx (r : F64) (h : F64.gt r Cxx64.TOL = false) :
    F64.le r Cxx64.TOL = true ∨ F64.isNaN r = true := by
  rcases (f64_gt_eq_false_iff r Cxx64.TOL).mp h with h1 | h2 | h3
  · exact Or.inr h1
  · rw [f64_isNaN_TOL.1] at h2
    exact Bool.noConfusion h2
  · exact Or.inl h3

theorem f64_test_failed_clang (r : F64) (h : F64.gt r Clang64.TOL = false) :
    F64.le r Clang64.TOL = true ∨ F64.isNaN r = true := by
  rcases (f64_gt_eq_false_iff r Clang64.TOL).mp h with h1 | h2 | h3
  · exact Or.inr h1
  · rw [f64_isNaN_TOL.2] at h2
    exact Bool.noConfusion h2
  · exact Or.inl h3

/-- A computed product `< 0` is not `> 0`. -/
theorem f64_not_gt_of_lt (p : F64) (h : F64.lt p F64.zero = true) :
    F64.gt p F64.zero = false :=
  f64_lt_asymm p F64.zero h

theorem cxx64_bisect_loop_exit (f : F64 → F64) (lb ub : F64) :
    (Cxx64.bisect_loop f lb ub).fn = F64.absval (f (Cxx64.bisect_loop f lb ub).x) ∧
    1 ≤ (Cxx64.bisect_loop f lb ub).n ∧ (Cxx64.bisect_loop f lb ub).n ≤ Cxx.MAX_ITER ∧
    (F64.gt (Cxx64.bisect_loop f lb ub).fn Cxx64.TOL = false ∨
      (Cxx64.bisect_loop f lb ub).n = Cxx.MAX_ITER) ∧
    ((Cxx64.bisect_loop f lb ub).x = (Cxx64.bisect_loop f lb ub).lb ∨
      (Cxx64.bisect_loop f lb ub).x = (Cxx64.bisect_loop f lb ub).ub) :=
  f64_doWhile_exit_state Cxx.MAX_ITER Cxx64.TOL Cxx64.bisector f (cxx64_bisector_res f)
    (cxx64_bisector_bounds f) lb ub (by decide)

theorem cxx64_regfal_loop_exit (f : F64 → F64) (lb ub : F64) :
    (Cxx64.regfal_loop f lb ub).fn = F64.absval (f (Cxx64.regfal_loop f lb ub).x) ∧
    1 ≤ (Cxx64.regfal_loop f lb ub).n ∧ (Cxx64.regfal_loop f lb ub).n ≤ Cxx.MAX_ITER ∧
    (F64.gt (Cxx64.regfal_loop f lb ub).fn Cxx64.TOL = false ∨
      (Cxx64.regfal_loop f lb ub).n = Cxx.MAX_ITER) ∧
    ((Cxx64.regfal_loop f lb ub).x = (Cxx64.regfal_loop f lb ub).lb ∨
      (Cxx64.regfal_loop f lb ub).x = (Cxx64.regfal_loop f lb ub).ub) :=
  f64_doWhile_exit_state Cxx.MAX_ITER Cxx64.TOL Cxx64.interp f (cxx64_interp_res f)
    (cxx64_interp_bounds f) lb ub (by decide)

theorem clang64_fzero_loop_exit (f : F64 → F64) (lb ub : F64) :
    (Clang64.fzero_loop f lb ub).fn = F64.absval (f (Clang64.fzero_loop f lb ub).x) ∧
    1 ≤ (Clang64.fzero_loop f lb ub).n ∧ (Clang64.fzero_loop f lb ub).n ≤ Clang.MAX_ITER ∧
    (F64.gt (Clang64.fzero_loop f lb ub).fn Clang64.TOL = false ∨
      (Clang64.fzero_loop f lb ub).n = Clang.MAX_ITER) ∧
    ((Clang64.fzero_loop f lb ub).x = (Clang64.fzero_loop f lb ub).lb ∨
      (Clang64.fzero_loop f lb ub).x = (Clang64.fzero_loop f lb ub).ub) :=
  f64_doWhile_exit_state Clang.MAX_ITER Clang64.TOL Clang64.shift f (clang64_shift_res f)
    (clang64_shift_bounds f) lb ub (by decide)

/-- The length of zero is zero. -/
theorem bitLen_zero (fuel : Nat) : bitLen fuel 0 = 0 := by
  cases fuel <;> simp [bitLen]

/-- A number is below two to its length. -/
theorem bitLen_lt (fuel n : Nat) (h : n ≤ fuel) : n < 2 ^ bitLen fuel n := by
  induction fuel generalizing n with
  | zero =>
    have : n = 0 := by omega
    subst this
    simp [bitLen]
  | succ fuel ih =>
    unfold bitLen
    split_ifs with h0 h1
    · subst h0
      simp
    · have := ih (n / 2) (by omega)
      rw [pow_succ]
      omega
    · have := ih (n / 65536) (by omega)
      rw [pow_add]
      norm_num
      omega

/-- A positive number is at least two to its length less one. -/
theorem bitLen_ge (fuel n : Nat) (h : n ≤ fuel) (hn : 0 < n) : 2 ^ (bitLen fuel n - 1) ≤ n := by
  induction fuel generalizing n with
  | zero => omega
  | succ fuel ih =>
    unfold bitLen
    rw [if_neg (by omega)]
    split_ifs with h1
    · simp only [Nat.add_sub_cancel]
      by_cases h2 : n / 2 = 0
      · rw [h2, bitLen_zero]
        simpa using hn
      · have h3 := ih (n / 2) (by omega) (by omega)
        have h4 : bitLen fuel (n / 2) ≠ 0 := by
          intro e
          have := bitLen_lt fuel (n / 2) (by omega)
          rw [e] at this
          simp at this
          exact h2 this
        obtain ⟨b, hb⟩ := Nat.exists_eq_succ_of_ne_zero h4
        rw [hb] at h3 ⊢
        simp only [Nat.succ_eq_add_one, Nat.add_sub_cancel] at h3
        rw [pow_succ]
        omega
    · have h3 := ih (n / 65536) (by omega) (by omega)
      have h4 : bitLen fuel (n / 65536) ≠ 0 := by
        intro e
        have := bitLen_lt fuel (n / 65536) (by omega)
        rw [e] at this
        simp at this
        omega
      obtain ⟨b, hb⟩ := Nat.exists_eq_succ_of_ne_zero h4
      rw [hb] at h3 ⊢
      simp only [Nat.succ_eq_add_one, Nat.add_sub_cancel] at h3
      have e : b + 1 + 16 - 1 = b + 16 := by omega
      rw [e, pow_add]
      norm_num
      omega

/-- A magnitude is below two to the power of its shift plus 53. -/
theorem shiftOf_lt (q : Nat) : q < 2 ^ (F64.shiftOf q + 53) := by
  have h := bitLen_lt q q (le_refl _)
  refine lt_of_lt_of_le h (Nat.pow_le_pow_right (by decide) ?_)
  unfold F64.shiftOf
  omega

/-- A magnitude with a positive shift is at least two to the power of its shift plus 52. -/
theorem shiftOf_ge (q : Nat) (h : 0 < F64.shiftOf q) : 2 ^ (F64.shiftOf q + 52) ≤ q := by
  have hq : 0 < q := by
    rcases Nat.eq_zero_or_pos q with e | e
    · rw [e] at h
      simp [F64.shiftOf, bitLen_zero] at h
    · exact e
  have h2 := bitLen_ge q q (le_refl _) hq
  have e : F64.shiftOf q + 52 = bitLen q q - 1 := by
    unfold F64.shiftOf at h ⊢
    omega
  rw [e]
  exact h2

/-- The shift grows with the magnitude. -/
theorem shiftOf_mono (q r : Nat) (h : q ≤ r) : F64.shiftOf q ≤ F64.shiftOf r := by
  by_contra hc
  push_neg at hc
  have h1 := shiftOf_ge q (by omega)
  have h2 := shiftOf_lt r
  have h3 : 2 ^ (F64.shiftOf r + 53) ≤ 2 ^ (F64.shiftOf q + 52) :=
    Nat.pow_le_pow_right (by decide) (by omega)
  omega

/-- The shift of a magnitude between `2^(s + 52)` and `2^(s + 53)`. -/
theorem shiftOf_eq (q s : Nat) (h1 : 2 ^ (s + 52) ≤ q) (h2 : q < 2 ^ (s + 53)) (hs : 0 < s) :
    F64.shiftOf q = s := by
  rcases Nat.lt_trichotomy (F64.shiftOf q) s with c | c | c
  · have h3 := shiftOf_lt q
    have h4 : 2 ^ (F64.shiftOf q + 53) ≤ 2 ^ (s + 52) :=
      Nat.pow_le_pow_right (by decide) (by omega)
    omega
  · exact c
  · have h3 := shiftOf_ge q (by omega)
    have h4 : 2 ^ (s + 53) ≤ 2 ^ (F64.shiftOf q + 52) :=
      Nat.pow_le_pow_right (by decide) (by omega)
    omega

/-- Below `2^53` units the shift is zero. -/
theorem shiftOf_small (q : Nat) (h : q < 2 ^ 53) : F64.shiftOf q = 0 := by
  by_contra hc
  have h3 := shiftOf_ge q (by omega)
  have h4 : 2 ^ 53 ≤ 2 ^ (F64.shiftOf q + 52) := Nat.pow_le_pow_right (by decide) (by omega)
  omega

/-- Rounding to the nearest integer does not go below the quotient. -/
theorem rne_ge (n dq : Nat) : n / dq ≤ F64.rne n dq := by
  unfold F64.rne
  split_ifs <;> omega

/-- Rounding to the nearest integer goes at most one above the quotient. -/
theorem rne_le (n dq : Nat) : F64.rne n dq ≤ n / dq + 1 := by
  unfold F64.rne
  split_ifs <;> omega

/-- Rounding to the nearest integer is monotone. -/
theorem rne_mono (n n2 dq : Nat) (h : n ≤ n2) : F64.rne n dq ≤ F64.rne n2 dq := by
  have hq : n / dq ≤ n2 / dq := Nat.div_le_div_right h
  rcases Nat.lt_or_ge (n / dq) (n2 / dq) with c | c
  · have := rne_le n dq
    have := rne_ge n2 dq
    omega
  · have e : n / dq = n2 / dq := le_antisymm hq c
    have e1 := Nat.div_add_mod n dq
    have e2 := Nat.div_add_mod n2 dq
    rw [e] at e1
    have hr : n % dq ≤ n2 % dq := by omega
    unfold F64.rne
    rw [e]
    split_ifs <;> omega

/-- Rounding to the nearest integer leaves a multiple as it is. -/
theorem rne_exact (m dq : Nat) (hd : 0 < dq) : F64.rne (m * dq) dq = m := by
  unfold F64.rne
  rw [Nat.mul_mod_left, Nat.mul_div_cancel _ hd, if_pos (by omega)]

/-- Rounding to the nearest integer depends on the quotient only. -/
theorem rne_scale (c n dq : Nat) (hc : 0 < c) : F64.rne (c * n) (c * dq) = F64.rne n dq := by
  unfold F64.rne
  rw [Nat.mul_mod_mul_left, Nat.mul_div_mul_left _ _ hc]
  have e1 : (2 * (c * (n % dq)) < c * dq) ↔ (2 * (n % dq) < dq) := by
    rw [show 2 * (c * (n % dq)) = c * (2 * (n % dq)) by ring]
    exact Nat.mul_lt_mul_left hc
  have e2 : (c * dq < 2 * (c * (n % dq))) ↔ (dq < 2 * (n % dq)) := by
    rw [show 2 * (c * (n % dq)) = c * (2 * (n % dq)) by ring]
    exact Nat.mul_lt_mul_left hc
  simp only [e1, e2]

/-- The rounded magnitude is at most two to the power of the shift plus 53. -/
theorem roundMag_upper (n d : Nat) (hd : 0 < d) :
    F64.roundMag n d ≤ 2 ^ (F64.shiftOf (n / d) + 53) := by
  have h1 := shiftOf_lt (n / d)
  rw [Nat.div_lt_iff_lt_mul hd] at h1
  have h2 : n / (d * 2 ^ F64.shiftOf (n / d)) < 2 ^ 53 := by
    rw [Nat.div_lt_iff_lt_mul (Nat.mul_pos hd (Nat.pow_pos (by decide)))]
    calc n < 2 ^ (F64.shiftOf (n / d) + 53) * d := h1
      _ = 2 ^ 53 * (d * 2 ^ F64.shiftOf (n / d)) := by rw [pow_add]; ring
  have h3 := rne_le n (d * 2 ^ F64.shiftOf (n / d))
  unfold F64.roundMag
  calc F64.rne n (d * 2 ^ F64.shiftOf (n / d)) * 2 ^ F64.shiftOf (n / d)
      ≤ 2 ^ 53 * 2 ^ F64.shiftOf (n / d) := Nat.mul_le_mul_right _ (by omega)
    _ = 2 ^ (F64.shiftOf (n / d) + 53) := by rw [pow_add]; ring

/-- With a positive shift the rounded magnitude is at least two to the power of the shift
plus 52. -/
theorem roundMag_lower (n d : Nat) (hd : 0 < d) (hs : 0 < F64.shiftOf (n / d)) :
    2 ^ (F64.shiftOf (n / d) + 52) ≤ F64.roundMag n d := by
  have h1 := shiftOf_ge (n / d) hs
  rw [Nat.le_div_iff_mul_le hd] at h1
  have h2 : 2 ^ 52 ≤ n / (d * 2 ^ F64.shiftOf (n / d)) := by
    rw [Nat.le_div_iff_mul_le (Nat.mul_pos hd (Nat.pow_pos (by decide)))]
    calc 2 ^ 52 * (d * 2 ^ F64.shiftOf (n / d)) = 2 ^ (F64.shiftOf (n / d) + 52) * d := by
          rw [pow_add]; ring
      _ ≤ n := h1
  have h3 := rne_ge n (d * 2 ^ F64.shiftOf (n / d))
  unfold F64.roundMag
  calc 2 ^ (F64.shiftOf (n / d) + 52) = 2 ^ 52 * 2 ^ F64.shiftOf (n / d) := by
        rw [pow_add]; ring
    _ ≤ F64.rne n (d * 2 ^ F64.shiftOf (n / d)) * 2 ^ F64.shiftOf (n / d) :=
        Nat.mul_le_mul_right _ (by omega)

/-- Rounding is monotone: a larger quotient does not round to a smaller double. -/
theorem roundMag_mono (n n2 d : Nat) (hd : 0 < d) (h : n ≤ n2) :
    F64.roundMag n d ≤ F64.roundMag n2 d := by
  have hsh := shiftOf_mono (n / d) (n2 / d) (Nat.div_le_div_right h)
  rcases Nat.eq_or_lt_of_le hsh with e | e
  · unfold F64.roundMag
    rw [← e]
    exact Nat.mul_le_mul_right _ (rne_mono n n2 _ h)
  · have h1 := roundMag_upper n d hd
    have h2 := roundMag_lower n2 d hd (by omega)
    have h3 : 2 ^ (F64.shiftOf (n / d) + 53) ≤ 2 ^ (F64.shiftOf (n2 / d) + 52) :=
      Nat.pow_le_pow_right (by decide) (by omega)
    omega

/-- Rounding leaves a magnitude with at most 53 significant binary digits as it is. -/
theorem roundMag_exact (k d : Nat) (hd : 0 < d) (hk : k % 2 ^ F64.shiftOf k = 0) :
    F64.roundMag (k * d) d = k := by
  unfold F64.roundMag
  rw [Nat.mul_div_cancel k hd]
  have e := Nat.div_mul_cancel (Nat.dvd_of_mod_eq_zero hk)
  have e2 : k * d = (k / 2 ^ F64.shiftOf k) * (d * 2 ^ F64.shiftOf k) := by
    calc k * d = (k / 2 ^ F64.shiftOf k * 2 ^ F64.shiftOf k) * d := by rw [e]
      _ = (k / 2 ^ F64.shiftOf k) * (d * 2 ^ F64.shiftOf k) := by ring
  rw [e2, rne_exact _ _ (Nat.mul_pos hd (Nat.pow_pos (by decide))), e]

/-- Rounding depends on the quotient only. -/
theorem roundMag_scale (c n d : Nat) (hc : 0 < c) :
    F64.roundMag (c * n) (c * d) = F64.roundMag n d := by
  unfold F64.roundMag
  rw [Nat.mul_div_mul_left _ _ hc, Nat.mul_assoc, rne_scale _ _ _ hc]

/-- Rounding zero gives zero. -/
theorem roundMag_zero (d : Nat) : F64.roundMag 0 d = 0 := by
  unfold F64.roundMag F64.rne
  simp

/-- A rounded magnitude has at most 53 significant binary digits. -/
theorem roundMag_rep (n d : Nat) (hd : 0 < d) :
    F64.roundMag n d % 2 ^ F64.shiftOf (F64.roundMag n d) = 0 := by
  have hu := roundMag_upper n d hd
  have hdvd : 2 ^ F64.shiftOf (n / d) ∣ F64.roundMag n d := by
    unfold F64.roundMag
    exact Dvd.intro_left _ rfl
  rcases Nat.eq_or_lt_of_le hu with e | e
  · have hs : F64.shiftOf (F64.roundMag n d) = F64.shiftOf (n / d) + 1 := by
      apply shiftOf_eq _ _ _ _ (by omega)
      · rw [e]
      · rw [e]
        exact Nat.pow_lt_pow_right (by decide) (by omega)
    rw [hs, e]
    exact Nat.mod_eq_zero_of_dvd (Nat.pow_dvd_pow 2 (by omega))
  · rcases Nat.eq_zero_or_pos (F64.shiftOf (n / d)) with z | z
    · rw [z] at e
      rw [shiftOf_small _ e, pow_zero]
      exact Nat.mod_one _
    · have hl := roundMag_lower n d hd z
      rw [shiftOf_eq _ _ hl e z]
      exact Nat.mod_eq_zero_of_dvd hdvd

/-- Twice a magnitude with at most 53 significant binary digits has at most 53 too. -/
theorem rep_double (k : Nat) (hk : k % 2 ^ F64.shiftOf k = 0) :
    (2 * k) % 2 ^ F64.shiftOf (2 * k) = 0 := by
  rcases Nat.eq_zero_or_pos (F64.shiftOf k) with z | z
  · rcases Nat.lt_or_ge (2 * k) (2 ^ 53) with c | c
    · rw [shiftOf_small _ c, pow_zero]
      exact Nat.mod_one _
    · have hk2 := shiftOf_lt k
      rw [z] at hk2
      have hs : F64.shiftOf (2 * k) = 1 := by
        apply shiftOf_eq _ _ _ _ (by decide)
        · exact c
        · have : (2 : Nat) ^ (1 + 53) = 2 * 2 ^ (0 + 53) := by norm_num
          omega
      rw [hs]
      simp
  · have h1 := shiftOf_ge k z
    have h2 := shiftOf_lt k
    have hs : F64.shiftOf (2 * k) = F64.shiftOf k + 1 := by
      apply shiftOf_eq _ _ _ _ (by omega)
      · have : (2 : Nat) ^ (F64.shiftOf k + 1 + 52) = 2 * 2 ^ (F64.shiftOf k + 52) := by
          rw [show F64.shiftOf k + 1 + 52 = (F64.shiftOf k + 52) + 1 by omega, pow_succ]
          ring
        omega
      · have : (2 : Nat) ^ (F64.shiftOf k + 1 + 53) = 2 * 2 ^ (F64.shiftOf k + 53) := by
          rw [show F64.shiftOf k + 1 + 53 = (F64.shiftOf k + 53) + 1 by omega, pow_succ]
          ring
        omega
    rw [hs, pow_succ, Nat.mul_comm (2 ^ F64.shiftOf k) 2, Nat.mul_mod_mul_left, hk]

/-- The literal `0.5` is `2^1073` units. -/
theorem f64_half : F64.ofRatio 1 2 = F64.fin false (2 ^ 1073) := by decide

/-- The product `0.5 * a` of a finite value `a` of `S` units is `S / 2` units, rounded. -/
theorem f64_half_mul (r : Bool) (S : Nat) :
    F64.mul (F64.ofRatio 1 2) (F64.fin r S) = F64.roundQuot r S 2 := by
  rw [f64_half]
  have e : F64.roundMag (2 ^ 1073 * S) (2 ^ 1074) = F64.roundMag S 2 := by
    rw [show (2 : Nat) ^ 1074 = 2 ^ 1073 * 2 by norm_num]
    exact roundMag_scale _ _ _ (Nat.pow_pos (by decide))
  simp only [F64.mul, F64.roundQuot, e, Bool.false_xor]

/-- Half of a magnitude between `2 * k` and `2 * l`, rounded, lies between `k` and `l` when
these are doubles. -/
theorem roundMag_half_between (k l S : Nat) (hk : k % 2 ^ F64.shiftOf k = 0)
    (hl : l % 2 ^ F64.shiftOf l = 0) (h1 : 2 * k ≤ S) (h2 : S ≤ 2 * l) :
    k ≤ F64.roundMag S 2 ∧ F64.roundMag S 2 ≤ l := by
  have e1 := roundMag_exact k 2 (by decide) hk
  have e2 := roundMag_exact l 2 (by decide) hl
  have m1 := roundMag_mono (k * 2) S 2 (by decide) (by omega)
  have m2 := roundMag_mono S (l * 2) 2 (by decide) (by omega)
  omega

/-- The sum of two magnitudes, rounded, lies between twice the smaller and twice the larger
one when these are doubles. -/
theorem roundMag_sum_between (k l : Nat) (hk : k % 2 ^ F64.shiftOf k = 0)
    (hl : l % 2 ^ F64.shiftOf l = 0) (h : k ≤ l) :
    2 * k ≤ F64.roundMag (k + l) 1 ∧ F64.roundMag (k + l) 1 ≤ 2 * l := by
  have e1 := roundMag_exact (2 * k) 1 (by decide) (rep_double k hk)
  have e2 := roundMag_exact (2 * l) 1 (by decide) (rep_double l hl)
  have m1 := roundMag_mono (2 * k * 1) (k + l) 1 (by decide) (by omega)
  have m2 := roundMag_mono (k + l) (2 * l * 1) 1 (by decide) (by omega)
  omega

/-- Rounding a magnitude that is at most a double `l` gives at most `l`. -/
theorem roundMag_le_of_le (n l d : Nat) (hd : 0 < d) (hl : l % 2 ^ F64.shiftOf l = 0)
    (h : n ≤ l * d) : F64.roundMag n d ≤ l := by
  have e := roundMag_exact l d hd hl
  have m := roundMag_mono n (l * d) d hd h
  omega

/-- The midpoint `0.5 * (lb + ub)` of two finite doubles `lb <= ub` whose sum does not
overflow is a finite double with `lb <= xm <= ub`: the statement on the representation. -/
theorem f64_midpoint_fin (s t : Bool) (k l : Nat) (hk : k % 2 ^ F64.shiftOf k = 0)
    (hl : l % 2 ^ F64.shiftOf l = 0) (hk2 : k < 2 ^ 2098) (hl2 : l < 2 ^ 2098)
    (hle : F64.units s k ≤ F64.units t l)
    (hsum : F64.isFinite (F64.add (F64.fin s k) (F64.fin t l)) = true) :
    ∃ (r : Bool) (x : Nat),
      F64.mul (F64.ofRatio 1 2) (F64.add (F64.fin s k) (F64.fin t l)) = F64.fin r x ∧
      x < 2 ^ 2098 ∧ x % 2 ^ F64.shiftOf x = 0 ∧
      F64.units s k ≤ F64.units r x ∧ F64.units r x ≤ F64.units t l := by
  have key : ∀ (r : Bool) (S lo hi : Nat), lo ≤ F64.roundMag S 2 → F64.roundMag S 2 ≤ hi →
      hi < 2 ^ 2098 →
      F64.mul (F64.ofRatio 1 2) (F64.fin r S) = F64.fin r (F64.roundMag S 2) ∧
      F64.roundMag S 2 < 2 ^ 2098 ∧
      F64.roundMag S 2 % 2 ^ F64.shiftOf (F64.roundMag S 2) = 0 := by
    intro r S lo hi _ h2 h3
    refine ⟨?_, by omega, roundMag_rep S 2 (by decide)⟩
    rw [f64_half_mul, F64.roundQuot, if_neg (by omega)]
  by_cases hst : s = t
  · subst hst
    have hadd : F64.add (F64.fin s k) (F64.fin s l) = F64.fin s (F64.roundMag (k + l) 1) := by
      have hs := hsum
      simp only [F64.add, if_true, F64.roundQuot] at hs ⊢
      split_ifs at hs ⊢ with c
      · simp [F64.isFinite] at hs
      · rfl
    rw [hadd]
    cases s
    · have hkl : k ≤ l := by
        simp only [F64.units] at hle
        simpa using hle
      obtain ⟨b1, b2⟩ := roundMag_sum_between k l hk hl hkl
      obtain ⟨c1, c2⟩ := roundMag_half_between k l _ hk hl b1 b2
      obtain ⟨d1, d2, d3⟩ := key false _ k l c1 c2 hl2
      refine ⟨false, _, d1, d2, d3, ?_, ?_⟩ <;> simp only [F64.units] <;> simp <;> omega
    · have hkl : l ≤ k := by
        simp only [F64.units] at hle
        simpa using hle
      obtain ⟨b1, b2⟩ := roundMag_sum_between l k hl hk hkl
      rw [Nat.add_comm] at b1 b2
      obtain ⟨c1, c2⟩ := roundMag_half_between l k _ hl hk b1 b2
      obtain ⟨d1, d2, d3⟩ := key true _ l k c1 c2 hk2
      refine ⟨true, _, d1, d2, d3, ?_, ?_⟩ <;> simp only [F64.units] <;> simp <;> omega
  · cases s <;> cases t
    · exact absurd rfl hst
    · have h0 : k = 0 ∧ l = 0 := by
        simp only [F64.units] at hle
        simp at hle
        omega
      obtain ⟨rfl, rfl⟩ := h0
      refine ⟨false, 0, by decide, by norm_num, by simp, ?_, ?_⟩ <;> simp [F64.units]
    · rcases Nat.lt_trichotomy k l with c | c | c
      · have hadd : F64.add (F64.fin true k) (F64.fin false l) =
            F64.roundQuot false (l - k) 1 := by
          simp only [F64.add]
          rw [if_neg (by decide), if_neg (by omega), if_neg (by omega)]
        have hS := roundMag_le_of_le (l - k) l 1 (by decide) hl (by omega)
        have hX := roundMag_le_of_le (F64.roundMag (l - k) 1) l 2 (by decide) hl (by omega)
        obtain ⟨d1, d2, d3⟩ := key false _ 0 l (Nat.zero_le _) hX hl2
        rw [hadd, F64.roundQuot, if_neg (by omega)]
        refine ⟨false, _, d1, d2, d3, ?_, ?_⟩ <;> simp only [F64.units] <;> simp <;> omega
      · subst c
        have hadd : F64.add (F64.fin true k) (F64.fin false k) = F64.fin false 0 := by
          simp [F64.add]
        rw [hadd]
        refine ⟨false, 0, by decide, by norm_num, by simp, ?_, ?_⟩ <;> simp [F64.units]
      · have hadd : F64.add (F64.fin true k) (F64.fin false l) =
            F64.roundQuot true (k - l) 1 := by
          simp only [F64.add]
          rw [if_neg (by decide), if_neg (by omega), if_pos c]
        have hS := roundMag_le_of_le (k - l) k 1 (by decide) hk (by omega)
        have hX := roundMag_le_of_le (F64.roundMag (k - l) 1) k 2 (by decide) hk (by omega)
        obtain ⟨d1, d2, d3⟩ := key true _ 0 k (Nat.zero_le _) hX hk2
        rw [hadd, F64.roundQuot, if_neg (by omega)]
        refine ⟨true, _, d1, d2, d3, ?_, ?_⟩ <;> simp only [F64.units] <;> simp <;> omega
    · exact absurd rfl hst

/-- The absolute value of a finite value is below a bound exactly when its magnitude is. -/
theorem f64_abs_lt_fin (s : Bool) (k M : Nat) :
    F64.lt (F64.absval (F64.fin s k)) (F64.fin false M) = true ↔ k < M := by
  cases s
  · have h0 : F64.lt (F64.fin false k) F64.zero = false := by
      simp [F64.lt, F64.zero, F64.units]
    rw [F64.absval, h0]
    simp [F64.lt, F64.units]
  · by_cases hk : k = 0
    · subst hk
      have h0 : F64.lt (F64.fin true 0) F64.zero = false := by
        simp [F64.lt, F64.zero, F64.units]
      rw [F64.absval, h0]
      simp [F64.lt, F64.units]
    · have h0 : F64.lt (F64.fin true k) F64.zero = true := by
        simp [F64.lt, F64.zero, F64.units]
        omega
      rw [F64.absval, h0]
      simp [F64.lt, F64.units, F64.neg]

/-- A value whose absolute value is below a finite bound is finite, with its magnitude below
the bound. -/
theorem f64_abs_lt_cases (a : F64) (M : Nat)
    (h : F64.lt (F64.absval a) (F64.fin false M) = true) :
    ∃ (s : Bool) (k : Nat), a = F64.fin s k ∧ k < M := by
  cases a with
  | nan => simp [F64.absval, F64.lt] at h
  | inf s => cases s <;> simp [F64.absval, F64.lt, F64.zero, F64.neg] at h
  | fin s k => exact ⟨s, k, rfl, (f64_abs_lt_fin s k M).mp h⟩

/-- The comparison `<=` is transitive. -/
theorem f64_le_trans (a b c : F64) (h1 : F64.le a b = true) (h2 : F64.le b c = true) :
    F64.le a c = true := by
  cases a <;> cases b <;> cases c <;> simp [F64.le] at h1 h2 ⊢ <;>
    first
    | omega
    | (rcases h1 with h | h <;> rcases h2 with g | g <;> simp_all)
    | simp_all

/-- A finite value compares `<=` with itself. -/
theorem f64_le_refl (a : F64) (h : F64.isFinite a = true) : F64.le a a = true := by
  cases a <;> simp [F64.isFinite, F64.le] at h ⊢

/-- A value between two finite values is finite. -/
theorem f64_finite_of_between (L U a : F64) (hL : F64.isFinite L = true)
    (hU : F64.isFinite U = true) (h1 : F64.le L a = true) (h2 : F64.le a U = true) :
    F64.isFinite a = true := by
  cases L <;> cases U <;> cases a <;> simp [F64.isFinite, F64.le] at hL hU h1 h2 ⊢
  simp_all

/-- The midpoint `0.5 * (lb + ub)` of two finite doubles `lb <= ub` whose sum does not
overflow is a finite double with `lb <= xm <= ub`. -/
theorem f64_midpoint_between (lb ub : F64) (hv1 : F64.valid lb = true)
    (hv2 : F64.valid ub = true) (hle : F64.le lb ub = true)
    (hsum : F64.isFinite (F64.add lb ub) = true) :
    F64.valid (F64.mul (F64.ofRatio 1 2) (F64.add lb ub)) = true ∧
    F64.isFinite (F64.mul (F64.ofRatio 1 2) (F64.add lb ub)) = true ∧
    F64.le lb (F64.mul (F64.ofRatio 1 2) (F64.add lb ub)) = true ∧
    F64.le (F64.mul (F64.ofRatio 1 2) (F64.add lb ub)) ub = true := by
  cases lb with
  | nan => simp [F64.le] at hle
  | inf s =>
    cases ub with
    | nan => simp [F64.le] at hle
    | inf t =>
      cases s <;> cases t <;> simp [F64.add, F64.isFinite] at hsum
    | fin t l => simp [F64.add, F64.isFinite] at hsum
  | fin s k =>
    cases ub with
    | nan => simp [F64.le] at hle
    | inf t => simp [F64.add, F64.isFinite] at hsum
    | fin t l =>
      simp only [F64.valid, decide_eq_true_eq] at hv1 hv2
      simp only [F64.le, decide_eq_true_eq] at hle
      obtain ⟨r, x, e, x1, x2, x3, x4⟩ :=
        f64_midpoint_fin s t k l hv1.2 hv2.2 hv1.1 hv2.1 hle hsum
      rw [e]
      simp only [F64.valid, F64.isFinite, F64.le, decide_eq_true_eq]
      exact ⟨⟨x1, x2⟩, trivial, x3, x4⟩

/-- The sum of two doubles of magnitude below `2^1023` does not overflow. -/
theorem f64_add_finite (a b : F64) (hv1 : F64.valid a = true) (hv2 : F64.valid b = true)
    (h1 : F64.lt (F64.absval a) F64.twoPow1023 = true)
    (h2 : F64.lt (F64.absval b) F64.twoPow1023 = true) :
    F64.isFinite (F64.add a b) = true := by
  unfold F64.twoPow1023 at h1 h2
  obtain ⟨s, k, rfl, hk⟩ := f64_abs_lt_cases a _ h1
  obtain ⟨t, l, rfl, hl⟩ := f64_abs_lt_cases b _ h2
  simp only [F64.valid, decide_eq_true_eq] at hv1 hv2
  have e : (2 : Nat) ^ 2098 = 2 * 2 ^ 2097 := by norm_num
  have fin_of : ∀ (r : Bool) (n : Nat), F64.roundMag n 1 < 2 ^ 2098 →
      F64.isFinite (F64.roundQuot r n 1) = true := by
    intro r n hn
    rw [F64.roundQuot, if_neg (by omega)]
    rfl
  simp only [F64.add]
  split_ifs with c1 c2 c3
  · apply fin_of
    rcases Nat.le_total k l with c | c
    · have := (roundMag_sum_between k l hv1.2 hv2.2 c).2
      omega
    · have := (roundMag_sum_between l k hv2.2 hv1.2 c).2
      rw [Nat.add_comm] at this
      omega
  · rfl
  · apply fin_of
    have := roundMag_le_of_le (k - l) k 1 (by decide) hv1.2 (by omega)
    omega
  · apply fin_of
    have := roundMag_le_of_le (l - k) l 1 (by decide) hv2.2 (by omega)
    omega

/-- A value between two values of magnitude below a bound has its magnitude below the
bound. -/
theorem f64_abs_lt_of_between (L U a : F64) (h1 : F64.le L a = true)
    (h2 : F64.le a U = true) (hL : F64.lt (F64.absval L) F64.twoPow1023 = true)
    (hU : F64.lt (F64.absval U) F64.twoPow1023 = true) :
    F64.lt (F64.absval a) F64.twoPow1023 = true := by
  unfold F64.twoPow1023 at hL hU ⊢
  obtain ⟨s, k, rfl, hk⟩ := f64_abs_lt_cases L _ hL
  obtain ⟨t, l, rfl, hl⟩ := f64_abs_lt_cases U _ hU
  have hf := f64_finite_of_between (F64.fin s k) (F64.fin t l) a rfl rfl h1 h2
  cases a with
  | nan => simp [F64.isFinite] at hf
  | inf r => simp [F64.isFinite] at hf
  | fin r x =>
    rw [f64_abs_lt_fin]
    simp only [F64.le, decide_eq_true_eq, F64.units] at h1 h2
    cases s <;> cases t <;> cases r <;> simp at h1 h2 <;> omega

/-- A finite sum has finite terms. -/
theorem f64_finite_of_add (a b : F64) (h : F64.isFinite (F64.add a b) = true) :
    F64.isFinite a = true ∧ F64.isFinite b = true := by
  cases a with
  | nan => simp [F64.add, F64.isFinite] at h
  | inf s =>
    cases b with
    | nan => simp [F64.add, F64.isFinite] at h
    | inf t => cases s <;> cases t <;> simp [F64.add, F64.isFinite] at h
    | fin t l => simp [F64.add, F64.isFinite] at h
  | fin s k =>
    cases b with
    | nan => simp [F64.add, F64.isFinite] at h
    | inf t => simp [F64.add, F64.isFinite] at h
    | fin t l => exact ⟨rfl, rfl⟩

/-- The bounds `check_bounds` leaves for two finite doubles are in order. -/
theorem cxx64_check_bounds_sorted (lb ub : F64) (h1 : F64.isFinite lb = true)
    (h2 : F64.isFinite ub = true) :
    F64.le (Cxx64.check_bounds lb ub).1 (Cxx64.check_bounds lb ub).2 = true := by
  cases lb <;> cases ub <;> simp [F64.isFinite] at h1 h2
  unfold Cxx64.check_bounds
  simp only [F64.gt, F64.lt, F64.le]
  split_ifs with c
  · simp only [decide_eq_true_eq] at c ⊢
    omega
  · simp only [decide_eq_true_eq] at c ⊢
    omega

/-- One `bisector` step from doubles `lb <= ub` whose sum does not overflow: the new bounds
are doubles, the estimate lies in `[lb, ub]` and the new interval lies within the old one. -/
theorem cxx64_bisector_nested (f : F64 → F64) (lb ub : F64) (hv1 : F64.valid lb = true)
    (hv2 : F64.valid ub = true) (hle : F64.le lb ub = true)
    (hsum : F64.isFinite (F64.add lb ub) = true) :
    F64.valid (Cxx64.bisector f lb ub).lb = true ∧
    F64.valid (Cxx64.bisector f lb ub).ub = true ∧
    F64.le lb (Cxx64.bisector f lb ub).lb = true ∧
    F64.le (Cxx64.bisector f lb ub).lb (Cxx64.bisector f lb ub).ub = true ∧
    F64.le (Cxx64.bisector f lb ub).ub ub = true ∧
    F64.le lb (Cxx64.bisector f lb ub).x = true ∧
    F64.le (Cxx64.bisector f lb ub).x ub = true := by
  obtain ⟨m1, -, m3, m4⟩ := f64_midpoint_between lb ub hv1 hv2 hle hsum
  obtain ⟨f1, f2⟩ := f64_finite_of_add lb ub hsum
  rw [← cxx64_bisector_x f lb ub] at m1 m3 m4
  rcases cxx64_bisector_bounds f lb ub with ⟨e1, e2⟩ | ⟨e1, e2⟩
  · rw [e1, e2]
    exact ⟨hv1, m1, f64_le_refl lb f1, m3, m4, m3, m4⟩
  · rw [e1, e2]
    exact ⟨m1, hv2, m3, m4, f64_le_refl ub f2, m3, m4⟩

/-- In a `bisect` run on doubles of magnitude below `2^1023`, after any number of steps the
bounds are doubles, in order, within the initial interval. -/
theorem cxx64_bisect_state_inv (f : F64 → F64) (lb ub : F64) (hv1 : F64.valid lb = true)
    (hv2 : F64.valid ub = true) (h1 : F64.lt (F64.absval lb) F64.twoPow1023 = true)
    (h2 : F64.lt (F64.absval ub) F64.twoPow1023 = true) (k : Nat) :
    F64.valid (Cxx64.bisect_state f lb ub k).lb = true ∧
    F64.valid (Cxx64.bisect_state f lb ub k).ub = true ∧
    F64.le (Cxx64.check_bounds lb ub).1 (Cxx64.bisect_state f lb ub k).lb = true ∧
    F64.le (Cxx64.bisect_state f lb ub k).lb (Cxx64.bisect_state f lb ub k).ub = true ∧
    F64.le (Cxx64.bisect_state f lb ub k).ub (Cxx64.check_bounds lb ub).2 = true := by
  obtain ⟨s, x, rfl, -⟩ := f64_abs_lt_cases lb _ h1
  obtain ⟨t, y, rfl, -⟩ := f64_abs_lt_cases ub _ h2
  have hs := cxx64_check_bounds_sorted (F64.fin s x) (F64.fin t y) rfl rfl
  have hc : F64.valid (Cxx64.check_bounds (F64.fin s x) (F64.fin t y)).1 = true ∧
      F64.valid (Cxx64.check_bounds (F64.fin s x) (F64.fin t y)).2 = true ∧
      F64.isFinite (Cxx64.check_bounds (F64.fin s x) (F64.fin t y)).1 = true ∧
      F64.isFinite (Cxx64.check_bounds (F64.fin s x) (F64.fin t y)).2 = true ∧
      F64.lt (F64.absval (Cxx64.check_bounds (F64.fin s x) (F64.fin t y)).1)
        F64.twoPow1023 = true ∧
      F64.lt (F64.absval (Cxx64.check_bounds (F64.fin s x) (F64.fin t y)).2)
        F64.twoPow1023 = true := by
    rcases cxx64_check_bounds_cases (F64.fin s x) (F64.fin t y) with e | e <;> rw [e]
    · exact ⟨hv1, hv2, rfl, rfl, h1, h2⟩
    · exact ⟨hv2, hv1, rfl, rfl, h2, h1⟩
  obtain ⟨c1, c2, c3, c4, c5, c6⟩ := hc
  induction k with
  | zero => exact ⟨c1, c2, f64_le_refl _ c3, hs, f64_le_refl _ c4⟩
  | succ k ih =>
    obtain ⟨i1, i2, i3, i4, i5⟩ := ih
    have a1 := f64_abs_lt_of_between _ _ _ i3 (f64_le_trans _ _ _ i4 i5) c5 c6
    have a2 := f64_abs_lt_of_between _ _ _ (f64_le_trans _ _ _ i3 i4) i5 c5 c6
    obtain ⟨n1, n2, n3, n4, n5, -, -⟩ := cxx64_bisector_nested f _ _ i1 i2 i4
      (f64_add_finite _ _ i1 i2 a1 a2)
    exact ⟨n1, n2, f64_le_trans _ _ _ i3 n3, n4, f64_le_trans _ _ _ n5 i5⟩

/-- In a `bisect` run on doubles of magnitude below `2^1023`, after any number of steps the
bounds have a magnitude below `2^1023`, and so are finite. -/
theorem cxx64_bisect_state_small (f : F64 → F64) (lb ub : F64) (hv1 : F64.valid lb = true)
    (hv2 : F64.valid ub = true) (h1 : F64.lt (F64.absval lb) F64.twoPow1023 = true)
    (h2 : F64.lt (F64.absval ub) F64.twoPow1023 = true) (k : Nat) :
    F64.lt (F64.absval (Cxx64.bisect_state f lb ub k).lb) F64.twoPow1023 = true ∧
    F64.lt (F64.absval (Cxx64.bisect_state f lb ub k).ub) F64.twoPow1023 = true ∧
    F64.isFinite (Cxx64.bisect_state f lb ub k).lb = true ∧
    F64.isFinite (Cxx64.bisect_state f lb ub k).ub = true := by
  obtain ⟨-, -, i3, i4, i5⟩ := cxx64_bisect_state_inv f lb ub hv1 hv2 h1 h2 k
  have c5 : F64.lt (F64.absval (Cxx64.check_bounds lb ub).1) F64.twoPow1023 = true := by
    rcases cxx64_check_bounds_cases lb ub with e | e <;> rw [e]
    · exact h1
    · exact h2
  have c6 : F64.lt (F64.absval (Cxx64.check_bounds lb ub).2) F64.twoPow1023 = true := by
    rcases cxx64_check_bounds_cases lb ub with e | e <;> rw [e]
    · exact h2
    · exact h1
  have a1 := f64_abs_lt_of_between _ _ _ i3 (f64_le_trans _ _ _ i4 i5) c5 c6
  have a2 := f64_abs_lt_of_between _ _ _ (f64_le_trans _ _ _ i3 i4) i5 c5 c6
  refine ⟨a1, a2, ?_, ?_⟩
  · obtain ⟨s, x, e, -⟩ := f64_abs_lt_cases _ _ a1
    rw [e]
    rfl
  · obtain ⟨s, x, e, -⟩ := f64_abs_lt_cases _ _ a2
    rw [e]
    rfl

/-- In a `bisect` run on doubles of magnitude below `2^1023`, every step puts its estimate in
the current interval and leaves an interval within the current one. -/
theorem cxx64_bisect_state_nested (f : F64 → F64) (lb ub : F64) (hv1 : F64.valid lb = true)
    (hv2 : F64.valid ub = true) (h1 : F64.lt (F64.absval lb) F64.twoPow1023 = true)
    (h2 : F64.lt (F64.absval ub) F64.twoPow1023 = true) (k : Nat) :
    F64.le (Cxx64.bisect_state f lb ub k).lb (Cxx64.bisect_state f lb ub (k + 1)).lb = true ∧
    F64.le (Cxx64.bisect_state f lb ub (k + 1)).lb
      (Cxx64.bisect_state f lb ub (k + 1)).ub = true ∧
    F64.le (Cxx64.bisect_state f lb ub (k + 1)).ub (Cxx64.bisect_state f lb ub k).ub = true ∧
    F64.le (Cxx64.bisect_state f lb ub k).lb (Cxx64.bisect_state f lb ub (k + 1)).x = true ∧
    F64.le (Cxx64.bisect_state f lb ub (k + 1)).x (Cxx64.bisect_state f lb ub k).ub = true := by
  obtain ⟨i1, i2, -, i4, -⟩ := cxx64_bisect_state_inv f lb ub hv1 hv2 h1 h2 k
  obtain ⟨a1, a2, -, -⟩ := cxx64_bisect_state_small f lb ub hv1 hv2 h1 h2 k
  obtain ⟨-, -, n3, n4, n5, n6, n7⟩ := cxx64_bisector_nested f _ _ i1 i2 i4
    (f64_add_finite _ _ i1 i2 a1 a2)
  exact ⟨n3, n4, n5, n6, n7⟩

end Binary64Lemmas

section Claims

variable {K : Type} [LinearOrderedField K]

set_option maxRecDepth 100000
set_option exponentiation.threshold 5000

/-- C1, amended: on doubles, for every `f` and every interval whose computed product
`f(lb) * f(ub)` is `< 0`, each of `bisect`, `regfal` and `fzero` ends its loop with a last
residual `r = absval (f x)` for which the test `r > TOL` is false, that is `r <= TOL` or `r`
is a NaN, or with the iteration count equal to `MAX_ITER`, in which case non-convergence is
reported; whenever the final count differs from `MAX_ITER` the estimate is returned and
`r <= TOL` or `r` is a NaN. -/
theorem C1_loop_leaves_on_failed_test_or_max_iter (verbose : Bool) (f : F64 → F64)
    (lb ub : F64) (h : F64.lt (F64.mul (f lb) (f ub)) F64.zero = true) :
    (∃ it : Iter F64, it =
          Cxx64.bisect_loop f (Cxx64.check_bounds lb ub).1 (Cxx64.check_bounds lb ub).2 ∧
      (Cxx64.bisect f lb ub).result = .ok (it.x, Cxx.report it.n) ∧ it.fn = F64.absval (f it.x) ∧
      ((F64.le it.fn Cxx64.TOL = true ∨ F64.isNaN it.fn = true) ∨ (it.n = Cxx.MAX_ITER ∧
          Cxx.report it.n = .methodFailed)) ∧ (it.n ≠ Cxx.MAX_ITER → F64.le it.fn Cxx64.TOL = true ∨
        F64.isNaN it.fn = true)) ∧
    (∃ it : Iter F64, it =
          Cxx64.regfal_loop f (Cxx64.check_bounds lb ub).1 (Cxx64.check_bounds lb ub).2 ∧
      (Cxx64.regfal f lb ub).result = .ok (it.x, Cxx.report it.n) ∧ it.fn = F64.absval (f it.x) ∧
      ((F64.le it.fn Cxx64.TOL = true ∨ F64.isNaN it.fn = true) ∨ (it.n = Cxx.MAX_ITER ∧
          Cxx.report it.n = .methodFailed)) ∧ (it.n ≠ Cxx.MAX_ITER → F64.le it.fn Cxx64.TOL = true ∨
        F64.isNaN it.fn = true)) ∧
    (∃ it : Iter F64, it =
          Clang64.fzero_loop f (Clang64.check_bounds lb ub).1 (Clang64.check_bounds lb ub).2 ∧
      it.fn = F64.absval (f it.x) ∧ ((Clang64.fzero verbose f lb ub = .ok it.x ∧
          (F64.le it.fn Clang64.TOL = true ∨ F64.isNaN it.fn = true)) ∨ (it.n = Clang.MAX_ITER ∧
          Clang64.fzero verbose f lb ub = .error .noConvergence)) ∧ (it.n ≠ Clang.MAX_ITER →
        Clang64.fzero verbose f lb ub = .ok it.x ∧ (F64.le it.fn Clang64.TOL = true ∨
          F64.isNaN it.fn = true))) := by
  have hgt : F64.gt (F64.mul (f lb) (f ub)) F64.zero = false := f64_not_gt_of_lt _ h
  refine ⟨?_, ?_, ?_⟩
  · obtain ⟨hfn, -, -, hstop, -⟩ :=
      cxx64_bisect_loop_exit f (Cxx64.check_bounds lb ub).1 (Cxx64.check_bounds lb ub).2
    refine ⟨_, rfl, ?_, hfn, ?_, ?_⟩
    · rw [cxx64_bisect_of_bracket f lb ub hgt]
    · rcases hstop with hs | hs
      · exact Or.inl (f64_test_failed_cxx _ hs)
      · exact Or.inr ⟨hs, by rw [hs]; exact cxx_report_of_max⟩
    · intro hn
      exact f64_test_failed_cxx _ (hstop.resolve_right hn)
  · obtain ⟨hfn, -, -, hstop, -⟩ :=
      cxx64_regfal_loop_exit f (Cxx64.check_bounds lb ub).1 (Cxx64.check_bounds lb ub).2
    refine ⟨_, rfl, ?_, hfn, ?_, ?_⟩
    · rw [cxx64_regfal_of_bracket f lb ub hgt]
    · rcases hstop with hs | hs
      · exact Or.inl (f64_test_failed_cxx _ hs)
      · exact Or.inr ⟨hs, by rw [hs]; exact cxx_report_of_max⟩
    · intro hn
      exact f64_test_failed_cxx _ (hstop.resolve_right hn)
  · obtain ⟨hfn, -, -, hstop, -⟩ :=
      clang64_fzero_loop_exit f (Clang64.check_bounds lb ub).1 (Clang64.check_bounds lb ub).2
    refine ⟨_, rfl, hfn, ?_, ?_⟩
    · rw [clang64_fzero_of_bracket verbose f lb ub hgt]
      by_cases hn : (Clang64.fzero_loop f (Clang64.check_bounds lb ub).1
          (Clang64.check_bounds lb ub).2).n = Clang.MAX_ITER
      · exact Or.inr ⟨hn, by rw [if_neg (not_not.mpr hn)]⟩
      · exact Or.inl ⟨by rw [if_pos hn], f64_test_failed_clang _ (hstop.resolve_right hn)⟩
    · intro hn
      rw [clang64_fzero_of_bracket verbose f lb ub hgt]
      exact ⟨by rw [if_pos hn], f64_test_failed_clang _ (hstop.resolve_right hn)⟩

/-- C1, amended, at `x * x - 2.0` on `[0, 2]`. -/
theorem C1_loop_leaves_on_failed_test_or_max_iter_witness :
    F64.lt (F64.mul (sqrtTwoFn64 F64.zero) (sqrtTwoFn64 F64.two)) F64.zero = true ∧
    ((∃ it : Iter F64, it =
          Cxx64.bisect_loop sqrtTwoFn64 (Cxx64.check_bounds F64.zero F64.two).1 (Cxx64.check_bounds
            F64.zero F64.two).2 ∧
      (Cxx64.bisect sqrtTwoFn64 F64.zero F64.two).result = .ok (it.x, Cxx.report it.n) ∧
      it.fn = F64.absval (sqrtTwoFn64 it.x) ∧ ((F64.le it.fn Cxx64.TOL = true ∨
          F64.isNaN it.fn = true) ∨ (it.n = Cxx.MAX_ITER ∧ Cxx.report it.n = .methodFailed)) ∧
      (it.n ≠ Cxx.MAX_ITER → F64.le it.fn Cxx64.TOL = true ∨ F64.isNaN it.fn = true)) ∧
    (∃ it : Iter F64, it =
          Cxx64.regfal_loop sqrtTwoFn64 (Cxx64.check_bounds F64.zero F64.two).1 (Cxx64.check_bounds
            F64.zero F64.two).2 ∧
      (Cxx64.regfal sqrtTwoFn64 F64.zero F64.two).result = .ok (it.x, Cxx.report it.n) ∧
      it.fn = F64.absval (sqrtTwoFn64 it.x) ∧ ((F64.le it.fn Cxx64.TOL = true ∨
          F64.isNaN it.fn = true) ∨ (it.n = Cxx.MAX_ITER ∧ Cxx.report it.n = .methodFailed)) ∧
      (it.n ≠ Cxx.MAX_ITER → F64.le it.fn Cxx64.TOL = true ∨ F64.isNaN it.fn = true)) ∧
    (∃ it : Iter F64, it =
          Clang64.fzero_loop sqrtTwoFn64 (Clang64.check_bounds F64.zero F64.two).1
          (Clang64.check_bounds F64.zero F64.two).2 ∧
      it.fn = F64.absval (sqrtTwoFn64 it.x) ∧
      ((Clang64.fzero true sqrtTwoFn64 F64.zero F64.two = .ok it.x ∧
          (F64.le it.fn Clang64.TOL = true ∨ F64.isNaN it.fn = true)) ∨ (it.n = Clang.MAX_ITER ∧
          Clang64.fzero true sqrtTwoFn64 F64.zero F64.two = .error .noConvergence)) ∧
      (it.n ≠ Clang.MAX_ITER → Clang64.fzero true sqrtTwoFn64 F64.zero F64.two = .ok it.x ∧
        (F64.le it.fn Clang64.TOL = true ∨ F64.isNaN it.fn = true)))) :=
  ⟨by decide, C1_loop_leaves_on_failed_test_or_max_iter true sqrtTwoFn64 F64.zero F64.two
    (by decide)⟩

/-- C1, as stated, fails on doubles at `bisect` with `f(x) = x * x / x - 1.0` on `[-2, 2]`:
the computed product `f(-2) * f(2) = -3` is `< 0`, the first midpoint is `0`, where `f` is a
NaN, so the residual is a NaN; the test `fn > TOL` is false for it, the loop leaves with
`n = 1`, `report` prints "solution found in 1 iterations" and `bisect` returns `0`, although
the residual is not `<= TOL` and `n` is not `MAX_ITER`. -/
theorem C1_counterexample_nan_residual :
    F64.lt (F64.mul (nanAtZeroFn (F64.neg F64.two)) (nanAtZeroFn F64.two)) F64.zero = true ∧
    Cxx64.bisect_loop nanAtZeroFn (F64.neg F64.two) F64.two =
      ⟨F64.zero, F64.two, F64.zero, F64.nan, 1⟩ ∧
    Cxx64.bisect nanAtZeroFn (F64.neg F64.two) F64.two =
      ⟨F64.zero, F64.two, .ok (F64.zero, .solutionFound 1)⟩ ∧
    F64.absval (nanAtZeroFn F64.zero) = F64.nan ∧
    F64.le F64.nan Cxx64.TOL = false ∧ 1 ≠ Cxx.MAX_ITER := by
  have hstep : Cxx64.bisector nanAtZeroFn (F64.neg F64.two) F64.two =
      ⟨F64.zero, F64.two, F64.zero, F64.nan⟩ := by decide
  have hloop : Cxx64.bisect_loop nanAtZeroFn (F64.neg F64.two) F64.two =
      ⟨F64.zero, F64.two, F64.zero, F64.nan, 1⟩ := by
    have := f64_doWhile_first_step Cxx.MAX_ITER Cxx64.TOL Cxx64.bisector nanAtZeroFn
      (F64.neg F64.two) F64.two (by decide) (by rw [hstep]; decide)
    rw [hstep] at this
    exact this
  have hb : Cxx64.check_bounds (F64.neg F64.two) F64.two = (F64.neg F64.two, F64.two) := by
    decide
  refine ⟨by decide, hloop, ?_, by decide, by decide, by decide⟩
  rw [cxx64_bisect_of_bracket nanAtZeroFn _ _ (by decide), hb]
  simp only [hloop]
  rfl

/-- C2, amended: on doubles, for every `f`, `lb` and `ub`, `check_bracket` (C++ and C)
accepts the interval exactly when the computed product `f(lb) * f(ub)` is not `> 0`, that
is when it is `<= 0` or a NaN, and fails with the no-root error exactly when the computed
product is `> 0`; an interval with `f` zero at one of its bounds is accepted. -/
theorem C2_check_bracket_accepts_unless_product_positive (f : F64 → F64) (lb ub : F64) :
    (Cxx64.check_bracket f lb ub = .ok () ↔
      F64.gt (F64.mul (f lb) (f ub)) F64.zero = false) ∧
    (Cxx64.check_bracket f lb ub = .error .noRoot ↔
      F64.gt (F64.mul (f lb) (f ub)) F64.zero = true) ∧
    (Cxx64.check_bracket f lb ub = .ok () ↔
      (F64.le (F64.mul (f lb) (f ub)) F64.zero = true ∨
        F64.isNaN (F64.mul (f lb) (f ub)) = true)) ∧
    (Clang64.check_bracket f lb ub = .ok () ↔
      F64.gt (F64.mul (f lb) (f ub)) F64.zero = false) ∧
    (Clang64.check_bracket f lb ub = .error .noRoot ↔
      F64.gt (F64.mul (f lb) (f ub)) F64.zero = true) ∧
    (Clang64.check_bracket f lb ub = .ok () ↔
      (F64.le (F64.mul (f lb) (f ub)) F64.zero = true ∨
        F64.isNaN (F64.mul (f lb) (f ub)) = true)) := by
  have hiff : F64.gt (F64.mul (f lb) (f ub)) F64.zero = false ↔
      (F64.le (F64.mul (f lb) (f ub)) F64.zero = true ∨
        F64.isNaN (F64.mul (f lb) (f ub)) = true) := by
    rw [f64_gt_eq_false_iff]
    constructor
    · rintro (h1 | h2 | h3)
      · exact Or.inr h1
      · exact absurd h2 (by decide)
      · exact Or.inl h3
    · rintro (h1 | h2)
      · exact Or.inr (Or.inr h1)
      · exact Or.inl h2
  cases hg : F64.gt (F64.mul (f lb) (f ub)) F64.zero
  · rw [cxx64_check_bracket_ok f lb ub hg, clang64_check_bracket_ok f lb ub hg]
    have hp := hiff.mp hg
    simp [hp]
  · have hp : ¬ (F64.le (F64.mul (f lb) (f ub)) F64.zero = true ∨
        F64.isNaN (F64.mul (f lb) (f ub)) = true) := by
      rw [← hiff, hg]; simp
    rw [cxx64_check_bracket_error f lb ub hg, clang64_check_bracket_error f lb ub hg]
    simp [hp]

/-- C2, as stated, fails on doubles at `f(x) = x` on `[0, 1]`: the computed product
`f(0) * f(1)` is `0`, not negative, and both versions of `check_bracket` accept the interval.
It also fails at `f(x) = 1e-200 * (x * x + 1.0)` on `[1, 2]`: both values are positive, their
product underflows to `0`, and the interval is accepted. -/
theorem C2_counterexample_zero_product_accepted :
    F64.lt (F64.mul ((fun x : F64 => x) F64.zero) ((fun x : F64 => x) F64.one)) F64.zero
      = false ∧
    F64.le F64.zero (F64.mul ((fun x : F64 => x) F64.zero) ((fun x : F64 => x) F64.one))
      = true ∧
    Cxx64.check_bracket (fun x : F64 => x) F64.zero F64.one = .ok () ∧
    Clang64.check_bracket (fun x : F64 => x) F64.zero F64.one = .ok () ∧
    F64.lt F64.zero (tinyParabolaFn F64.one) = true ∧
    F64.lt F64.zero (tinyParabolaFn F64.two) = true ∧
    F64.mul (tinyParabolaFn F64.one) (tinyParabolaFn F64.two) = F64.zero ∧
    Cxx64.check_bracket tinyParabolaFn F64.one F64.two = .ok () ∧
    Clang64.check_bracket tinyParabolaFn F64.one F64.two = .ok () := by
  refine ⟨by decide, by decide, ?_, ?_, by decide, by decide, by decide, ?_, ?_⟩
  · exact cxx64_check_bracket_ok _ _ _ (by decide)
  · exact clang64_check_bracket_ok _ _ _ (by decide)
  · exact cxx64_check_bracket_ok _ _ _ (by decide)
  · exact clang64_check_bracket_ok _ _ _ (by decide)

/-- C3, amended: on doubles, for every `f` and bounds whose computed product
`f(lb) * f(ub)` is `> 0`, `bisect` and `regfal` end with the no-root exception and `fzero`
with the no-root exit, all raised by `check_bracket` ahead of the loop, so no estimate
exists; the caller's bounds after `bisect` / `regfal` are those left by `check_bounds`, the
same two values, swapped when `lb > ub`. -/
theorem C3_positive_product_raises_before_iterating (verbose : Bool) (f : F64 → F64)
    (lb ub : F64) (h : F64.gt (F64.mul (f lb) (f ub)) F64.zero = true) :
    Cxx64.bisect f lb ub =
      ⟨(Cxx64.check_bounds lb ub).1, (Cxx64.check_bounds lb ub).2, .error .noRoot⟩ ∧
    Cxx64.regfal f lb ub =
      ⟨(Cxx64.check_bounds lb ub).1, (Cxx64.check_bounds lb ub).2, .error .noRoot⟩ ∧
    Cxx64.check_bounds lb ub = (if F64.gt lb ub = true then (ub, lb) else (lb, ub)) ∧
    Clang64.fzero verbose f lb ub = .error .noRoot := by
  refine ⟨cxx64_bisect_of_no_bracket f lb ub h, cxx64_regfal_of_no_bracket f lb ub h, ?_,
    clang64_fzero_of_no_bracket verbose f lb ub h⟩
  unfold Cxx64.check_bounds
  simp only []

/-- C3, amended, at `x * x + 1.0` with the bounds given as `(2, 1)`. -/
theorem C3_positive_product_raises_before_iterating_witness :
    F64.gt (F64.mul (parabolaFn F64.two) (parabolaFn F64.one)) F64.zero = true ∧
    (Cxx64.bisect parabolaFn F64.two F64.one =
      ⟨(Cxx64.check_bounds F64.two F64.one).1, (Cxx64.check_bounds F64.two F64.one).2,
        .error .noRoot⟩ ∧
    Cxx64.regfal parabolaFn F64.two F64.one =
      ⟨(Cxx64.check_bounds F64.two F64.one).1, (Cxx64.check_bounds F64.two F64.one).2,
        .error .noRoot⟩ ∧
    Cxx64.check_bounds F64.two F64.one =
      (if F64.gt F64.two F64.one = true then (F64.one, F64.two) else (F64.two, F64.one)) ∧
    Clang64.fzero true parabolaFn F64.two F64.one = .error .noRoot) :=
  ⟨by decide, C3_positive_product_raises_before_iterating true parabolaFn F64.two F64.one
    (by decide)⟩

/-- C3, as stated, fails on doubles at `f(x) = 1e-200 * (x * x + 1.0)` on `[1, 2]`, a
function without sign change: both values are positive, their computed product underflows
to `0`, so `check_bracket` raises nothing; `bisect` returns `1.5`, `regfal` and `fzero`
return the double nearest to `1/3`, each after one iteration and `bisect` and `regfal` with
the line "solution found in 1 iterations". -/
theorem C3_counterexample_underflowing_product :
    F64.lt F64.zero (tinyParabolaFn F64.one) = true ∧
    F64.lt F64.zero (tinyParabolaFn F64.two) = true ∧
    F64.mul (tinyParabolaFn F64.one) (tinyParabolaFn F64.two) = F64.zero ∧
    Cxx64.bisect tinyParabolaFn F64.one F64.two =
      ⟨F64.ofRatio 3 2, F64.two, .ok (F64.ofRatio 3 2, .solutionFound 1)⟩ ∧
    Cxx64.regfal tinyParabolaFn F64.one F64.two =
      ⟨F64.ofRatio 1 3, F64.two, .ok (F64.ofRatio 1 3, .solutionFound 1)⟩ ∧
    Clang64.fzero true tinyParabolaFn F64.one F64.two = .ok (F64.ofRatio 1 3) := by
  have hb : Cxx64.check_bounds F64.one F64.two = (F64.one, F64.two) := by decide
  have hb2 : Clang64.check_bounds F64.one F64.two = (F64.one, F64.two) := by decide
  have hs1 : Cxx64.bisector tinyParabolaFn F64.one F64.two =
      ⟨F64.ofRatio 3 2, F64.two, F64.ofRatio 3 2,
        tinyParabolaFn (F64.ofRatio 3 2)⟩ := by decide
  have hs2 : Cxx64.interp tinyParabolaFn F64.one F64.two =
      ⟨F64.ofRatio 1 3, F64.two, F64.ofRatio 1 3,
        tinyParabolaFn (F64.ofRatio 1 3)⟩ := by decide
  have hs3 : Clang64.shift tinyParabolaFn F64.one F64.two =
      ⟨F64.ofRatio 1 3, F64.two, F64.ofRatio 1 3,
        tinyParabolaFn (F64.ofRatio 1 3)⟩ := by decide
  have hl1 : Cxx64.bisect_loop tinyParabolaFn F64.one F64.two = _ :=
    f64_doWhile_first_step Cxx.MAX_ITER Cxx64.TOL Cxx64.bisector tinyParabolaFn
      F64.one F64.two (by decide) (by rw [hs1]; decide)
  have hl2 : Cxx64.regfal_loop tinyParabolaFn F64.one F64.two = _ :=
    f64_doWhile_first_step Cxx.MAX_ITER Cxx64.TOL Cxx64.interp tinyParabolaFn
      F64.one F64.two (by decide) (by rw [hs2]; decide)
  have hl3 : Clang64.fzero_loop tinyParabolaFn F64.one F64.two = _ :=
    f64_doWhile_first_step Clang.MAX_ITER Clang64.TOL Clang64.shift tinyParabolaFn
      F64.one F64.two (by decide) (by rw [hs3]; decide)
  refine ⟨by decide, by decide, by decide, ?_, ?_, ?_⟩
  · rw [cxx64_bisect_of_bracket tinyParabolaFn _ _ (by decide), hb]
    simp only [hl1, hs1]
    rfl
  · rw [cxx64_regfal_of_bracket tinyParabolaFn _ _ (by decide), hb]
    simp only [hl2, hs2]
    rfl
  · rw [clang64_fzero_of_bracket true tinyParabolaFn _ _ (by decide), hb2]
    simp only [hl3, hs3]
    rfl

/-- C8, amended: on doubles, for every `f` and interval that passes the bracket check (the
computed product `f(lb) * f(ub)` is not `> 0`), the loop of `bisect`, `regfal` and `fzero`
ends after a number of steps `n` with `1 ≤ n ≤ MAX_ITER`, and `n` is the least `k ≥ 1` such
that the test `residual > TOL` is false for the residual of step `k` (it is `<= TOL` or a
NaN) or `k = MAX_ITER`; the variables at the exit are those left by step `n`, and the value
returned is the estimate of step `n` (`fzero` returns it when `n ≠ MAX_ITER`; at
`n = MAX_ITER` its `report` ends the process). -/
theorem C8_loop_ends_at_first_failed_test (verbose : Bool) (f : F64 → F64) (lb ub : F64)
    (h : F64.gt (F64.mul (f lb) (f ub)) F64.zero = false) :
    (∃ n : Nat, 1 ≤ n ∧ n ≤ Cxx.MAX_ITER ∧
      (F64.gt (Cxx64.bisect_state f lb ub n).res Cxx64.TOL = false ∨ n = Cxx.MAX_ITER) ∧
      (∀ k : Nat, 1 ≤ k → k < n → ¬ (F64.gt (Cxx64.bisect_state f lb ub k).res Cxx64.TOL = false ∨
          k = Cxx.MAX_ITER)) ∧
      (Cxx64.bisect_loop f (Cxx64.check_bounds lb ub).1 (Cxx64.check_bounds lb ub).2).n = n ∧
      Cxx64.bisect f lb ub =
          ⟨(Cxx64.bisect_state f lb ub n).lb, (Cxx64.bisect_state f lb ub n).ub,
            .ok ((Cxx64.bisect_state f lb ub n).x, Cxx.report n)⟩) ∧
    (∃ n : Nat, 1 ≤ n ∧ n ≤ Cxx.MAX_ITER ∧
      (F64.gt (Cxx64.regfal_state f lb ub n).res Cxx64.TOL = false ∨ n = Cxx.MAX_ITER) ∧
      (∀ k : Nat, 1 ≤ k → k < n → ¬ (F64.gt (Cxx64.regfal_state f lb ub k).res Cxx64.TOL = false ∨
          k = Cxx.MAX_ITER)) ∧
      (Cxx64.regfal_loop f (Cxx64.check_bounds lb ub).1 (Cxx64.check_bounds lb ub).2).n = n ∧
      Cxx64.regfal f lb ub =
          ⟨(Cxx64.regfal_state f lb ub n).lb, (Cxx64.regfal_state f lb ub n).ub,
            .ok ((Cxx64.regfal_state f lb ub n).x, Cxx.report n)⟩) ∧
    (∃ n : Nat, 1 ≤ n ∧ n ≤ Clang.MAX_ITER ∧
      (F64.gt (Clang64.fzero_state f lb ub n).res Clang64.TOL = false ∨ n = Clang.MAX_ITER) ∧
      (∀ k : Nat, 1 ≤ k → k < n →
        ¬ (F64.gt (Clang64.fzero_state f lb ub k).res Clang64.TOL = false ∨ k = Clang.MAX_ITER)) ∧
      (Clang64.fzero_loop f (Clang64.check_bounds lb ub).1 (Clang64.check_bounds lb ub).2).n = n ∧
      Clang64.fzero verbose f lb ub =
          (if n ≠ Clang.MAX_ITER then .ok
              (Clang64.fzero_state f lb ub n).x else .error .noConvergence)) := by
  refine ⟨?_, ?_, ?_⟩
  · obtain ⟨n, h1, h2, hstop, hmin, hrun⟩ := f64_doWhile_first_hit Cxx.MAX_ITER Cxx64.TOL
      Cxx64.bisector f (Cxx64.check_bounds lb ub).1 (Cxx64.check_bounds lb ub).2 (by decide)
    have hloop : Cxx64.bisect_loop f (Cxx64.check_bounds lb ub).1 (Cxx64.check_bounds lb ub).2 =
        _ := hrun
    refine ⟨n, h1, h2, hstop, hmin, by rw [hloop], ?_⟩
    rw [cxx64_bisect_of_bracket f lb ub h, hloop]
    rfl
  · obtain ⟨n, h1, h2, hstop, hmin, hrun⟩ := f64_doWhile_first_hit Cxx.MAX_ITER Cxx64.TOL
      Cxx64.interp f (Cxx64.check_bounds lb ub).1 (Cxx64.check_bounds lb ub).2 (by decide)
    have hloop : Cxx64.regfal_loop f (Cxx64.check_bounds lb ub).1 (Cxx64.check_bounds lb ub).2 =
        _ := hrun
    refine ⟨n, h1, h2, hstop, hmin, by rw [hloop], ?_⟩
    rw [cxx64_regfal_of_bracket f lb ub h, hloop]
    rfl
  · obtain ⟨n, h1, h2, hstop, hmin, hrun⟩ := f64_doWhile_first_hit Clang.MAX_ITER Clang64.TOL
      Clang64.shift f (Clang64.check_bounds lb ub).1 (Clang64.check_bounds lb ub).2 (by decide)
    have hloop : Clang64.fzero_loop f (Clang64.check_bounds lb ub).1
        (Clang64.check_bounds lb ub).2 = _ := hrun
    refine ⟨n, h1, h2, hstop, hmin, by rw [hloop], ?_⟩
    rw [clang64_fzero_of_bracket verbose f lb ub h, hloop]
    rfl

/-- C8, amended, at `x * x - 2.0` on `[0, 2]`. -/
theorem C8_loop_ends_at_first_failed_test_witness :
    F64.gt (F64.mul (sqrtTwoFn64 F64.zero) (sqrtTwoFn64 F64.two)) F64.zero = false ∧
    ((∃ n : Nat, 1 ≤ n ∧ n ≤ Cxx.MAX_ITER ∧
      (F64.gt (Cxx64.bisect_state sqrtTwoFn64 F64.zero F64.two n).res Cxx64.TOL = false ∨
        n = Cxx.MAX_ITER) ∧ (∀ k : Nat, 1 ≤ k → k < n →
        ¬ (F64.gt (Cxx64.bisect_state sqrtTwoFn64 F64.zero F64.two k).res Cxx64.TOL = false ∨
          k = Cxx.MAX_ITER)) ∧
      (Cxx64.bisect_loop sqrtTwoFn64 (Cxx64.check_bounds F64.zero F64.two).1 (Cxx64.check_bounds
              F64.zero F64.two).2).n = n ∧
      Cxx64.bisect sqrtTwoFn64 F64.zero F64.two =
          ⟨(Cxx64.bisect_state sqrtTwoFn64 F64.zero F64.two n).lb, (Cxx64.bisect_state sqrtTwoFn64
              F64.zero F64.two n).ub, .ok ((Cxx64.bisect_state sqrtTwoFn64 F64.zero F64.two n).x,
              Cxx.report n)⟩) ∧
    (∃ n : Nat, 1 ≤ n ∧ n ≤ Cxx.MAX_ITER ∧
      (F64.gt (Cxx64.regfal_state sqrtTwoFn64 F64.zero F64.two n).res Cxx64.TOL = false ∨
        n = Cxx.MAX_ITER) ∧ (∀ k : Nat, 1 ≤ k → k < n →
        ¬ (F64.gt (Cxx64.regfal_state sqrtTwoFn64 F64.zero F64.two k).res Cxx64.TOL = false ∨
          k = Cxx.MAX_ITER)) ∧
      (Cxx64.regfal_loop sqrtTwoFn64 (Cxx64.check_bounds F64.zero F64.two).1 (Cxx64.check_bounds
              F64.zero F64.two).2).n = n ∧
      Cxx64.regfal sqrtTwoFn64 F64.zero F64.two =
          ⟨(Cxx64.regfal_state sqrtTwoFn64 F64.zero F64.two n).lb, (Cxx64.regfal_state sqrtTwoFn64
              F64.zero F64.two n).ub, .ok ((Cxx64.regfal_state sqrtTwoFn64 F64.zero F64.two n).x,
              Cxx.report n)⟩) ∧
    (∃ n : Nat, 1 ≤ n ∧ n ≤ Clang.MAX_ITER ∧
      (F64.gt (Clang64.fzero_state sqrtTwoFn64 F64.zero F64.two n).res Clang64.TOL = false ∨
        n = Clang.MAX_ITER) ∧ (∀ k : Nat, 1 ≤ k → k < n →
        ¬ (F64.gt (Clang64.fzero_state sqrtTwoFn64 F64.zero F64.two k).res Clang64.TOL = false ∨
          k = Clang.MAX_ITER)) ∧
      (Clang64.fzero_loop sqrtTwoFn64 (Clang64.check_bounds F64.zero F64.two).1
            (Clang64.check_bounds F64.zero F64.two).2).n = n ∧
      Clang64.fzero true sqrtTwoFn64 F64.zero F64.two =
          (if n ≠ Clang.MAX_ITER then .ok
              (Clang64.fzero_state sqrtTwoFn64 F64.zero F64.two n).x else
            .error .noConvergence))) :=
  ⟨by decide, C8_loop_ends_at_first_failed_test true sqrtTwoFn64 F64.zero F64.two
    (by decide)⟩

/-- C8, as stated, fails on doubles at `regfal` with `f(x) = x * (x - 1.0)` on `[0, 1]`:
the interval passes the bracket check (the computed product is `-0`), the first estimate is
`0/0`, a NaN, and so is its residual; the loop leaves with `n = 1` although the residual of
step 1 is not `<= TOL` and `1` is not `MAX_ITER`, and `regfal` returns the NaN with the line
"solution found in 1 iterations". -/
theorem C8_counterexample_nan_ends_loop :
    F64.gt (F64.mul (twoRootsFn F64.zero) (twoRootsFn F64.one)) F64.zero = false ∧
    Cxx64.regfal_loop twoRootsFn F64.zero F64.one =
      ⟨F64.nan, F64.one, F64.nan, F64.nan, 1⟩ ∧
    (Cxx64.regfal_state twoRootsFn F64.zero F64.one 1).res = F64.nan ∧
    F64.le F64.nan Cxx64.TOL = false ∧ 1 ≠ Cxx.MAX_ITER ∧
    Cxx64.regfal twoRootsFn F64.zero F64.one =
      ⟨F64.nan, F64.one, .ok (F64.nan, .solutionFound 1)⟩ := by
  have hb : Cxx64.check_bounds F64.zero F64.one = (F64.zero, F64.one) := by decide
  have hs : Cxx64.interp twoRootsFn F64.zero F64.one =
      ⟨F64.nan, F64.one, F64.nan, F64.nan⟩ := by decide
  have hl : Cxx64.regfal_loop twoRootsFn F64.zero F64.one =
      ⟨F64.nan, F64.one, F64.nan, F64.nan, 1⟩ := by
    have := f64_doWhile_first_step Cxx.MAX_ITER Cxx64.TOL Cxx64.interp twoRootsFn
      F64.zero F64.one (by decide) (by rw [hs]; decide)
    rw [hs] at this
    exact this
  refine ⟨by decide, hl, by decide, by decide, by decide, ?_⟩
  rw [cxx64_regfal_of_bracket twoRootsFn _ _ (by decide), hb]
  simp only [hl]
  rfl

/-- C9 fails on the code at `bisect` with `f(x) = x - 1` and the bounds `(0, 2^100)`:
steps 1 to 99 have residual `2^(100-k) - 1 > TOL`, step 100 has the midpoint `1` with residual
`0 ≤ TOL`, the loop ends with `n = 100 = MAX_ITER`, and `report` prints "method failed". -/
theorem C9_convergence_at_cap_reported_as_failure :
    linearFn 0 * linearFn (2 ^ 100) ≤ 0 ∧
    Cxx.bisect_loop linearFn 0 (2 ^ 100) = ⟨1, 2, 1, 0, 100⟩ ∧
    (Cxx.bisect_loop linearFn 0 (2 ^ 100)).fn ≤ Cxx.TOL ∧
    Cxx.bisect linearFn 0 (2 ^ 100) = ⟨1, 2, .ok (1, .methodFailed)⟩ := by
  have hloop : Cxx.bisect_loop linearFn 0 (2 ^ 100) = ⟨1, 2, 1, 0, 100⟩ :=
    cxx_bisect_loop_linearFn_pow 99 0 (by decide) rfl
  have hprod : linearFn 0 * linearFn (2 ^ 100) ≤ 0 := by norm_num [linearFn]
  have hb : Cxx.check_bounds (0 : ℚ) (2 ^ 100) = (0, 2 ^ 100) := by
    rw [cxx_check_bounds_eq, if_pos (by positivity)]
  refine ⟨hprod, hloop, ?_, ?_⟩
  · rw [hloop]
    exact le_of_lt cxx_TOL_pos
  · rw [cxx_bisect_of_bracket linearFn 0 (2 ^ 100) hprod, hb]
    simp only [hloop]
    rfl

/-- C10, amended: on doubles, when `f(ub) == f(lb)` at an interpolation step, `interp` and
`shift` raise no error: the denominator `f(ub) - f(lb)` is a zero or a NaN, the interpolation
estimate is not a finite number (a NaN or an infinity), `interp` takes it as its estimate and
`shift` takes it or the midpoint, and both return the residual `absval (f x)` of the estimate
taken; `regfal` and `fzero` surface no degenerate-interval error: `regfal` throws only the
no-root error, exactly when the computed product `f(lb) * f(ub)` is `> 0`, and otherwise
returns an estimate with its report line; `fzero` leaves with the no-root error exactly when
that product is `> 0`. -/
theorem C10_equal_values_give_non_finite_estimate (verbose : Bool) (f : F64 → F64)
    (lb ub : F64) (h : F64.eq (f ub) (f lb) = true) :
    F64.isFinite (Cxx64.interp f lb ub).x = false ∧
    ((Clang64.shift f lb ub).x = F64.mul (F64.ofRatio 1 2) (F64.add lb ub) ∨
      F64.isFinite (Clang64.shift f lb ub).x = false) ∧
    (Cxx64.interp f lb ub).res = F64.absval (f (Cxx64.interp f lb ub).x) ∧
    (Clang64.shift f lb ub).res = F64.absval (f (Clang64.shift f lb ub).x) ∧
    ((Cxx64.regfal f lb ub).result = .error .noRoot ↔
      F64.gt (F64.mul (f lb) (f ub)) F64.zero = true) ∧
    (F64.gt (F64.mul (f lb) (f ub)) F64.zero = false →
      ∃ (x : F64) (r : Cxx.Report), (Cxx64.regfal f lb ub).result = .ok (x, r)) ∧
    (Clang64.fzero verbose f lb ub = .error .noRoot ↔
      F64.gt (F64.mul (f lb) (f ub)) F64.zero = true) := by
  have hden := f64_sub_of_eq (f ub) (f lb) h
  have hxf : F64.isFinite (F64.div (F64.sub (F64.mul lb (f ub)) (F64.mul ub (f lb)))
      (F64.sub (f ub) (f lb))) = false := f64_div_not_finite _ _ hden
  refine ⟨?_, ?_, cxx64_interp_res f lb ub, clang64_shift_res f lb ub, ?_, ?_, ?_⟩
  · rw [cxx64_interp_x]
    exact hxf
  · rw [clang64_shift_x]
    split_ifs
    · exact Or.inl rfl
    · exact Or.inr hxf
  · cases hg : F64.gt (F64.mul (f lb) (f ub)) F64.zero
    · rw [cxx64_regfal_of_bracket f lb ub hg]
      simp
    · rw [cxx64_regfal_of_no_bracket f lb ub hg]
      simp
  · intro hg
    rw [cxx64_regfal_of_bracket f lb ub hg]
    exact ⟨_, _, rfl⟩
  · cases hg : F64.gt (F64.mul (f lb) (f ub)) F64.zero
    · rw [clang64_fzero_of_bracket verbose f lb ub hg]
      split_ifs <;> simp
    · rw [clang64_fzero_of_no_bracket verbose f lb ub hg]
      simp

/-- C10, amended, at `f(x) = 0.` on `[0, 1]`. -/
theorem C10_equal_values_give_non_finite_estimate_witness :
    F64.eq (zeroFn64 F64.one) (zeroFn64 F64.zero) = true ∧
    (F64.isFinite (Cxx64.interp zeroFn64 F64.zero F64.one).x = false ∧
    ((Clang64.shift zeroFn64 F64.zero F64.one).x =
          F64.mul (F64.ofRatio 1 2) (F64.add F64.zero F64.one) ∨
      F64.isFinite (Clang64.shift zeroFn64 F64.zero F64.one).x = false) ∧
    (Cxx64.interp zeroFn64 F64.zero F64.one).res =
        F64.absval (zeroFn64 (Cxx64.interp zeroFn64 F64.zero F64.one).x) ∧
    (Clang64.shift zeroFn64 F64.zero F64.one).res =
        F64.absval (zeroFn64 (Clang64.shift zeroFn64 F64.zero F64.one).x) ∧
    ((Cxx64.regfal zeroFn64 F64.zero F64.one).result = .error .noRoot ↔
      F64.gt (F64.mul (zeroFn64 F64.zero) (zeroFn64 F64.one)) F64.zero = true) ∧
    (F64.gt (F64.mul (zeroFn64 F64.zero) (zeroFn64 F64.one)) F64.zero = false →
      ∃ (x : F64) (r : Cxx.Report), (Cxx64.regfal zeroFn64 F64.zero F64.one).result = .ok (x, r)) ∧
    (Clang64.fzero true zeroFn64 F64.zero F64.one = .error .noRoot ↔
      F64.gt (F64.mul (zeroFn64 F64.zero) (zeroFn64 F64.one)) F64.zero = true)) :=
  ⟨by decide, C10_equal_values_give_non_finite_estimate true zeroFn64 F64.zero F64.one
    (by decide)⟩

/-- C10, as stated, fails on doubles at `f(x) = 0.` on `[0, 1]`: `f(ub) == f(lb)` at the
first interpolation step, the estimate is `0/0`, a NaN, and no error is raised: `regfal`
returns the NaN with the line "solution found in 1 iterations" and `fzero` returns the
NaN. -/
theorem C10_counterexample_nan_estimate_no_error :
    F64.eq (zeroFn64 F64.one) (zeroFn64 F64.zero) = true ∧
    (Cxx64.interp zeroFn64 F64.zero F64.one).x = F64.nan ∧
    (Clang64.shift zeroFn64 F64.zero F64.one).x = F64.nan ∧
    Cxx64.regfal zeroFn64 F64.zero F64.one =
      ⟨F64.nan, F64.one, .ok (F64.nan, .solutionFound 1)⟩ ∧
    Clang64.fzero true zeroFn64 F64.zero F64.one = .ok F64.nan := by
  have hb : Cxx64.check_bounds F64.zero F64.one = (F64.zero, F64.one) := by decide
  have hb2 : Clang64.check_bounds F64.zero F64.one = (F64.zero, F64.one) := by decide
  have hs : Cxx64.interp zeroFn64 F64.zero F64.one =
      ⟨F64.nan, F64.one, F64.nan, F64.zero⟩ := by decide
  have hs2 : Clang64.shift zeroFn64 F64.zero F64.one =
      ⟨F64.nan, F64.one, F64.nan, F64.zero⟩ := by decide
  have hl : Cxx64.regfal_loop zeroFn64 F64.zero F64.one = _ :=
    f64_doWhile_first_step Cxx.MAX_ITER Cxx64.TOL Cxx64.interp zeroFn64
      F64.zero F64.one (by decide) (by rw [hs]; decide)
  have hl2 : Clang64.fzero_loop zeroFn64 F64.zero F64.one = _ :=
    f64_doWhile_first_step Clang.MAX_ITER Clang64.TOL Clang64.shift zeroFn64
      F64.zero F64.one (by decide) (by rw [hs2]; decide)
  refine ⟨by decide, by rw [hs], by rw [hs2], ?_, ?_⟩
  · rw [cxx64_regfal_of_bracket zeroFn64 _ _ (by decide), hb]
    simp only [hl, hs]
    rfl
  · rw [clang64_fzero_of_bracket true zeroFn64 _ _ (by decide), hb2]
    simp only [hl2, hs2]
    rfl

/-- C11 fails on the code at `bisector` with `f(x) = x` and the bounds `(0, 2)`: the product
`f(0) * f(2)` is `0`, the step tests `f(0) * f(1) < 0`, which is false, and moves `lb` to the
midpoint `1`, so the bounds become `(1, 2)` with `f(1) * f(2) = 2 > 0`.  The interval passes
`check_bracket`, and `bisect` on it, having lost the root `0`, runs to `MAX_ITER` and prints
"method failed". -/
theorem C11_bisector_loses_root_at_lower_bound :
    (fun x : ℚ => x) 0 * (fun x : ℚ => x) 2 ≤ 0 ∧
    Cxx.bisector (fun x : ℚ => x) 0 2 = ⟨1, 2, 1, 1⟩ ∧
    (fun x : ℚ => x) (Cxx.bisector (fun x : ℚ => x) 0 2).lb *
      (fun x : ℚ => x) (Cxx.bisector (fun x : ℚ => x) 0 2).ub > 0 ∧
    Cxx.check_bracket (fun x : ℚ => x) 0 2 = .ok () ∧
    ∃ x : ℚ, (Cxx.bisect (fun x : ℚ => x) 0 2).result = .ok (x, .methodFailed) := by
  have hstep : Cxx.bisector (fun x : ℚ => x) 0 2 = ⟨1, 2, 1, 1⟩ := by
    unfold Cxx.bisector
    norm_num
  have hprod : (fun x : ℚ => x) 0 * (fun x : ℚ => x) 2 ≤ 0 := by norm_num
  have hb : Cxx.check_bounds (0 : ℚ) 2 = (0, 2) := by
    rw [cxx_check_bounds_eq, if_pos (by norm_num)]
  refine ⟨hprod, hstep, ?_, cxx_check_bracket_ok _ 0 2 hprod, ?_⟩
  · rw [hstep]
    norm_num
  · refine ⟨(Cxx.bisect_loop (fun x : ℚ => x) 0 2).x, ?_⟩
    rw [cxx_bisect_of_bracket _ 0 2 hprod, hb]
    simp only [cxx_bisect_loop_id]
    rfl

/-- C14: for `f(x) = x² - 2` on the interval `[0, 2]` (exact arithmetic, `TOL = 1e-6`),
`bisect` reports success after `22 ≤ 30` iterations and returns `x = 2965821 / 2097152`,
which satisfies `|x² - 2| ≤ 1e-6` and agrees with `√2` to within `1e-6`. -/
theorem C14_bisect_finds_sqrt_two :
    Cxx.bisect sqrtTwoFn 0 2 =
      ⟨741455 / 524288, 2965821 / 2097152,
        .ok (2965821 / 2097152, .solutionFound 22)⟩ ∧
    Cxx.bisect_steps sqrtTwoFn 0 2 = 22 ∧ Cxx.bisect_steps sqrtTwoFn 0 2 ≤ 30 ∧
    |sqrtTwoFn (2965821 / 2097152)| ≤ Cxx.TOL ∧
    |((2965821 / 2097152 : ℚ) : ℝ) - Real.sqrt 2| ≤ 1 / 1000000 := by
  have hb : Cxx.check_bounds (0 : ℚ) 2 = (0, 2) := by
    rw [cxx_check_bounds_eq, if_pos (by norm_num)]
  have hn : Cxx.bisect_steps sqrtTwoFn 0 2 = 22 := by
    unfold Cxx.bisect_steps
    rw [hb]
    simp only [cxx_bisect_loop_sqrtTwoFn]
  refine ⟨?_, hn, by rw [hn]; decide, ?_, ?_⟩
  · rw [cxx_bisect_of_bracket sqrtTwoFn 0 2 (by norm_num [sqrtTwoFn]), hb]
    simp only [cxx_bisect_loop_sqrtTwoFn]
    rfl
  · unfold Cxx.TOL
    norm_num [sqrtTwoFn, abs_le]
  · refine near_sqrt_two _ (by norm_num) ?_
    rw [abs_le]
    constructor <;> norm_num

/-- C19, amended: on doubles, for every run of `bisect`, `regfal` and `fzero` from an
interval that passes the bracket check, the estimate at the exit of the loop (the value
`bisect` and `regfal` return, and the value `fzero` returns unless its `report` ends the
process) is equal to one of the two final bounds; in `bisect`, from bounds that are doubles
of magnitude below `2^1023`, it also lies in the closed initial interval, whichever way
round the bounds were given.  The estimate of `regfal` and `fzero` need not lie in the
initial interval. -/
theorem C19_estimate_is_a_final_bound (verbose : Bool) (f : F64 → F64) (lb ub : F64)
    (h : F64.gt (F64.mul (f lb) (f ub)) F64.zero = false) (hv1 : F64.valid lb = true)
    (hv2 : F64.valid ub = true) (h1 : F64.lt (F64.absval lb) F64.twoPow1023 = true)
    (h2 : F64.lt (F64.absval ub) F64.twoPow1023 = true) :
    (∃ (x : F64) (r : Cxx.Report), (Cxx64.bisect f lb ub).result = .ok (x, r) ∧
      (x = (Cxx64.bisect f lb ub).lb ∨ x = (Cxx64.bisect f lb ub).ub) ∧ ((F64.le lb x = true ∧
          F64.le x ub = true) ∨ (F64.le ub x = true ∧ F64.le x lb = true))) ∧
    (∃ (x : F64) (r : Cxx.Report), (Cxx64.regfal f lb ub).result = .ok (x, r) ∧
      (x = (Cxx64.regfal f lb ub).lb ∨ x = (Cxx64.regfal f lb ub).ub)) ∧
    (((Clang64.fzero_loop f (Clang64.check_bounds lb ub).1 (Clang64.check_bounds lb ub).2).x =
            (Clang64.fzero_loop f (Clang64.check_bounds lb ub).1 (Clang64.check_bounds lb ub).2).lb
            ∨
        (Clang64.fzero_loop f (Clang64.check_bounds lb ub).1 (Clang64.check_bounds lb ub).2).x =
            (Clang64.fzero_loop f (Clang64.check_bounds lb ub).1 (Clang64.check_bounds lb ub).2).ub)
          ∧
      (Clang64.fzero verbose f lb ub =
            .ok (Clang64.fzero_loop f (Clang64.check_bounds lb ub).1 (Clang64.check_bounds lb
                ub).2).x ∨
        Clang64.fzero verbose f lb ub = .error .noConvergence)) := by
  refine ⟨?_, ?_, ?_⟩
  · obtain ⟨n, hn1, -, -, -, hrun⟩ := f64_doWhile_first_hit Cxx.MAX_ITER Cxx64.TOL
      Cxx64.bisector f (Cxx64.check_bounds lb ub).1 (Cxx64.check_bounds lb ub).2 (by decide)
    have hloop : Cxx64.bisect_loop f (Cxx64.check_bounds lb ub).1
        (Cxx64.check_bounds lb ub).2 = _ := hrun
    obtain ⟨m, rfl⟩ : ∃ m, n = m + 1 := ⟨n - 1, by omega⟩
    obtain ⟨-, -, -, n6, n7⟩ := cxx64_bisect_state_nested f lb ub hv1 hv2 h1 h2 m
    obtain ⟨-, -, i3, -, i5⟩ := cxx64_bisect_state_inv f lb ub hv1 hv2 h1 h2 m
    have b1 := f64_le_trans _ _ _ i3 n6
    have b2 := f64_le_trans _ _ _ n7 i5
    rw [cxx64_bisect_of_bracket f lb ub h, hloop]
    refine ⟨_, _, rfl, ?_, ?_⟩
    · rcases cxx64_bisector_bounds f (Cxx64.bisect_state f lb ub m).lb
        (Cxx64.bisect_state f lb ub m).ub with ⟨-, e⟩ | ⟨e, -⟩
      · exact Or.inr e.symm
      · exact Or.inl e.symm
    · rcases cxx64_check_bounds_cases lb ub with e | e
      · rw [e] at b1 b2
        exact Or.inl ⟨b1, b2⟩
      · rw [e] at b1 b2
        exact Or.inr ⟨b1, b2⟩
  · obtain ⟨-, -, -, -, hx⟩ := cxx64_regfal_loop_exit f (Cxx64.check_bounds lb ub).1
      (Cxx64.check_bounds lb ub).2
    rw [cxx64_regfal_of_bracket f lb ub h]
    exact ⟨_, _, rfl, hx⟩
  · obtain ⟨-, -, -, -, hx⟩ := clang64_fzero_loop_exit f (Clang64.check_bounds lb ub).1
      (Clang64.check_bounds lb ub).2
    refine ⟨hx, ?_⟩
    rw [clang64_fzero_of_bracket verbose f lb ub h]
    split_ifs
    · exact Or.inl rfl
    · exact Or.inr rfl

/-- C19, amended, at `x * x - 2.0` with the bounds given as `(2, 0)`. -/
theorem C19_estimate_is_a_final_bound_witness :
    F64.gt (F64.mul (sqrtTwoFn64 F64.two) (sqrtTwoFn64 F64.zero)) F64.zero = false ∧
    F64.valid F64.two = true ∧ F64.valid F64.zero = true ∧
    F64.lt (F64.absval F64.two) F64.twoPow1023 = true ∧
    F64.lt (F64.absval F64.zero) F64.twoPow1023 = true ∧
    ((∃ (x : F64) (r : Cxx.Report), (Cxx64.bisect sqrtTwoFn64 F64.two F64.zero).result = .ok (x,
        r) ∧
      (x = (Cxx64.bisect sqrtTwoFn64 F64.two F64.zero).lb ∨
        x = (Cxx64.bisect sqrtTwoFn64 F64.two F64.zero).ub) ∧ ((F64.le F64.two x = true ∧
          F64.le x F64.zero = true) ∨ (F64.le F64.zero x = true ∧ F64.le x F64.two = true))) ∧
    (∃ (x : F64) (r : Cxx.Report), (Cxx64.regfal sqrtTwoFn64 F64.two F64.zero).result = .ok (x, r) ∧
      (x = (Cxx64.regfal sqrtTwoFn64 F64.two F64.zero).lb ∨
        x = (Cxx64.regfal sqrtTwoFn64 F64.two F64.zero).ub)) ∧
    (((Clang64.fzero_loop sqrtTwoFn64 (Clang64.check_bounds F64.two F64.zero).1
              (Clang64.check_bounds F64.two F64.zero).2).x =
            (Clang64.fzero_loop sqrtTwoFn64 (Clang64.check_bounds F64.two F64.zero).1
              (Clang64.check_bounds F64.two F64.zero).2).lb ∨
        (Clang64.fzero_loop sqrtTwoFn64 (Clang64.check_bounds F64.two F64.zero).1
              (Clang64.check_bounds F64.two F64.zero).2).x =
            (Clang64.fzero_loop sqrtTwoFn64 (Clang64.check_bounds F64.two F64.zero).1
              (Clang64.check_bounds F64.two F64.zero).2).ub) ∧
      (Clang64.fzero true sqrtTwoFn64 F64.two F64.zero =
            .ok (Clang64.fzero_loop sqrtTwoFn64 (Clang64.check_bounds F64.two F64.zero).1
              (Clang64.check_bounds F64.two F64.zero).2).x ∨
        Clang64.fzero true sqrtTwoFn64 F64.two F64.zero = .error .noConvergence))) :=
  ⟨by decide, by decide, by decide, by decide, by decide,
    C19_estimate_is_a_final_bound true sqrtTwoFn64 F64.two F64.zero (by decide) (by decide)
      (by decide) (by decide) (by decide)⟩

/-- C19, as stated, fails on doubles at `regfal` with `f(x) = 0.1 * (x - 123.456)` on
`[123.45599999999999, 123.45600000000003]`, a valid bracket (the computed product is
`< 0`): the rounded secant estimate `123.45599999999997` lies below the initial lower bound,
and `regfal` returns it with the line "solution found in 1 iterations".  So does `fzero`
with the same `f` on `[123.45599999999999, 123.4560000000024]`. -/
theorem C19_counterexample_estimate_below_interval :
    F64.lt (F64.mul (shallowLineFn nearLo) (shallowLineFn nearHi)) F64.zero = true ∧
    F64.lt nearLo nearHi = true ∧
    Cxx64.regfal shallowLineFn nearLo nearHi = ⟨nearBelow, nearHi, .ok (nearBelow,
        .solutionFound 1)⟩ ∧
    F64.lt nearBelow nearLo = true ∧ F64.le nearLo nearBelow = false ∧
    F64.lt (F64.mul (shallowLineFn nearLo) (shallowLineFn farHi)) F64.zero = true ∧
    F64.lt nearLo farHi = true ∧
    Clang64.fzero true shallowLineFn nearLo farHi = .ok nearBelow := by
  have hb : Cxx64.check_bounds nearLo nearHi = (nearLo, nearHi) := by decide
  have hs : Cxx64.interp shallowLineFn nearLo nearHi =
      ⟨nearBelow, nearHi, nearBelow, F64.absval (shallowLineFn nearBelow)⟩ := by decide
  have hl := f64_doWhile_first_step Cxx.MAX_ITER Cxx64.TOL Cxx64.interp shallowLineFn
      nearLo nearHi (by decide) (by rw [hs]; decide)
  have hl2 : Cxx64.regfal_loop shallowLineFn nearLo nearHi = _ := hl
  have hb3 : Clang64.check_bounds nearLo farHi = (nearLo, farHi) := by decide
  have hs3 : Clang64.shift shallowLineFn nearLo farHi =
      ⟨nearBelow, farHi, nearBelow, F64.absval (shallowLineFn nearBelow)⟩ := by decide
  have hl3 := f64_doWhile_first_step Clang.MAX_ITER Clang64.TOL Clang64.shift shallowLineFn
      nearLo farHi (by decide) (by rw [hs3]; decide)
  have hl4 : Clang64.fzero_loop shallowLineFn nearLo farHi = _ := hl3
  refine ⟨by decide, by decide, ?_, by decide, by decide, by decide, by decide, ?_⟩
  · rw [cxx64_regfal_of_bracket shallowLineFn _ _ (by decide), hb]
    simp only [hl2, hs]
    rfl
  · rw [clang64_fzero_of_bracket true shallowLineFn _ _ (by decide), hb3]
    simp only [hl4, hs3]
    rfl

end Claims
